import Mathlib

/-!
Migra: execution engines, tenant fan-out and the execution state store

A shallow embedding of the Go packages `pkg/migra`, `internal/state`,
`internal/adapter`, `internal/engine`, `internal/tenant` (executor) and
`internal/config` (validator).

Conventions of the embedding

* A Go `error` value is an `Option String`: `none` is `nil`, `some t` is an
  error whose `Error()` text is `t`.
* A Go pointer that may be `nil` is an `Option`; a Go map that may be `nil`
  is an `Option (Map V)`.
* Code that can hit a nil-pointer dereference returns an `Option`: `none`
  stands for the run-time panic.
* The state model is given twice. `State` is the state as the package builds
  it: every record of its maps sits behind a non-nil pointer and a counter is
  an integer with room above it; the engines and the persistence are stated
  over it. `HeapState` is the state with its pointers, nil included, and its
  64-bit `int` counters, whatever a state file has put there; the record
  operations are stated over it. `State.toHeap_RecordServiceExecution` and
  `State.toHeap_RecordTenantExecution` show that the two agree where both
  apply.
* The parallel engine is given twice. `ParallelEngine` takes an adapter method
  as a function of the service and the tenant. `CtxParallelEngine` has the
  context argument of the methods, which a failure cancels under
  stop-on-failure. `CtxParallelEngine.step_ignoringContext` shows that the
  first is the second for adapters that do not look at their context.
* `time.Now()` reads a `Clock`, an explicit stream of readings.
* An error of the file system wrapped with `%w` is represented by the text of
  its wrapper.
* Logger calls have no effect on any value computed here and are left out.
-/

namespace Migra

/-! ## Time -/

/-- An instant (`time.Time`), as a count of nanoseconds; `0` is the zero value. -/
abbrev Time := Int

/-- A `time.Duration`: a signed count of nanoseconds. -/
structure Duration where
  ns : Int
deriving DecidableEq, Repr

/-- The digit character of a number below ten. -/
def digitChar (d : Nat) : Char := Char.ofNat (48 + d % 10)

/-- Go's `fmtFrac` (package `time`): the fractional part of `v / 10^prec`
without trailing zeros, with its leading point, together with the integral
part. -/
def fmtFrac : Nat → Nat → Bool → List Char → List Char × Nat
  | 0, v, pr, acc => (if pr then '.' :: acc else acc, v)
  | i + 1, v, pr, acc =>
    let digit := v % 10
    let pr := pr || digit != 0
    fmtFrac i (v / 10) pr (if pr then digitChar digit :: acc else acc)

/-- Go's `time.Duration.String` (standard library), the text stored in
`LastDuration`. -/
def Duration.String (d : Duration) : String :=
  let u := d.ns.natAbs
  let body : List Char :=
    if u < 1000000000 then
      if u = 0 then "0s".toList
      else if u < 1000 then
        let (f, v) := fmtFrac 0 u false []
        (toString v).toList ++ f ++ "ns".toList
      else if u < 1000000 then
        let (f, v) := fmtFrac 3 u false []
        (toString v).toList ++ f ++ "µs".toList
      else
        let (f, v) := fmtFrac 6 u false []
        (toString v).toList ++ f ++ "ms".toList
    else
      let (f, v) := fmtFrac 9 u false []
      let secs := (toString (v % 60)).toList ++ f ++ "s".toList
      let v := v / 60
      if v > 0 then
        let mins := (toString (v % 60)).toList ++ "m".toList ++ secs
        let v := v / 60
        if v > 0 then (toString v).toList ++ "h".toList ++ mins else mins
      else secs
  String.mk (if d.ns < 0 then '-' :: body else body)

/-- The stream of readings `time.Now()` returns, and how many were taken. -/
structure Clock where
  readings : Nat → Time
  reads : Nat

/-- One call of `time.Now()`. -/
def Clock.Now (c : Clock) : Time × Clock :=
  (c.readings c.reads, { c with reads := c.reads + 1 })

/-! ## Go maps with string keys -/

/-- A Go `map[string]V` (non-nil): an association list read by first match. -/
abbrev Map (V : Type) := List (String × V)

/-- Map lookup `m[k]`, `none` when the key is absent. -/
def Map.get {V : Type} : Map V → String → Option V
  | [], _ => none
  | (k', v) :: t, k => if k' = k then some v else Map.get t k

/-- Map assignment `m[k] = v`. -/
def Map.set {V : Type} : Map V → String → V → Map V
  | [], k, v => [(k, v)]
  | (k', v') :: t, k, v => if k' = k then (k, v) :: t else (k', v') :: Map.set t k v

/-! ## State model (internal/state/model.go) -/

/-- ServiceState represents the state of a service. -/
structure ServiceState where
  LastRun : Time := 0
  LastResult : String := ""
  LastError : String := ""
  SuccessCount : Int := 0
  FailureCount : Int := 0
  LastDuration : String := ""
deriving DecidableEq, Repr

/-- TenantState represents the state of a tenant. -/
structure TenantState where
  LastRun : Time := 0
  Services : Option (Map ServiceState) := none
  SuccessCount : Int := 0
  FailureCount : Int := 0
deriving DecidableEq, Repr

/-- State represents the orchestration state. -/
structure State where
  LastExecution : Time := 0
  Services : Option (Map ServiceState) := none
  Tenants : Option (Map TenantState) := none
  Version : String := ""
deriving DecidableEq, Repr

/-- NewState creates a new state instance. -/
def NewState : State :=
  { Services := some [], Tenants := some [], Version := "1.0" }

/-- GetServiceState gets or creates a service state; the second component is
the state after the call (the map made, the record inserted). -/
def State.GetServiceState (s : State) (serviceName : String) : ServiceState × State :=
  let services : Map ServiceState :=
    match s.Services with
    | none => []
    | some m => m
  match Map.get services serviceName with
  | some state => (state, { s with Services := some services })
  | none => ({}, { s with Services := some (Map.set services serviceName {}) })

/-- GetTenantState gets or creates a tenant state. -/
def State.GetTenantState (s : State) (tenantID : String) : TenantState × State :=
  let tenants : Map TenantState :=
    match s.Tenants with
    | none => []
    | some m => m
  match Map.get tenants tenantID with
  | some state => (state, { s with Tenants := some tenants })
  | none =>
    ({ Services := some [] },
     { s with Tenants := some (Map.set tenants tenantID { Services := some [] }) })

/-- RecordServiceExecution records a service execution result. The record is
reached through a pointer in Go; here the updated record is stored back under
its key. -/
def State.RecordServiceExecution (s : State) (serviceName : String) (success : Bool)
    (duration : Duration) (err : Option String) (clk : Clock) : State × Clock :=
  let (state, s) := s.GetServiceState serviceName
  let (now, clk) := clk.Now
  let state := { state with LastRun := now, LastDuration := duration.String }
  let state : ServiceState :=
    if success then
      { state with
        LastResult := "success", SuccessCount := state.SuccessCount + 1, LastError := "" }
    else
      let state :=
        { state with LastResult := "failure", FailureCount := state.FailureCount + 1 }
      match err with
      | some text => { state with LastError := text }
      | none => state
  let s := { s with Services := s.Services.map (fun m => Map.set m serviceName state) }
  let (now, clk) := clk.Now
  ({ s with LastExecution := now }, clk)

/-- RecordTenantExecution records a tenant execution result. -/
def State.RecordTenantExecution (s : State) (tenantID serviceName : String) (success : Bool)
    (duration : Duration) (err : Option String) (clk : Clock) : State × Clock :=
  let (tenantState, s) := s.GetTenantState tenantID
  let (now, clk) := clk.Now
  let tenantState := { tenantState with LastRun := now }
  let services : Map ServiceState :=
    match tenantState.Services with
    | none => []
    | some m => m
  let serviceState : ServiceState :=
    match Map.get services serviceName with
    | some st => st
    | none => {}
  let (now, clk) := clk.Now
  let serviceState := { serviceState with LastRun := now, LastDuration := duration.String }
  let (serviceState, tenantState) : ServiceState × TenantState :=
    if success then
      ({ serviceState with
         LastResult := "success", SuccessCount := serviceState.SuccessCount + 1,
         LastError := "" },
       { tenantState with SuccessCount := tenantState.SuccessCount + 1 })
    else
      let serviceState :=
        { serviceState with
          LastResult := "failure", FailureCount := serviceState.FailureCount + 1 }
      let tenantState := { tenantState with FailureCount := tenantState.FailureCount + 1 }
      match err with
      | some text => ({ serviceState with LastError := text }, tenantState)
      | none => (serviceState, tenantState)
  let tenantState := { tenantState with Services := some (Map.set services serviceName serviceState) }
  let s := { s with Tenants := s.Tenants.map (fun m => Map.set m tenantID tenantState) }
  let (now, clk) := clk.Now
  ({ s with LastExecution := now }, clk)

/-- The record of a service in a state, `none` when the map is nil or has no
such key (`s.Services[name]`). -/
def State.serviceRecord (s : State) (name : String) : Option ServiceState :=
  match s.Services with
  | none => none
  | some m => Map.get m name

/-- The record of a tenant in a state (`s.Tenants[id]`). -/
def State.tenantRecord (s : State) (tenantID : String) : Option TenantState :=
  match s.Tenants with
  | none => none
  | some m => Map.get m tenantID

/-- The record of a service under a tenant (`s.Tenants[id].Services[name]`). -/
def State.tenantServiceRecord (s : State) (tenantID name : String) : Option ServiceState :=
  match s.tenantRecord tenantID with
  | none => none
  | some t =>
    match t.Services with
    | none => none
    | some m => Map.get m name

/-! ## State model with its pointers and machine integers (internal/state/model.go)

`State` above is the state as the package builds it, by `NewState` and its own
record operations: every record in a map sits behind a non-nil pointer, and a
counter is an integer with room above it. A state file can hold more than that,
and `json.Unmarshal` stores what it holds: `null` for a record leaves a nil
pointer in the map, and a counter can be any `int`. `HeapState` is the state
with these: the maps hold pointers, an `int` is of 64 bits and wraps, and an
assignment through a nil pointer panics. -/

/-- The largest value of a Go `int` (64 bits). -/
def maxInt : Int := 9223372036854775807

/-- The smallest value of a Go `int` (64 bits). -/
def minInt : Int := -9223372036854775808

/-- The Go `int` an arithmetic result is stored as: the result modulo `2^64`,
in two's complement. -/
def wrapInt (x : Int) : Int :=
  (x + 9223372036854775808) % 18446744073709551616 - 9223372036854775808

/-- TenantState, its map holding pointers. -/
structure HeapTenantState where
  LastRun : Time := 0
  Services : Option (Map (Option ServiceState)) := none
  SuccessCount : Int := 0
  FailureCount : Int := 0
deriving DecidableEq, Repr

/-- State, its maps holding pointers. -/
structure HeapState where
  LastExecution : Time := 0
  Services : Option (Map (Option ServiceState)) := none
  Tenants : Option (Map (Option HeapTenantState)) := none
  Version : String := ""
deriving DecidableEq, Repr

/-- GetServiceState gets or creates a service state: the pointer stored under
the name, nil when a nil pointer is stored, and the state after the call. -/
def HeapState.GetServiceState (s : HeapState) (serviceName : String) :
    Option ServiceState × HeapState :=
  let services : Map (Option ServiceState) :=
    match s.Services with
    | none => []
    | some m => m
  match Map.get services serviceName with
  | some state => (state, { s with Services := some services })
  | none => (some {}, { s with Services := some (Map.set services serviceName (some {})) })

/-- GetTenantState gets or creates a tenant state. -/
def HeapState.GetTenantState (s : HeapState) (tenantID : String) :
    Option HeapTenantState × HeapState :=
  let tenants : Map (Option HeapTenantState) :=
    match s.Tenants with
    | none => []
    | some m => m
  match Map.get tenants tenantID with
  | some state => (state, { s with Tenants := some tenants })
  | none =>
    (some { Services := some [] },
     { s with Tenants := some (Map.set tenants tenantID (some { Services := some [] })) })

/-- RecordServiceExecution records a service execution result; `none` is the
nil-pointer panic of the first assignment through a nil record. -/
def HeapState.RecordServiceExecution (s : HeapState) (serviceName : String) (success : Bool)
    (duration : Duration) (err : Option String) (clk : Clock) : Option (HeapState × Clock) :=
  let (state, s) := s.GetServiceState serviceName
  let (now, clk) := clk.Now
  match state with
  | none => none
  | some state =>
    let state := { state with LastRun := now, LastDuration := duration.String }
    let state : ServiceState :=
      if success then
        { state with
          LastResult := "success", SuccessCount := wrapInt (state.SuccessCount + 1),
          LastError := "" }
      else
        let state :=
          { state with
            LastResult := "failure", FailureCount := wrapInt (state.FailureCount + 1) }
        match err with
        | some text => { state with LastError := text }
        | none => state
    let s :=
      { s with Services := s.Services.map (fun m => Map.set m serviceName (some state)) }
    let (now, clk) := clk.Now
    some ({ s with LastExecution := now }, clk)

/-- RecordTenantExecution records a tenant execution result; `none` is the
nil-pointer panic of an assignment through a nil tenant record or a nil
service record. -/
def HeapState.RecordTenantExecution (s : HeapState) (tenantID serviceName : String)
    (success : Bool) (duration : Duration) (err : Option String) (clk : Clock) :
    Option (HeapState × Clock) :=
  let (tenantState, s) := s.GetTenantState tenantID
  let (now, clk) := clk.Now
  match tenantState with
  | none => none
  | some tenantState =>
    let tenantState := { tenantState with LastRun := now }
    let services : Map (Option ServiceState) :=
      match tenantState.Services with
      | none => []
      | some m => m
    let serviceState : Option ServiceState :=
      match Map.get services serviceName with
      | some st => st
      | none => some {}
    let (now, clk) := clk.Now
    match serviceState with
    | none => none
    | some serviceState =>
      let serviceState :=
        { serviceState with LastRun := now, LastDuration := duration.String }
      let (serviceState, tenantState) : ServiceState × HeapTenantState :=
        if success then
          ({ serviceState with
             LastResult := "success", SuccessCount := wrapInt (serviceState.SuccessCount + 1),
             LastError := "" },
           { tenantState with SuccessCount := wrapInt (tenantState.SuccessCount + 1) })
        else
          let serviceState :=
            { serviceState with
              LastResult := "failure", FailureCount := wrapInt (serviceState.FailureCount + 1) }
          let tenantState :=
            { tenantState with FailureCount := wrapInt (tenantState.FailureCount + 1) }
          match err with
          | some text => ({ serviceState with LastError := text }, tenantState)
          | none => (serviceState, tenantState)
      let tenantState :=
        { tenantState with
          Services := some (Map.set services serviceName (some serviceState)) }
      let s :=
        { s with Tenants := s.Tenants.map (fun m => Map.set m tenantID (some tenantState)) }
      let (now, clk) := clk.Now
      some ({ s with LastExecution := now }, clk)

/-! ## Persisted state file (internal/state/manager.go)

The content of a state file is represented by what `encoding/json` reads out
of it for the `State` schema: for every key of the schema either the value it
holds, or `none` when the key is missing or holds `null`. A file that
`json.Unmarshal` rejects is `corrupt`. -/

/-- The members of a service record object (`json` tags of `ServiceState`). -/
structure ServiceStateJSON where
  last_run : Option Time := none
  last_result : Option String := none
  last_error : Option String := none
  success_count : Option Int := none
  failure_count : Option Int := none
  last_duration : Option String := none
deriving DecidableEq, Repr

/-- The members of a tenant record object (`json` tags of `TenantState`). -/
structure TenantStateJSON where
  last_run : Option Time := none
  services : Option (Map ServiceStateJSON) := none
  success_count : Option Int := none
  failure_count : Option Int := none
deriving DecidableEq, Repr

/-- The members of the top-level object (`json` tags of `State`). -/
structure StateJSON where
  last_execution : Option Time := none
  services : Option (Map ServiceStateJSON) := none
  tenants : Option (Map TenantStateJSON) := none
  version : Option String := none
deriving DecidableEq, Repr

/-- What a file holds. -/
inductive FileData where
  | doc (d : StateJSON)
  | corrupt
deriving DecidableEq, Repr

/-- The value a scalar field takes from its member: the zero value when the
member is missing or null. -/
def fieldOr {α : Type} (zero : α) : Option α → α
  | none => zero
  | some v => v

/-- `json.Marshal` of a `*ServiceState`: `last_error` has `omitempty`. -/
def ServiceState.marshal (r : ServiceState) : ServiceStateJSON :=
  { last_run := some r.LastRun
    last_result := some r.LastResult
    last_error := if r.LastError = "" then none else some r.LastError
    success_count := some r.SuccessCount
    failure_count := some r.FailureCount
    last_duration := some r.LastDuration }

/-- `json.Unmarshal` into a `ServiceState`. -/
def ServiceStateJSON.unmarshal (j : ServiceStateJSON) : ServiceState :=
  { LastRun := fieldOr 0 j.last_run
    LastResult := fieldOr "" j.last_result
    LastError := fieldOr "" j.last_error
    SuccessCount := fieldOr 0 j.success_count
    FailureCount := fieldOr 0 j.failure_count
    LastDuration := fieldOr "" j.last_duration }

/-- `json.Marshal` of a `*TenantState`: a nil `Services` map is written as
`null`. -/
def TenantState.marshal (t : TenantState) : TenantStateJSON :=
  { last_run := some t.LastRun
    services := t.Services.map (fun m => m.map (fun kv => (kv.1, kv.2.marshal)))
    success_count := some t.SuccessCount
    failure_count := some t.FailureCount }

/-- `json.Unmarshal` into a `TenantState`. -/
def TenantStateJSON.unmarshal (j : TenantStateJSON) : TenantState :=
  { LastRun := fieldOr 0 j.last_run
    Services := j.services.map (fun m => m.map (fun kv => (kv.1, kv.2.unmarshal)))
    SuccessCount := fieldOr 0 j.success_count
    FailureCount := fieldOr 0 j.failure_count }

/-- `json.MarshalIndent` of the state: `tenants` has `omitempty` (left out
when the map is nil or has no entry), `services` has not (a nil map is
written as `null`). -/
def State.marshal (s : State) : StateJSON :=
  { last_execution := some s.LastExecution
    services := s.Services.map (fun m => m.map (fun kv => (kv.1, kv.2.marshal)))
    tenants :=
      match s.Tenants with
      | none => none
      | some [] => none
      | some m => some (m.map (fun kv => (kv.1, kv.2.marshal)))
    version := some s.Version }

/-- `json.Unmarshal` into a zero `State`. -/
def StateJSON.unmarshal (j : StateJSON) : State :=
  { LastExecution := fieldOr 0 j.last_execution
    Services := j.services.map (fun m => m.map (fun kv => (kv.1, kv.2.unmarshal)))
    Tenants := j.tenants.map (fun m => m.map (fun kv => (kv.1, kv.2.unmarshal)))
    Version := fieldOr "" j.version }

/-- The files of the file system, by path. -/
abbrev FS := Map FileData

/-- How `os.WriteFile` fails, when it does: before creating or truncating the
file, or after, leaving a partial file. -/
inductive WriteFault where
  | noFault
  | cannotOpen
  | partialWrite
deriving DecidableEq, Repr

/-- Which file-system calls of one `Load` or `Save` fail. -/
structure Faults where
  mkdir : Bool := false
  read : Bool := false
  write : WriteFault := WriteFault.noFault
  rename : Bool := false
  remove : Bool := false
deriving DecidableEq, Repr

/-- Removal of a path (`os.Remove`, and the source side of `os.Rename`). -/
def FS.erase (fs : FS) (path : String) : FS :=
  fs.filter (fun kv => kv.1 != path)

/-- Manager handles state persistence. -/
structure Manager where
  stateDir : String
  stateFile : String
  state : State
deriving DecidableEq, Repr

/-- The constant `defaultStateDir`. -/
def defaultStateDir : String := ".migra"

/-- The constant `defaultStateFile`. -/
def defaultStateFile : String := "state.json"

/-- Go's `filepath.Join` of two elements: empty elements are ignored, the
others joined by a slash (the lexical cleaning of the result is left out). -/
def filepathJoin (a b : String) : String :=
  if a = "" then b else if b = "" then a else a ++ "/" ++ b

/-- NewManager creates a new state manager. -/
def NewManager (workDir : String) : Manager :=
  let stateDir := filepathJoin workDir defaultStateDir
  { stateDir := stateDir
    stateFile := filepathJoin stateDir defaultStateFile
    state := NewState }

/-- Load loads the state from disk. Returns the error and the manager
afterwards. A missing state file gives a new state; an unreadable or
unparseable one gives an error and leaves the manager's state. -/
def Manager.Load (m : Manager) (fs : FS) (flt : Faults) : Option String × Manager :=
  if flt.mkdir then (some "failed to create state directory", m)
  else
    match Map.get fs m.stateFile with
    | none => (none, { m with state := NewState })
    | some data =>
      if flt.read then (some "failed to read state file", m)
      else
        match data with
        | FileData.corrupt => (some "failed to parse state file", m)
        | FileData.doc d => (none, { m with state := d.unmarshal })

/-- Save saves the state to disk atomically. Returns the error and the file
system afterwards. The temporary file is written whole, not at all, or in
part; a failed rename is followed by the removal of the temporary file, which
may fail in turn. -/
def Manager.Save (m : Manager) (fs : FS) (flt : Faults) : Option String × FS :=
  if flt.mkdir then (some "failed to create state directory", fs)
  else
    let data := FileData.doc m.state.marshal
    let tempFile := m.stateFile ++ ".tmp"
    match flt.write with
    | WriteFault.cannotOpen => (some "failed to write temporary state file", fs)
    | WriteFault.partialWrite =>
      (some "failed to write temporary state file", Map.set fs tempFile FileData.corrupt)
    | WriteFault.noFault =>
      let fs := Map.set fs tempFile data
      if flt.rename then
        (some "failed to save state file", if flt.remove then fs else FS.erase fs tempFile)
      else
        (none, FS.erase (Map.set fs m.stateFile data) tempFile)

/-- GetState returns the current state. -/
def Manager.GetState (m : Manager) : State := m.state

/-- UpdateState updates the state with a function, then saves. -/
def Manager.UpdateState (m : Manager) (fn : State → Clock → State × Clock) (fs : FS)
    (flt : Faults) (clk : Clock) : Option String × Manager × FS × Clock :=
  let (state, clk) := fn m.state clk
  let m := { m with state := state }
  let (err, fs) := m.Save fs flt
  (err, m, fs, clk)

/-- RecordServiceExecution records a service execution and saves state. -/
def Manager.RecordServiceExecution (m : Manager) (serviceName : String) (success : Bool)
    (duration : Duration) (err : Option String) (fs : FS) (flt : Faults) (clk : Clock) :
    Option String × Manager × FS × Clock :=
  m.UpdateState (fun s c => s.RecordServiceExecution serviceName success duration err c)
    fs flt clk

/-- RecordTenantExecution records a tenant execution and saves state. -/
def Manager.RecordTenantExecution (m : Manager) (tenantID serviceName : String)
    (success : Bool) (duration : Duration) (err : Option String) (fs : FS) (flt : Faults)
    (clk : Clock) : Option String × Manager × FS × Clock :=
  m.UpdateState
    (fun s c => s.RecordTenantExecution tenantID serviceName success duration err c)
    fs flt clk

/-- Clear clears all state. -/
def Manager.Clear (m : Manager) (fs : FS) (flt : Faults) : Option String × Manager × FS :=
  let m := { m with state := NewState }
  let (err, fs) := m.Save fs flt
  (err, m, fs)

/-! ## Shared types (pkg/migra/types.go) -/

/-- Service represents a microservice configuration. -/
structure Service where
  Name : String := ""
  /-- The Go field `Type`, a reserved word here. -/
  Type_ : String := ""
  Path : String := ""
  Env : Map String := []
  WorkingDir : String := ""
deriving DecidableEq, Repr

/-- Tenant represents a tenant in multi-tenant architecture. -/
structure Tenant where
  ID : String := ""
  Connection : Map String := []
deriving DecidableEq, Repr

/-- Result represents the result of an adapter operation. -/
structure Result where
  Success : Bool := false
  Output : String := ""
  Error : String := ""
  Duration : Duration := ⟨0⟩
  Timestamp : Time := 0
deriving DecidableEq, Repr

/-- StatusResult represents migration status information. -/
structure StatusResult where
  Applied : List String := []
  Pending : List String := []
  LastError : String := ""
deriving DecidableEq, Repr

/-- ServiceResult represents the result of a service migration. -/
structure ServiceResult where
  ServiceName : String := ""
  Success : Bool := false
  Duration : Duration := ⟨0⟩
  Error : String := ""
  Output : String := ""
deriving DecidableEq, Repr

/-- Operation defines the type of migration operation (a Go string type). -/
abbrev Operation := String

/-- The constant `OperationDeploy`. -/
def OperationDeploy : Operation := "deploy"

/-- The constant `OperationRollback`. -/
def OperationRollback : Operation := "rollback"

/-- The constant `OperationStatus`. -/
def OperationStatus : Operation := "status"

/-- Adapter defines the interface for framework-specific migration adapters.
Each method returns the Go pair (result pointer, error); the context argument
is left out. -/
structure Adapter where
  Deploy : Service → Option Tenant → Option Result × Option String
  Rollback : Service → Option Tenant → Int → Option Result × Option String
  Status : Service → Option Tenant → Option StatusResult × Option String
  Name : String

/-! ## Adapter registry (internal/adapter/registry.go) -/

/-- Registry manages adapter instances. -/
structure Registry where
  adapters : Map Adapter

/-- NewRegistry creates a new adapter registry. -/
def NewRegistry : Registry := { adapters := [] }

/-- Register registers an adapter with the registry. -/
def Registry.Register (r : Registry) (name : String) (adapter : Adapter) : Registry :=
  { adapters := Map.set r.adapters name adapter }

/-- Get retrieves an adapter by name. -/
def Registry.Get (r : Registry) (name : String) : Except String Adapter :=
  match Map.get r.adapters name with
  | none => Except.error ("adapter '" ++ name ++ "' not found")
  | some adapter => Except.ok adapter

/-- GetForService retrieves the appropriate adapter for a service. -/
def Registry.GetForService (r : Registry) (service : Service) : Except String Adapter :=
  r.Get service.Type_

/-! ## What the engines act on -/

/-- One call of an adapter method, as logged by the embedding. -/
inductive AdapterCall where
  | Deploy (service : Service) (tenant : Option Tenant)
  | Rollback (service : Service) (tenant : Option Tenant) (steps : Int)
  | Status (service : Service) (tenant : Option Tenant)
deriving DecidableEq, Repr

/-- Everything an engine run reads and changes: the state manager, the file
system under it with the faults each successive save meets, the clock, and
the log of adapter calls made. -/
structure World where
  mgr : Manager
  fs : FS
  clock : Clock
  faults : Nat → Faults
  saves : Nat
  calls : List AdapterCall

/-- One call of `time.Now()` in a world. -/
def World.Now (w : World) : Time × World :=
  let (now, clk) := w.clock.Now
  (now, { w with clock := clk })

/-- One call of `time.Since(start)` in a world. -/
def World.Since (w : World) (start : Time) : Duration × World :=
  let (now, w) := w.Now
  (⟨now - start⟩, w)

/-- The call `e.stateManager.RecordServiceExecution(...)` of the engines, whose
returned error is dropped. -/
def World.RecordServiceExecution (w : World) (serviceName : String) (success : Bool)
    (duration : Duration) (err : Option String) : World :=
  let (_, m, fs, clk) :=
    w.mgr.RecordServiceExecution serviceName success duration err w.fs (w.faults w.saves)
      w.clock
  { w with mgr := m, fs := fs, clock := clk, saves := w.saves + 1 }

/-- The call `e.stateManager.RecordTenantExecution(...)` of the tenant executor,
whose returned error is dropped. -/
def World.RecordTenantExecution (w : World) (tenantID serviceName : String) (success : Bool)
    (duration : Duration) (err : Option String) : World :=
  let (_, m, fs, clk) :=
    w.mgr.RecordTenantExecution tenantID serviceName success duration err w.fs
      (w.faults w.saves) w.clock
  { w with mgr := m, fs := fs, clock := clk, saves := w.saves + 1 }

/-- The adapter call made for a service and an operation, with its logging. -/
def World.logCall (w : World) (c : AdapterCall) : World :=
  { w with calls := w.calls ++ [c] }

/-! ## Sequential engine (internal/engine/sequential.go) -/

/-- SequentialEngine executes migrations sequentially. The state manager it
points to is the one of the world it runs in. -/
structure SequentialEngine where
  registry : Registry
  stopOnFailure : Bool
  dryRun : Bool

/-- NewSequentialEngine creates a new sequential execution engine. -/
def NewSequentialEngine (registry : Registry) (stopOnFailure dryRun : Bool) :
    SequentialEngine :=
  { registry := registry, stopOnFailure := stopOnFailure, dryRun := dryRun }

/-- The `switch operation` of `executeService`: the pair `(opResult, err)` it
leaves and the world afterwards; `none` is the nil dereference of
`statusResult`. -/
def executeOperation (adp : Adapter) (w : World) (service : Service) (operation : Operation) :
    Option (Option Result × Option String × World) :=
  if operation = OperationDeploy then
    let w := w.logCall (AdapterCall.Deploy service none)
    let (opResult, err) := adp.Deploy service none
    some (opResult, err, w)
  else if operation = OperationRollback then
    let w := w.logCall (AdapterCall.Rollback service none 1)
    let (opResult, err) := adp.Rollback service none 1
    some (opResult, err, w)
  else if operation = OperationStatus then
    let w := w.logCall (AdapterCall.Status service none)
    let (statusResult, statusErr) := adp.Status service none
    match statusResult with
    | none => none
    | some sr =>
      let (now, w) := w.Now
      some (some { Success := statusErr.isNone
                   Output := "Applied: " ++ toString sr.Applied.length ++ ", Pending: " ++
                     toString sr.Pending.length
                   Timestamp := now },
            statusErr, w)
  else
    some (none, some ("unsupported operation: " ++ operation), w)

/-- SequentialEngine.executeService executes migration for a single service;
`none` is a nil-pointer panic. -/
def SequentialEngine.executeService (e : SequentialEngine) (w : World) (service : Service)
    (operation : Operation) : Option (ServiceResult × World) :=
  let (start, w) := w.Now
  let result : ServiceResult := { ServiceName := service.Name }
  if e.dryRun then
    let (d, w) := w.Since start
    some ({ result with Success := true, Duration := d,
                        Output := "Dry run - no actual execution" }, w)
  else
    match e.registry.GetForService service with
    | Except.error err =>
      let (d, w) := w.Since start
      let result := { result with Success := false, Error := err, Duration := d }
      some (result, w.RecordServiceExecution service.Name false result.Duration (some err))
    | Except.ok adp =>
      match executeOperation adp w service operation with
      | none => none
      | some (opResult, err, w) =>
        let (d, w) := w.Since start
        let result := { result with Duration := d }
        match err with
        | some text =>
          let result := { result with Success := false, Error := text }
          let result :=
            match opResult with
            | some r => { result with Output := r.Output }
            | none => result
          some (result,
            w.RecordServiceExecution service.Name false result.Duration (some text))
        | none =>
          match opResult with
          | none => none
          | some r =>
            let result := { result with Success := r.Success, Output := r.Output }
            let result := if !r.Success then { result with Error := r.Error } else result
            some (result,
              w.RecordServiceExecution service.Name result.Success result.Duration none)

/-- The `for` loop of `SequentialEngine.Execute`, from the results collected
so far. -/
def SequentialEngine.loop (e : SequentialEngine) (operation : Operation) :
    List Service → List ServiceResult → World → Option (List ServiceResult × World)
  | [], results, w => some (results, w)
  | service :: rest, results, w =>
    match e.executeService w service operation with
    | none => none
    | some (result, w) =>
      let results := results ++ [result]
      if !result.Success then
        if e.stopOnFailure then some (results, w)
        else SequentialEngine.loop e operation rest results w
      else SequentialEngine.loop e operation rest results w

/-- SequentialEngine.Execute executes migrations sequentially: the results,
the returned error and the world afterwards; `none` is a panic. -/
def SequentialEngine.Execute (e : SequentialEngine) (w : World) (services : List Service)
    (operation : Operation) : Option ((List ServiceResult × Option String) × World) :=
  match SequentialEngine.loop e operation services [] w with
  | none => none
  | some (results, w) => some ((results, none), w)

/-! ## Parallel engine (internal/engine/parallel.go) -/

/-- ParallelEngine executes migrations in parallel. -/
structure ParallelEngine where
  registry : Registry
  stopOnFailure : Bool
  dryRun : Bool
  maxParallel : Int

/-- NewParallelEngine creates a new parallel execution engine. -/
def NewParallelEngine (registry : Registry) (stopOnFailure dryRun : Bool) (maxParallel : Int) :
    ParallelEngine :=
  let maxParallel := if maxParallel ≤ 0 then 5 else maxParallel
  { registry := registry, stopOnFailure := stopOnFailure, dryRun := dryRun,
    maxParallel := maxParallel }

/-- ParallelEngine.executeService executes migration for a single service;
`none` is a nil-pointer panic. -/
def ParallelEngine.executeService (e : ParallelEngine) (w : World) (service : Service)
    (operation : Operation) : Option (ServiceResult × World) :=
  let (start, w) := w.Now
  let result : ServiceResult := { ServiceName := service.Name }
  if e.dryRun then
    let (d, w) := w.Since start
    some ({ result with Success := true, Duration := d,
                        Output := "Dry run - no actual execution" }, w)
  else
    match e.registry.GetForService service with
    | Except.error err =>
      let (d, w) := w.Since start
      let result := { result with Success := false, Error := err, Duration := d }
      some (result, w.RecordServiceExecution service.Name false result.Duration (some err))
    | Except.ok adp =>
      match executeOperation adp w service operation with
      | none => none
      | some (opResult, err, w) =>
        let (d, w) := w.Since start
        let result := { result with Duration := d }
        match err with
        | some text =>
          let result := { result with Success := false, Error := text }
          let result :=
            match opResult with
            | some r => { result with Output := r.Output }
            | none => result
          some (result,
            w.RecordServiceExecution service.Name false result.Duration (some text))
        | none =>
          match opResult with
          | none => none
          | some r =>
            let result := { result with Success := r.Success, Output := r.Output }
            let result := if !r.Success then { result with Error := r.Error } else result
            some (result,
              w.RecordServiceExecution service.Name result.Success result.Duration none)

/-- Where one goroutine of `ParallelEngine.Execute` stands.

* `waiting`: at the `select`, not yet admitted by the semaphore;
* `admitted`: holds a slot, before the check of the `failed` flag;
* `running`: passed the check, before `executeService`;
* `executed r`: `executeService` returned `r`, not yet written to `results`;
* `stored r`: `results[idx] = r` done, before the failure handling;
* `flagging`: `failed = true` set, before `cancel()`;
* `releasing`: body done, before the deferred release of the slot;
* `done`: returned. -/
inductive TaskPC where
  | waiting
  | admitted
  | running
  | executed (r : ServiceResult)
  | stored (r : ServiceResult)
  | flagging
  | releasing
  | done
deriving DecidableEq, Repr

/-- The shared state of one `ParallelEngine.Execute` call and the program
points of its goroutines. -/
structure ParState where
  world : World
  results : List ServiceResult
  sem : Nat
  cancelled : Bool
  failed : Bool
  pcs : List TaskPC
  panicked : Bool

/-- One scheduling decision: goroutine `i` takes its next step; goroutine `i`,
waiting at the `select`, takes the `execCtx.Done()` branch; or the caller's
context is cancelled. -/
inductive Action where
  | run (i : Nat)
  | giveUp (i : Nat)
  | cancelCaller
deriving DecidableEq, Repr

/-- The state right after the goroutines are launched: `results` holds zero
values, the semaphore is free, every goroutine waits at its `select`. -/
def ParState.init (w : World) (n : Nat) : ParState :=
  { world := w, results := List.replicate n {}, sem := 0, cancelled := false,
    failed := false, pcs := List.replicate n TaskPC.waiting, panicked := false }

/-- One step of a `ParallelEngine.Execute` run; `none` when the action is not
enabled (a full semaphore, a goroutine that has returned, a crashed process).
`executeService` is taken as one step. -/
def ParallelEngine.step (e : ParallelEngine) (services : List Service) (operation : Operation)
    (st : ParState) : Action → Option ParState
  | Action.cancelCaller => if st.panicked then none else some { st with cancelled := true }
  | Action.giveUp i =>
    if st.panicked then none
    else
      match st.pcs[i]? with
      | some TaskPC.waiting =>
        if st.cancelled then some { st with pcs := st.pcs.set i TaskPC.done } else none
      | _ => none
  | Action.run i =>
    if st.panicked then none
    else
      match st.pcs[i]?, services[i]? with
      | some pc, some svc =>
        match pc with
        | TaskPC.waiting =>
          if (st.sem : Int) < e.maxParallel then
            some { st with sem := st.sem + 1, pcs := st.pcs.set i TaskPC.admitted }
          else none
        | TaskPC.admitted =>
          if st.failed && e.stopOnFailure then
            some { st with pcs := st.pcs.set i TaskPC.releasing }
          else some { st with pcs := st.pcs.set i TaskPC.running }
        | TaskPC.running =>
          match e.executeService st.world svc operation with
          | none => some { st with panicked := true }
          | some (r, w) => some { st with world := w, pcs := st.pcs.set i (TaskPC.executed r) }
        | TaskPC.executed r =>
          some { st with results := st.results.set i r, pcs := st.pcs.set i (TaskPC.stored r) }
        | TaskPC.stored r =>
          if !r.Success then
            if e.stopOnFailure then
              some { st with failed := true, pcs := st.pcs.set i TaskPC.flagging }
            else some { st with pcs := st.pcs.set i TaskPC.releasing }
          else some { st with pcs := st.pcs.set i TaskPC.releasing }
        | TaskPC.flagging =>
          some { st with cancelled := true, pcs := st.pcs.set i TaskPC.releasing }
        | TaskPC.releasing =>
          some { st with sem := st.sem - 1, pcs := st.pcs.set i TaskPC.done }
        | TaskPC.done => none
      | _, _ => none

/-- A run under a schedule: the actions taken one after the other; `none`
when one of them is not enabled. -/
def ParallelEngine.runSchedule (e : ParallelEngine) (services : List Service)
    (operation : Operation) : List Action → ParState → Option ParState
  | [], st => some st
  | a :: rest, st =>
    match e.step services operation st a with
    | none => none
    | some st' => ParallelEngine.runSchedule e services operation rest st'

/-- Every goroutine has returned (`wg.Wait()` returns). -/
def ParState.finished (st : ParState) : Bool :=
  st.pcs.all (fun pc => pc == TaskPC.done)

/-- The filter at the end of `Execute`: results with an empty service name are
dropped. -/
def filterResults (results : List ServiceResult) : List ServiceResult :=
  results.filter (fun r => r.ServiceName != "")

/-- ParallelEngine.Execute executes migrations in parallel, under a schedule
of its goroutines: the results, the returned error and the world afterwards.
`none` when the schedule cannot be followed, does not run every goroutine to
its end, or the process crashed. -/
def ParallelEngine.Execute (e : ParallelEngine) (w : World) (services : List Service)
    (operation : Operation) (schedule : List Action) :
    Option ((List ServiceResult × Option String) × World) :=
  match ParallelEngine.runSchedule e services operation schedule
      (ParState.init w services.length) with
  | none => none
  | some st =>
    if st.finished && !st.panicked then some ((filterResults st.results, none), st.world)
    else none

/-! ## Parallel engine with the context of the adapter calls (parallel.go, adapter.go)

`ParallelEngine` above takes an adapter method as a function of the service
and the tenant. In Go the method also receives a `context.Context`:
`ParallelEngine.Execute` hands `execCtx` to `executeService`, which hands it to
the adapter, and the adapters of `internal/adapter` run their command with
`exec.CommandContext(ctx, ...)`, so that the command is refused or killed once
the context is cancelled. With stop-on-failure a failing goroutine cancels
`execCtx` under the calls that are still running. This section gives the
parallel engine with that argument; the program points, the shared state and
the final filter are those above. -/

/-- Adapter, its methods with their context argument. Of the context a method
sees whether it is cancelled: the first argument is `true` when `ctx.Done()`
is closed. -/
structure CtxAdapter where
  Deploy : Bool → Service → Option Tenant → Option Result × Option String
  Rollback : Bool → Service → Option Tenant → Int → Option Result × Option String
  Status : Bool → Service → Option Tenant → Option StatusResult × Option String
  Name : String

/-- Registry of adapters whose methods take their context. -/
structure CtxRegistry where
  adapters : Map CtxAdapter

/-- NewRegistry creates a new adapter registry. -/
def NewCtxRegistry : CtxRegistry := { adapters := [] }

/-- Register registers an adapter with the registry. -/
def CtxRegistry.Register (r : CtxRegistry) (name : String) (adapter : CtxAdapter) :
    CtxRegistry :=
  { adapters := Map.set r.adapters name adapter }

/-- Get retrieves an adapter by name. -/
def CtxRegistry.Get (r : CtxRegistry) (name : String) : Except String CtxAdapter :=
  match Map.get r.adapters name with
  | none => Except.error ("adapter '" ++ name ++ "' not found")
  | some adapter => Except.ok adapter

/-- GetForService retrieves the appropriate adapter for a service. -/
def CtxRegistry.GetForService (r : CtxRegistry) (service : Service) :
    Except String CtxAdapter :=
  r.Get service.Type_

/-- ParallelEngine, over adapters whose methods take their context. -/
structure CtxParallelEngine where
  registry : CtxRegistry
  stopOnFailure : Bool
  dryRun : Bool
  maxParallel : Int

/-- NewParallelEngine creates a new parallel execution engine. -/
def NewCtxParallelEngine (registry : CtxRegistry) (stopOnFailure dryRun : Bool)
    (maxParallel : Int) : CtxParallelEngine :=
  let maxParallel := if maxParallel ≤ 0 then 5 else maxParallel
  { registry := registry, stopOnFailure := stopOnFailure, dryRun := dryRun,
    maxParallel := maxParallel }

/-- The `switch operation` of `executeService`, the context handed on to the
adapter method: the pair `(opResult, err)` it leaves and the world afterwards;
`none` is the nil dereference of `statusResult`. -/
def ctxExecuteOperation (adp : CtxAdapter) (ctx : Bool) (w : World) (service : Service)
    (operation : Operation) : Option (Option Result × Option String × World) :=
  if operation = OperationDeploy then
    let w := w.logCall (AdapterCall.Deploy service none)
    let (opResult, err) := adp.Deploy ctx service none
    some (opResult, err, w)
  else if operation = OperationRollback then
    let w := w.logCall (AdapterCall.Rollback service none 1)
    let (opResult, err) := adp.Rollback ctx service none 1
    some (opResult, err, w)
  else if operation = OperationStatus then
    let w := w.logCall (AdapterCall.Status service none)
    let (statusResult, statusErr) := adp.Status ctx service none
    match statusResult with
    | none => none
    | some sr =>
      let (now, w) := w.Now
      some (some { Success := statusErr.isNone
                   Output := "Applied: " ++ toString sr.Applied.length ++ ", Pending: " ++
                     toString sr.Pending.length
                   Timestamp := now },
            statusErr, w)
  else
    some (none, some ("unsupported operation: " ++ operation), w)

/-- ParallelEngine.executeService executes migration for a single service
under the context `ctx`, which it hands to the adapter method and uses for
nothing else; `none` is a nil-pointer panic. -/
def CtxParallelEngine.executeService (e : CtxParallelEngine) (ctx : Bool) (w : World)
    (service : Service) (operation : Operation) : Option (ServiceResult × World) :=
  let (start, w) := w.Now
  let result : ServiceResult := { ServiceName := service.Name }
  if e.dryRun then
    let (d, w) := w.Since start
    some ({ result with Success := true, Duration := d,
                        Output := "Dry run - no actual execution" }, w)
  else
    match e.registry.GetForService service with
    | Except.error err =>
      let (d, w) := w.Since start
      let result := { result with Success := false, Error := err, Duration := d }
      some (result, w.RecordServiceExecution service.Name false result.Duration (some err))
    | Except.ok adp =>
      match ctxExecuteOperation adp ctx w service operation with
      | none => none
      | some (opResult, err, w) =>
        let (d, w) := w.Since start
        let result := { result with Duration := d }
        match err with
        | some text =>
          let result := { result with Success := false, Error := text }
          let result :=
            match opResult with
            | some r => { result with Output := r.Output }
            | none => result
          some (result,
            w.RecordServiceExecution service.Name false result.Duration (some text))
        | none =>
          match opResult with
          | none => none
          | some r =>
            let result := { result with Success := r.Success, Output := r.Output }
            let result := if !r.Success then { result with Error := r.Error } else result
            some (result,
              w.RecordServiceExecution service.Name result.Success result.Duration none)

/-- One step of a `ParallelEngine.Execute` run; `none` when the action is not
enabled (a full semaphore, a goroutine that has returned, a crashed process).
`executeService` is taken as one step, and its adapter sees `execCtx` as it is
at that step: cancelled once the caller has cancelled or a goroutine has called
`cancel()`. The step stands where the call lies with respect to the
cancellation: before it for a call that the cancellation did not reach, after
it for a call that was refused or killed. -/
def CtxParallelEngine.step (e : CtxParallelEngine) (services : List Service)
    (operation : Operation) (st : ParState) : Action → Option ParState
  | Action.cancelCaller => if st.panicked then none else some { st with cancelled := true }
  | Action.giveUp i =>
    if st.panicked then none
    else
      match st.pcs[i]? with
      | some TaskPC.waiting =>
        if st.cancelled then some { st with pcs := st.pcs.set i TaskPC.done } else none
      | _ => none
  | Action.run i =>
    if st.panicked then none
    else
      match st.pcs[i]?, services[i]? with
      | some pc, some svc =>
        match pc with
        | TaskPC.waiting =>
          if (st.sem : Int) < e.maxParallel then
            some { st with sem := st.sem + 1, pcs := st.pcs.set i TaskPC.admitted }
          else none
        | TaskPC.admitted =>
          if st.failed && e.stopOnFailure then
            some { st with pcs := st.pcs.set i TaskPC.releasing }
          else some { st with pcs := st.pcs.set i TaskPC.running }
        | TaskPC.running =>
          match e.executeService st.cancelled st.world svc operation with
          | none => some { st with panicked := true }
          | some (r, w) => some { st with world := w, pcs := st.pcs.set i (TaskPC.executed r) }
        | TaskPC.executed r =>
          some { st with results := st.results.set i r, pcs := st.pcs.set i (TaskPC.stored r) }
        | TaskPC.stored r =>
          if !r.Success then
            if e.stopOnFailure then
              some { st with failed := true, pcs := st.pcs.set i TaskPC.flagging }
            else some { st with pcs := st.pcs.set i TaskPC.releasing }
          else some { st with pcs := st.pcs.set i TaskPC.releasing }
        | TaskPC.flagging =>
          some { st with cancelled := true, pcs := st.pcs.set i TaskPC.releasing }
        | TaskPC.releasing =>
          some { st with sem := st.sem - 1, pcs := st.pcs.set i TaskPC.done }
        | TaskPC.done => none
      | _, _ => none

/-- A run under a schedule: the actions taken one after the other; `none`
when one of them is not enabled. -/
def CtxParallelEngine.runSchedule (e : CtxParallelEngine) (services : List Service)
    (operation : Operation) : List Action → ParState → Option ParState
  | [], st => some st
  | a :: rest, st =>
    match e.step services operation st a with
    | none => none
    | some st' => CtxParallelEngine.runSchedule e services operation rest st'

/-- ParallelEngine.Execute executes migrations in parallel, under a schedule
of its goroutines: the results, the returned error and the world afterwards.
`none` when the schedule cannot be followed, does not run every goroutine to
its end, or the process crashed. -/
def CtxParallelEngine.Execute (e : CtxParallelEngine) (w : World) (services : List Service)
    (operation : Operation) (schedule : List Action) :
    Option ((List ServiceResult × Option String) × World) :=
  match CtxParallelEngine.runSchedule e services operation schedule
      (ParState.init w services.length) with
  | none => none
  | some st =>
    if st.finished && !st.panicked then some ((filterResults st.results, none), st.world)
    else none

/-! ## Tenant executor (internal/tenant/executor.go) -/

/-- Source defines the interface for loading tenants: what one call of
`LoadTenants` returns, the tenant list (its pointers non-nil) and the error. -/
structure Source where
  LoadTenants : List Tenant × Option String

/-- Executor handles tenant-aware migration execution. The state manager it
points to is the one of the world it runs in. -/
structure Executor where
  source : Source
  registry : Registry
  stopOnFailure : Bool
  maxParallel : Int

/-- NewExecutor creates a new tenant executor. -/
def NewExecutor (source : Source) (registry : Registry) (stopOnFailure : Bool)
    (maxParallel : Int) : Executor :=
  let maxParallel := if maxParallel ≤ 0 then 5 else maxParallel
  { source := source, registry := registry, stopOnFailure := stopOnFailure,
    maxParallel := maxParallel }

/-- TenantResult represents the result of a tenant migration. -/
structure TenantResult where
  TenantID : String := ""
  Success : Bool := false
  Duration : Duration := ⟨0⟩
  Error : String := ""
  ServiceCount : Int := 0
deriving DecidableEq, Repr

/-- The `switch operation` of `executeTenant`: the pair `(opResult, err)` it
leaves and the world afterwards. -/
def tenantOperation (adp : Adapter) (w : World) (service : Service) (tenant : Tenant)
    (operation : Operation) : Option Result × Option String × World :=
  if operation = OperationDeploy then
    let w := w.logCall (AdapterCall.Deploy service (some tenant))
    let (opResult, err) := adp.Deploy service (some tenant)
    (opResult, err, w)
  else if operation = OperationRollback then
    let w := w.logCall (AdapterCall.Rollback service (some tenant) 1)
    let (opResult, err) := adp.Rollback service (some tenant) 1
    (opResult, err, w)
  else
    (none, some ("unsupported operation: " ++ operation), w)

/-- The `for` loop of `executeTenant` from the services still to run, with the
value of `successCount` so far; `total` is `len(services)` and `result` the
result value as initialised before the loop. `none` is a nil-pointer panic. -/
def Executor.tenantLoop (e : Executor) (tenant : Tenant) (operation : Operation) (start : Time)
    (total : Int) (result : TenantResult) :
    List Service → Int → World → Option (TenantResult × World)
  | [], successCount, w =>
    let result := { result with Success := successCount == total }
    let (d, w) := w.Since start
    some ({ result with Duration := d }, w)
  | service :: rest, successCount, w =>
    match e.registry.GetForService service with
    | Except.error err =>
      let (d, w) := w.Since start
      some ({ result with
              Success := false
              Error := "failed to get adapter for service " ++ service.Name ++ ": " ++ err
              Duration := d }, w)
    | Except.ok adp =>
      match tenantOperation adp w service tenant operation with
      | (_, some text, w) =>
        let (d, w) := w.Since start
        let result :=
          { result with
            Success := false
            Error := "service " ++ service.Name ++ " failed: " ++ text
            Duration := d }
        some (result,
          w.RecordTenantExecution tenant.ID service.Name false result.Duration (some text))
      | (none, none, _) => none
      | (some r, none, w) =>
        if !r.Success then
          let (d, w) := w.Since start
          let result :=
            { result with
              Success := false
              Error := "service " ++ service.Name ++ " failed: " ++ r.Error
              Duration := d }
          some (result,
            w.RecordTenantExecution tenant.ID service.Name false result.Duration none)
        else
          Executor.tenantLoop e tenant operation start total result rest (successCount + 1)
            (w.RecordTenantExecution tenant.ID service.Name true r.Duration none)

/-- Executor.executeTenant executes migrations for a single tenant; `none` is a
nil-pointer panic. -/
def Executor.executeTenant (e : Executor) (w : World) (tenant : Tenant)
    (services : List Service) (operation : Operation) : Option (TenantResult × World) :=
  let (start, w) := w.Now
  let result : TenantResult := { TenantID := tenant.ID, ServiceCount := services.length }
  Executor.tenantLoop e tenant operation start services.length result services 0 w

/-- Where one goroutine of `Executor.Execute` stands; the program points are
those of `TaskPC`, with a tenant result in place of a service result. -/
inductive TenantPC where
  | waiting
  | admitted
  | running
  | executed (r : TenantResult)
  | stored (r : TenantResult)
  | flagging
  | releasing
  | done
deriving DecidableEq, Repr

/-- The shared state of one `Executor.Execute` call and the program points of
its goroutines. -/
structure TenantParState where
  world : World
  results : List TenantResult
  sem : Nat
  cancelled : Bool
  failed : Bool
  pcs : List TenantPC
  panicked : Bool

/-- The state right after the goroutines are launched. -/
def TenantParState.init (w : World) (n : Nat) : TenantParState :=
  { world := w, results := List.replicate n {}, sem := 0, cancelled := false,
    failed := false, pcs := List.replicate n TenantPC.waiting, panicked := false }

/-- One step of an `Executor.Execute` run; `none` when the action is not
enabled. `executeTenant` is taken as one step. -/
def Executor.step (e : Executor) (tenants : List Tenant) (services : List Service)
    (operation : Operation) (st : TenantParState) : Action → Option TenantParState
  | Action.cancelCaller => if st.panicked then none else some { st with cancelled := true }
  | Action.giveUp i =>
    if st.panicked then none
    else
      match st.pcs[i]? with
      | some TenantPC.waiting =>
        if st.cancelled then some { st with pcs := st.pcs.set i TenantPC.done } else none
      | _ => none
  | Action.run i =>
    if st.panicked then none
    else
      match st.pcs[i]?, tenants[i]? with
      | some pc, some tnt =>
        match pc with
        | TenantPC.waiting =>
          if (st.sem : Int) < e.maxParallel then
            some { st with sem := st.sem + 1, pcs := st.pcs.set i TenantPC.admitted }
          else none
        | TenantPC.admitted =>
          if st.failed && e.stopOnFailure then
            some { st with pcs := st.pcs.set i TenantPC.releasing }
          else some { st with pcs := st.pcs.set i TenantPC.running }
        | TenantPC.running =>
          match e.executeTenant st.world tnt services operation with
          | none => some { st with panicked := true }
          | some (r, w) =>
            some { st with world := w, pcs := st.pcs.set i (TenantPC.executed r) }
        | TenantPC.executed r =>
          some { st with
                 results := st.results.set i r, pcs := st.pcs.set i (TenantPC.stored r) }
        | TenantPC.stored r =>
          if !r.Success then
            if e.stopOnFailure then
              some { st with failed := true, pcs := st.pcs.set i TenantPC.flagging }
            else some { st with pcs := st.pcs.set i TenantPC.releasing }
          else some { st with pcs := st.pcs.set i TenantPC.releasing }
        | TenantPC.flagging =>
          some { st with cancelled := true, pcs := st.pcs.set i TenantPC.releasing }
        | TenantPC.releasing =>
          some { st with sem := st.sem - 1, pcs := st.pcs.set i TenantPC.done }
        | TenantPC.done => none
      | _, _ => none

/-- A run of the tenant goroutines under a schedule. -/
def Executor.runSchedule (e : Executor) (tenants : List Tenant) (services : List Service)
    (operation : Operation) : List Action → TenantParState → Option TenantParState
  | [], st => some st
  | a :: rest, st =>
    match e.step tenants services operation st a with
    | none => none
    | some st' => Executor.runSchedule e tenants services operation rest st'

/-- Every tenant goroutine has returned (`wg.Wait()` returns). -/
def TenantParState.finished (st : TenantParState) : Bool :=
  st.pcs.all (fun pc => pc == TenantPC.done)

/-- The filter at the end of `Executor.Execute`: results with an empty tenant
ID are dropped. -/
def filterTenantResults (results : List TenantResult) : List TenantResult :=
  results.filter (fun r => r.TenantID != "")

/-- Executor.Execute executes migrations for all tenants, under a schedule of
its goroutines: the results (nil as the empty list), the returned error and the
world afterwards. When the source returns an error no goroutine is launched
and the schedule plays no part. `none` when the schedule cannot be followed,
does not run every goroutine to its end, or the process crashed. -/
def Executor.Execute (e : Executor) (w : World) (services : List Service)
    (operation : Operation) (schedule : List Action) :
    Option ((List TenantResult × Option String) × World) :=
  match e.source.LoadTenants with
  | (_, some err) => some (([], some ("failed to load tenants: " ++ err)), w)
  | (tenants, none) =>
    match Executor.runSchedule e tenants services operation schedule
        (TenantParState.init w tenants.length) with
    | none => none
    | some st =>
      if st.finished && !st.panicked then
        some ((filterTenantResults st.results, none), st.world)
      else none

/-! ## Built-in adapters (internal/adapter)

The adapters run external commands. What a command gives when it is run is
not computed here: it is read off a `Host`, together with the two clock
readings `executeCommand` takes. Every adapter method returns, next to its Go
return values, the commands it has run, in order. Strings are sequences of
characters; the separators and keys the code searches for are ASCII. -/

/-- Go's `strings.Contains`. -/
def containsChars (sub : List Char) : List Char → Bool
  | [] => sub.isEmpty
  | c :: rest => sub.isPrefixOf (c :: rest) || containsChars sub rest

/-- Go's `strings.Contains`, on strings. -/
def stringsContains (s sub : String) : Bool := containsChars sub.data s.data

/-- Go's `strings.HasPrefix`. -/
def stringsHasPrefix (s pre : String) : Bool := pre.data.isPrefixOf s.data

/-- The scan of `strings.Split` for a non-empty separator: `skip` characters
of a separator just matched are still to be passed over, `cur` holds the
characters of the current piece, last first. -/
def splitChars (sep : List Char) : List Char → Nat → List Char → List (List Char)
  | [], _, cur => [cur.reverse]
  | _ :: rest, skip + 1, cur => splitChars sep rest skip cur
  | c :: rest, 0, cur =>
    if sep.isPrefixOf (c :: rest) then cur.reverse :: splitChars sep rest (sep.length - 1) []
    else splitChars sep rest 0 (c :: cur)

/-- Go's `strings.Split(s, sep)` for a non-empty `sep`, as at every call in
this package: the pieces between the leftmost non-overlapping occurrences of
`sep`. -/
def stringsSplit (s sep : String) : List String :=
  (splitChars sep.data s.data 0 []).map String.mk

/-- Go's `unicode.ToLower` as far as ASCII goes: the letters `A`..`Z`, the
dotted capital I and the Kelvin sign are the characters whose lower case is an
ASCII letter; the lower case of any other character is not ASCII and is left
as the character itself, which makes no difference where the lowered text is
compared with ASCII text, its one use in this package. -/
def toLowerRune (c : Char) : Char :=
  if 65 ≤ c.toNat ∧ c.toNat ≤ 90 then Char.ofNat (c.toNat + 32)
  else if c.toNat = 0x130 then 'i'
  else if c.toNat = 0x212A then 'k'
  else c

/-- Go's `strings.ToLower`. -/
def stringsToLower (s : String) : String := String.mk (s.data.map toLowerRune)

/-- Go's `unicode.IsSpace`. -/
def isSpaceRune (c : Char) : Bool :=
  let n := c.toNat
  n == 0x09 || n == 0x0A || n == 0x0B || n == 0x0C || n == 0x0D || n == 0x20 || n == 0x85 ||
  n == 0xA0 || n == 0x1680 || (0x2000 ≤ n && n ≤ 0x200A) || n == 0x2028 || n == 0x2029 ||
  n == 0x202F || n == 0x205F || n == 0x3000

/-- Go's `strings.TrimSpace`. -/
def stringsTrimSpace (s : String) : String :=
  String.mk ((s.data.dropWhile isSpaceRune).reverse.dropWhile isSpaceRune).reverse

/-- An external command as `executeCommand` sets it up: the program, its
arguments, the working directory, and the entries appended to the environment
of the parent process (those of the service, then those of the tenant; Go
ranges over each map in no fixed order). -/
structure Command where
  name : String
  args : List String
  dir : String
  env : List String
deriving DecidableEq, Repr

/-- What running a command gives: the combined output, the error and exit
code of the run, and the clock readings of `executeCommand` (the time the run
took, the time right after it). -/
structure CommandRun where
  output : String := ""
  err : Option String := none
  exitCode : Int := 0
  elapsed : Duration := ⟨0⟩
  finished : Time := 0
deriving DecidableEq, Repr

/-- The machine the commands run on. -/
abbrev Host := Command → CommandRun

/-- BaseAdapter provides common functionality for all adapters. -/
structure BaseAdapter where
  name : String
deriving DecidableEq, Repr

/-- NewBaseAdapter creates a new base adapter. -/
def NewBaseAdapter (name : String) : BaseAdapter := { name := name }

/-- Name returns the adapter name. -/
def BaseAdapter.Name (a : BaseAdapter) : String := a.name

/-- The environment entry `k=v`. -/
def envEntry (kv : String × String) : String := kv.1 ++ "=" ++ kv.2

/-- BaseAdapter.executeCommand executes a command in the service directory.
The result pointer it returns is never nil and the error always is. -/
def BaseAdapter.executeCommand (_a : BaseAdapter) (host : Host) (service : Service)
    (tenant : Option Tenant) (command : String) (args : List String) :
    (Result × Option String) × List Command :=
  let env := service.Env.map envEntry
  let env :=
    match tenant with
    | some t => env ++ t.Connection.map envEntry
    | none => env
  let cmd : Command := { name := command, args := args, dir := service.WorkingDir, env := env }
  let run := host cmd
  let result : Result :=
    { Success := run.err.isNone && run.exitCode == 0
      Output := run.output
      Duration := run.elapsed
      Timestamp := run.finished }
  let result :=
    match run.err with
    | some text =>
      if run.output.length > 0 then { result with Error := text ++ ": " ++ run.output }
      else { result with Error := text }
    | none => result
  ((result, none), [cmd])

/-- The list `sensitivePatterns` of `sanitizeOutput`. -/
def sensitivePatterns : List String :=
  ["password=", "PASSWORD=", "pass=", "PASS=", "secret=", "SECRET=", "token=", "TOKEN="]

/-- One round of the loop of `sanitizeOutput`. -/
def sanitizeStep (sanitized pattern : String) : String :=
  if stringsContains (stringsToLower sanitized) (stringsToLower pattern) then
    match stringsSplit sanitized pattern with
    | first :: _ :: _ => first ++ pattern ++ "[REDACTED]"
    | _ => sanitized
  else sanitized

/-- BaseAdapter.sanitizeOutput removes sensitive information from command
output. -/
def BaseAdapter.sanitizeOutput (_a : BaseAdapter) (output : String) : String :=
  sensitivePatterns.foldl sanitizeStep output

/-- The non-empty trimmed lines of a command output, in order: the `for` loop
head shared by the three `Status` parsers. -/
def trimmedLines (output : String) : List String :=
  ((stringsSplit output "\n").map stringsTrimSpace).filter (fun line => line != "")

/-- DjangoAdapter implements the Adapter interface for Django. -/
structure DjangoAdapter where
  base : BaseAdapter
deriving DecidableEq, Repr

/-- NewDjangoAdapter creates a new Django adapter. -/
def NewDjangoAdapter : DjangoAdapter := { base := NewBaseAdapter "django" }

/-- DjangoAdapter.Deploy runs Django migrations. -/
def DjangoAdapter.Deploy (a : DjangoAdapter) (host : Host) (service : Service)
    (tenant : Option Tenant) : (Option Result × Option String) × List Command :=
  let ((result, err), cmds) :=
    a.base.executeCommand host service tenant "python" ["manage.py", "migrate", "--no-input"]
  match err with
  | some text => ((some result, some ("django deploy failed: " ++ text)), cmds)
  | none =>
    ((some { result with Output := a.base.sanitizeOutput result.Output }, none), cmds)

/-- DjangoAdapter.Rollback rolls back Django migrations. -/
def DjangoAdapter.Rollback (a : DjangoAdapter) (host : Host) (service : Service)
    (tenant : Option Tenant) (steps : Int) :
    (Option Result × Option String) × List Command :=
  if steps ≤ 0 then ((none, some "rollback steps must be positive"), [])
  else
    let ((result, err), cmds) :=
      a.base.executeCommand host service tenant "python" ["manage.py", "migrate", "--no-input"]
    match err with
    | some text => ((some result, some ("django rollback failed: " ++ text)), cmds)
    | none =>
      ((some { result with Output := a.base.sanitizeOutput result.Output }, none), cmds)

/-- The loop body of `DjangoAdapter.Status` on one trimmed, non-empty line. -/
def djangoStatusLine (status : StatusResult) (line : String) : StatusResult :=
  if stringsHasPrefix line "[X]" then
    { status with Applied := status.Applied ++ [stringsTrimSpace (String.mk (line.data.drop 3))] }
  else if stringsHasPrefix line "[ ]" then
    { status with Pending := status.Pending ++ [stringsTrimSpace (String.mk (line.data.drop 3))] }
  else status

/-- DjangoAdapter.Status returns the migration status for Django. -/
def DjangoAdapter.Status (a : DjangoAdapter) (host : Host) (service : Service)
    (tenant : Option Tenant) : (Option StatusResult × Option String) × List Command :=
  let ((result, err), cmds) :=
    a.base.executeCommand host service tenant "python" ["manage.py", "showmigrations", "--plan"]
  match err with
  | some text => ((some { LastError := text }, some text), cmds)
  | none => (((some ((trimmedLines result.Output).foldl djangoStatusLine {}), none)), cmds)

/-- LaravelAdapter implements the Adapter interface for Laravel. -/
structure LaravelAdapter where
  base : BaseAdapter
deriving DecidableEq, Repr

/-- NewLaravelAdapter creates a new Laravel adapter. -/
def NewLaravelAdapter : LaravelAdapter := { base := NewBaseAdapter "laravel" }

/-- LaravelAdapter.Deploy runs Laravel migrations. -/
def LaravelAdapter.Deploy (a : LaravelAdapter) (host : Host) (service : Service)
    (tenant : Option Tenant) : (Option Result × Option String) × List Command :=
  let ((result, err), cmds) :=
    a.base.executeCommand host service tenant "php" ["artisan", "migrate", "--force"]
  match err with
  | some text => ((some result, some ("laravel deploy failed: " ++ text)), cmds)
  | none =>
    ((some { result with Output := a.base.sanitizeOutput result.Output }, none), cmds)

/-- LaravelAdapter.Rollback rolls back Laravel migrations. -/
def LaravelAdapter.Rollback (a : LaravelAdapter) (host : Host) (service : Service)
    (tenant : Option Tenant) (steps : Int) :
    (Option Result × Option String) × List Command :=
  if steps ≤ 0 then ((none, some "rollback steps must be positive"), [])
  else
    let ((result, err), cmds) :=
      a.base.executeCommand host service tenant "php"
        ["artisan", "migrate:rollback", "--step=" ++ toString steps, "--force"]
    match err with
    | some text => ((some result, some ("laravel rollback failed: " ++ text)), cmds)
    | none =>
      ((some { result with Output := a.base.sanitizeOutput result.Output }, none), cmds)

/-- The loop body of `LaravelAdapter.Status` on one trimmed, non-empty line. -/
def laravelStatusLine (status : StatusResult) (line : String) : StatusResult :=
  if stringsHasPrefix line "+" || stringsHasPrefix line "|" then status
  else
    match stringsSplit line "|" with
    | _ :: p1 :: p2 :: _ =>
      let statusStr := stringsTrimSpace p1
      let migration := stringsTrimSpace p2
      if statusStr = "Y" || stringsToLower statusStr = "ran" then
        { status with Applied := status.Applied ++ [migration] }
      else if statusStr = "N" || stringsToLower statusStr = "pending" then
        { status with Pending := status.Pending ++ [migration] }
      else status
    | _ => status

/-- LaravelAdapter.Status returns the migration status for Laravel. -/
def LaravelAdapter.Status (a : LaravelAdapter) (host : Host) (service : Service)
    (tenant : Option Tenant) : (Option StatusResult × Option String) × List Command :=
  let ((result, err), cmds) :=
    a.base.executeCommand host service tenant "php" ["artisan", "migrate:status"]
  match err with
  | some text => ((some { LastError := text }, some text), cmds)
  | none => (((some ((trimmedLines result.Output).foldl laravelStatusLine {}), none)), cmds)

/-- PrismaAdapter implements the Adapter interface for Prisma. -/
structure PrismaAdapter where
  base : BaseAdapter
deriving DecidableEq, Repr

/-- NewPrismaAdapter creates a new Prisma adapter. -/
def NewPrismaAdapter : PrismaAdapter := { base := NewBaseAdapter "prisma" }

/-- PrismaAdapter.Deploy runs Prisma migrations. -/
def PrismaAdapter.Deploy (a : PrismaAdapter) (host : Host) (service : Service)
    (tenant : Option Tenant) : (Option Result × Option String) × List Command :=
  let ((result, err), cmds) :=
    a.base.executeCommand host service tenant "npx" ["prisma", "migrate", "deploy"]
  match err with
  | some text => ((some result, some ("prisma deploy failed: " ++ text)), cmds)
  | none =>
    ((some { result with Output := a.base.sanitizeOutput result.Output }, none), cmds)

/-- PrismaAdapter.Rollback rolls back Prisma migrations: it is not supported. -/
def PrismaAdapter.Rollback (_a : PrismaAdapter) (_host : Host) (_service : Service)
    (_tenant : Option Tenant) (_steps : Int) :
    (Option Result × Option String) × List Command :=
  ((none,
    some "prisma does not support automatic rollback - manual intervention required"), [])

/-- The state of the loop of `PrismaAdapter.Status`. -/
structure PrismaScan where
  status : StatusResult := {}
  inAppliedSection : Bool := false
  inPendingSection : Bool := false
deriving DecidableEq, Repr

/-- The loop body of `PrismaAdapter.Status` on one trimmed, non-empty line. -/
def prismaStatusLine (scan : PrismaScan) (line : String) : PrismaScan :=
  if stringsContains (stringsToLower line) "migrations applied" ||
      stringsContains (stringsToLower line) "following migration" then
    { scan with inAppliedSection := true, inPendingSection := false }
  else if stringsContains (stringsToLower line) "pending migration" ||
      stringsContains (stringsToLower line) "not yet applied" then
    { scan with inAppliedSection := false, inPendingSection := true }
  else if stringsContains line "_" && line.utf8ByteSize > 15 then
    if scan.inAppliedSection then
      { scan with status := { scan.status with Applied := scan.status.Applied ++ [line] } }
    else if scan.inPendingSection then
      { scan with status := { scan.status with Pending := scan.status.Pending ++ [line] } }
    else scan
  else scan

/-- PrismaAdapter.Status returns the migration status for Prisma. -/
def PrismaAdapter.Status (a : PrismaAdapter) (host : Host) (service : Service)
    (tenant : Option Tenant) : (Option StatusResult × Option String) × List Command :=
  let ((result, err), cmds) :=
    a.base.executeCommand host service tenant "npx" ["prisma", "migrate", "status"]
  match err with
  | some text => ((some { LastError := text }, some text), cmds)
  | none =>
    (((some ((trimmedLines result.Output).foldl prismaStatusLine {}).status, none)), cmds)

/-- A Django adapter as a value of the `Adapter` interface, on a host. -/
def DjangoAdapter.toAdapter (a : DjangoAdapter) (host : Host) : Adapter :=
  { Deploy := fun service tenant => (a.Deploy host service tenant).1
    Rollback := fun service tenant steps => (a.Rollback host service tenant steps).1
    Status := fun service tenant => (a.Status host service tenant).1
    Name := a.base.Name }

/-- A Laravel adapter as a value of the `Adapter` interface, on a host. -/
def LaravelAdapter.toAdapter (a : LaravelAdapter) (host : Host) : Adapter :=
  { Deploy := fun service tenant => (a.Deploy host service tenant).1
    Rollback := fun service tenant steps => (a.Rollback host service tenant steps).1
    Status := fun service tenant => (a.Status host service tenant).1
    Name := a.base.Name }

/-- A Prisma adapter as a value of the `Adapter` interface, on a host. -/
def PrismaAdapter.toAdapter (a : PrismaAdapter) (host : Host) : Adapter :=
  { Deploy := fun service tenant => (a.Deploy host service tenant).1
    Rollback := fun service tenant steps => (a.Rollback host service tenant steps).1
    Status := fun service tenant => (a.Status host service tenant).1
    Name := a.base.Name }

/-- NewDefaultRegistry creates a registry with all built-in adapters. -/
def NewDefaultRegistry (host : Host) : Registry :=
  let registry := NewRegistry
  let registry := registry.Register "django" (NewDjangoAdapter.toAdapter host)
  let registry := registry.Register "laravel" (NewLaravelAdapter.toAdapter host)
  let registry := registry.Register "prisma" (NewPrismaAdapter.toAdapter host)
  registry

/-! ## Configuration validation (internal/config/config.go, validator.go) -/

/-- DiscoveryConfig represents auto-discovery configuration. -/
structure DiscoveryConfig where
  Enabled : Bool := false
  Root : String := ""
deriving DecidableEq, Repr

/-- ExecutionConfig defines how migrations should be executed. -/
structure ExecutionConfig where
  Strategy : String := ""
  StopOnFailure : Bool := false
  ParallelLimit : Int := 0
deriving DecidableEq, Repr

/-- TenancyConfig defines multi-tenant configuration. -/
structure TenancyConfig where
  Enabled : Bool := false
  Mode : String := ""
  TenantSource : String := ""
  StopOnFailure : Bool := false
  MaxParallel : Int := 0
deriving DecidableEq, Repr

/-- LoggingConfig defines logging configuration. -/
structure LoggingConfig where
  Level : String := ""
  Format : String := ""
  File : String := ""
deriving DecidableEq, Repr

/-- Config represents the main configuration structure. -/
structure Config where
  Services : List Service := []
  Discovery : Option DiscoveryConfig := none
  Execution : ExecutionConfig := {}
  Tenancy : Option TenancyConfig := none
  Logging : LoggingConfig := {}
  GlobalEnv : Map String := []
  ParallelLimit : Int := 0
deriving DecidableEq, Repr

/-- The constant `StrategySequential`. -/
def StrategySequential : String := "sequential"

/-- The constant `StrategyParallel`. -/
def StrategyParallel : String := "parallel"

/-- The constant `TenancyModeDatabase`. -/
def TenancyModeDatabase : String := "database_per_tenant"

/-- The constant `TenancyModeSchema`. -/
def TenancyModeSchema : String := "schema_per_tenant"

/-- The constant `TenantSourceEnv`. -/
def TenantSourceEnv : String := "env"

/-- The constant `TenantSourceFile`. -/
def TenantSourceFile : String := "file"

/-- The constant `TenantSourceCommand`. -/
def TenantSourceCommand : String := "command"

/-- The constant `FrameworkDjango`. -/
def FrameworkDjango : String := "django"

/-- The constant `FrameworkLaravel`. -/
def FrameworkLaravel : String := "laravel"

/-- The constant `FrameworkPrisma`. -/
def FrameworkPrisma : String := "prisma"

/-- What the validator asks the file system: `filepath.Abs` of a path (which
can fail) and whether `os.Stat` of an absolute path reports that it does not
exist. -/
structure Paths where
  abs : String → Except String String
  notExist : String → Bool

/-- Validator validates configuration. -/
structure Validator where
  config : Config
  errors : List String
deriving DecidableEq, Repr

/-- NewValidator creates a new configuration validator. -/
def NewValidator (config : Config) : Validator := { config := config, errors := [] }

/-- Validator.addError adds a validation error. -/
def Validator.addError (v : Validator) (msg : String) : Validator :=
  { v with errors := v.errors ++ [msg] }

/-- The map `supportedTypes` of `validateServices`, as a lookup. -/
def supportedTypes (t : String) : Bool :=
  (Map.get [(FrameworkDjango, true), (FrameworkLaravel, true), (FrameworkPrisma, true)]
    t).getD false

/-- The part `Validate name` of the loop body of `validateServices`, for the
service at index `i`: the validator and the map `seenNames` afterwards. -/
def Validator.validateName (v : Validator) (seenNames : Map Bool) (i : Nat)
    (service : Service) : Validator × Map Bool :=
  if service.Name = "" then
    (v.addError ("services[" ++ toString i ++ "]: name is required"), seenNames)
  else if (Map.get seenNames service.Name).getD false then
    (v.addError ("services[" ++ toString i ++ "]: duplicate service name '" ++
      service.Name ++ "'"), seenNames)
  else (v, Map.set seenNames service.Name true)

/-- The part `Validate type` of the loop body of `validateServices`. -/
def Validator.validateType (v : Validator) (i : Nat) (service : Service) : Validator :=
  if service.Type_ = "" then
    v.addError ("services[" ++ toString i ++ "] (" ++ service.Name ++ "): type is required")
  else if !supportedTypes service.Type_ then
    v.addError ("services[" ++ toString i ++ "] (" ++ service.Name ++ "): unsupported type '" ++
      service.Type_ ++ "' (supported: django, laravel, prisma)")
  else v

/-- The part `Validate path` of the loop body of `validateServices`. -/
def Validator.validatePath (v : Validator) (paths : Paths) (i : Nat) (service : Service) :
    Validator :=
  if service.Path = "" then
    v.addError ("services[" ++ toString i ++ "] (" ++ service.Name ++ "): path is required")
  else
    match paths.abs service.Path with
    | Except.error err =>
      v.addError ("services[" ++ toString i ++ "] (" ++ service.Name ++ "): invalid path '" ++
        service.Path ++ "': " ++ err)
    | Except.ok absPath =>
      if paths.notExist absPath then
        v.addError ("services[" ++ toString i ++ "] (" ++ service.Name ++
          "): path does not exist: " ++ absPath)
      else v

/-- The body of the loop of `validateServices` for the service at index `i`:
the validator and the map `seenNames` afterwards. -/
def Validator.validateService (paths : Paths) (v : Validator) (seenNames : Map Bool) (i : Nat)
    (service : Service) : Validator × Map Bool :=
  let (v, seenNames) := v.validateName seenNames i service
  let v := v.validateType i service
  let v := v.validatePath paths i service
  (v, seenNames)

/-- The loop of `validateServices` from index `i` on. -/
def Validator.validateServiceList (paths : Paths) :
    List Service → Nat → Validator → Map Bool → Validator
  | [], _, v, _ => v
  | service :: rest, i, v, seenNames =>
    let (v, seenNames) := v.validateService paths seenNames i service
    Validator.validateServiceList paths rest (i + 1) v seenNames

/-- Validator.validateServices validates service configurations. -/
def Validator.validateServices (v : Validator) (paths : Paths) : Validator :=
  let discoveryOff :=
    match v.config.Discovery with
    | none => true
    | some d => !d.Enabled
  if v.config.Services.length = 0 && discoveryOff then
    v.addError "at least one service must be defined, or enable service discovery"
  else Validator.validateServiceList paths v.config.Services 0 v []

/-- Validator.validateExecution validates execution configuration. -/
def Validator.validateExecution (v : Validator) : Validator :=
  let v :=
    if v.config.Execution.Strategy ≠ StrategySequential ∧
        v.config.Execution.Strategy ≠ StrategyParallel then
      v.addError ("execution.strategy must be 'sequential' or 'parallel', got '" ++
        v.config.Execution.Strategy ++ "'")
    else v
  let v :=
    if v.config.Execution.Strategy = StrategyParallel then
      let v :=
        if v.config.Execution.ParallelLimit < 1 then
          v.addError "execution.parallel_limit must be at least 1 for parallel execution"
        else v
      if v.config.Execution.ParallelLimit > 100 then
        v.addError "execution.parallel_limit should not exceed 100"
      else v
    else v
  let v :=
    if v.config.ParallelLimit < 0 then v.addError "parallel_limit cannot be negative" else v
  if v.config.ParallelLimit > 100 then v.addError "parallel_limit should not exceed 100" else v

/-- Validator.validateTenancy validates tenancy configuration. -/
def Validator.validateTenancy (v : Validator) : Validator :=
  match v.config.Tenancy with
  | none => v
  | some tenancy =>
    if !tenancy.Enabled then v
    else
      let v :=
        if tenancy.Mode ≠ TenancyModeDatabase ∧ tenancy.Mode ≠ TenancyModeSchema then
          v.addError ("tenancy.mode must be 'database_per_tenant' or 'schema_per_tenant', got '" ++
            tenancy.Mode ++ "'")
        else v
      let v :=
        if tenancy.TenantSource = "" then
          v.addError "tenancy.tenant_source is required when tenancy is enabled"
        else if tenancy.TenantSource ≠ TenantSourceEnv ∧
            tenancy.TenantSource ≠ TenantSourceFile ∧
            tenancy.TenantSource ≠ TenantSourceCommand then
          v.addError ("tenancy.tenant_source must be 'env', 'file', or 'command', got '" ++
            tenancy.TenantSource ++ "'")
        else v
      let v :=
        if tenancy.MaxParallel < 1 then v.addError "tenancy.max_parallel must be at least 1"
        else v
      if tenancy.MaxParallel > 1000 then
        v.addError "tenancy.max_parallel should not exceed 1000"
      else v

/-- Validator.validateLogging validates logging configuration. -/
def Validator.validateLogging (v : Validator) : Validator :=
  let validLevels : Map Bool := [("debug", true), ("info", true), ("warn", true), ("error", true)]
  let v :=
    if !(Map.get validLevels v.config.Logging.Level).getD false then
      v.addError ("logging.level must be 'debug', 'info', 'warn', or 'error', got '" ++
        v.config.Logging.Level ++ "'")
    else v
  let validFormats : Map Bool := [("console", true), ("json", true)]
  if !(Map.get validFormats v.config.Logging.Format).getD false then
    v.addError ("logging.format must be 'console' or 'json', got '" ++
      v.config.Logging.Format ++ "'")
  else v

/-- Validator.Validate performs comprehensive validation of the
configuration: the error it returns. -/
def Validator.Validate (v : Validator) (paths : Paths) : Option String :=
  let v := v.validateServices paths
  let v := v.validateExecution
  let v := v.validateTenancy
  let v := v.validateLogging
  if v.errors.length > 0 then
    some ("configuration validation failed:\n  - " ++ String.intercalate "\n  - " v.errors)
  else none

/-- Validate is a convenience function to validate a config. -/
def Validate (config : Config) (paths : Paths) : Option String :=
  (NewValidator config).Validate paths

/-! ## Vocabulary of the statements -/

/-- The record a service record operation starts from: the stored one, or the
zero record when the name has none. -/
def State.recordOrZero (s : State) (name : String) : ServiceState :=
  (s.serviceRecord name).getD {}

/-- The tenant record a tenant record operation starts from: the stored one,
or a fresh one with an empty service map. -/
def State.tenantOrNew (s : State) (tenantID : String) : TenantState :=
  (s.tenantRecord tenantID).getD { Services := some [] }

/-- The service record, under a tenant, a tenant record operation starts from. -/
def State.tenantRecordOrZero (s : State) (tenantID name : String) : ServiceState :=
  (s.tenantServiceRecord tenantID name).getD {}

/-- A service record after one more execution is recorded in it at time `now`. -/
def ServiceState.recorded (r : ServiceState) (now : Time) (duration : Duration)
    (success : Bool) (err : Option String) : ServiceState :=
  if success then
    { r with
      LastRun := now, LastDuration := duration.String, LastResult := "success",
      SuccessCount := r.SuccessCount + 1, LastError := "" }
  else
    { r with
      LastRun := now, LastDuration := duration.String, LastResult := "failure",
      FailureCount := r.FailureCount + 1, LastError := err.getD r.LastError }

/-- One call of a record operation of the manager. -/
inductive RecordCall where
  | service (serviceName : String) (success : Bool) (duration : Duration)
      (err : Option String)
  | tenant (tenantID serviceName : String) (success : Bool) (duration : Duration)
      (err : Option String)
deriving DecidableEq, Repr

/-- The manager method a `RecordCall` stands for. -/
def Manager.call (m : Manager) (c : RecordCall) (fs : FS) (flt : Faults) (clk : Clock) :
    Option String × Manager × FS × Clock :=
  match c with
  | RecordCall.service n ok d e => m.RecordServiceExecution n ok d e fs flt clk
  | RecordCall.tenant t n ok d e => m.RecordTenantExecution t n ok d e fs flt clk

/-- A sequence of record calls on one manager, each with the faults its save
meets: the errors returned, in order, and the manager, file system and clock
afterwards. -/
def Manager.callAll (m : Manager) :
    List (RecordCall × Faults) → FS → Clock → List (Option String) × Manager × FS × Clock
  | [], fs, clk => ([], m, fs, clk)
  | (c, flt) :: rest, fs, clk =>
    let (e, m1, fs1, clk1) := m.call c fs flt clk
    let (es, m2, fs2, clk2) := Manager.callAll m1 rest fs1 clk1
    (e :: es, m2, fs2, clk2)

/-- A manager opened on a working directory the way every caller does it:
`NewManager(workDir)` followed by `Load()`. The error of the `Load` and the
manager afterwards. -/
def Manager.opened (workDir : String) (fs : FS) (flt : Faults) : Option String × Manager :=
  (NewManager workDir).Load fs flt

/-- The adapter calls `executeService` makes for a service: one call of the
method the operation selects when an adapter is registered for the service's
type, none otherwise. -/
def callsFor (registry : Registry) (operation : Operation) (service : Service) :
    List AdapterCall :=
  match registry.GetForService service with
  | Except.error _ => []
  | Except.ok _ =>
    if operation = OperationDeploy then [AdapterCall.Deploy service none]
    else if operation = OperationRollback then [AdapterCall.Rollback service none 1]
    else if operation = OperationStatus then [AdapterCall.Status service none]
    else []

/-- The return of the adapter for a service follows the convention of the
adapters of `internal/adapter`: Deploy and Rollback return a result or an
error (not nil with nil), and Status returns a non-nil status result. -/
def returnsUsable (registry : Registry) (operation : Operation) (service : Service) : Bool :=
  match registry.GetForService service with
  | Except.error _ => true
  | Except.ok adp =>
    if operation = OperationDeploy then
      (adp.Deploy service none).1.isSome || (adp.Deploy service none).2.isSome
    else if operation = OperationRollback then
      (adp.Rollback service none 1).1.isSome || (adp.Rollback service none 1).2.isSome
    else if operation = OperationStatus then (adp.Status service none).1.isSome
    else true

/-- The operation on a service, run through an adapter, returned no error
with `Success = true` (for Status: returned no error). -/
def operationOK (adp : Adapter) (operation : Operation) (service : Service) : Bool :=
  if operation = OperationDeploy then
    match adp.Deploy service none with
    | (some r, none) => r.Success
    | _ => false
  else if operation = OperationRollback then
    match adp.Rollback service none 1 with
    | (some r, none) => r.Success
    | _ => false
  else if operation = OperationStatus then (adp.Status service none).2.isNone
  else false

/-- The adapter outcome of a service: its adapter was resolved and its
operation returned no error with `Success = true`. -/
def serviceSucceeds (registry : Registry) (operation : Operation) (service : Service) :
    Bool :=
  match registry.GetForService service with
  | Except.error _ => false
  | Except.ok adp => operationOK adp operation service

/-- The execution of a service by the sequential engine succeeds: run in
whatever world, `executeService` returns a result with `Success = true`. -/
def SequentialEngine.executionSucceeds (e : SequentialEngine) (operation : Operation)
    (service : Service) : Prop :=
  ∀ w : World, ∃ (r : ServiceResult) (w' : World),
    e.executeService w service operation = some (r, w') ∧ r.Success = true

/-- The execution of a service by the sequential engine fails: run in whatever
world, `executeService` returns a result with `Success = false`. -/
def SequentialEngine.executionFails (e : SequentialEngine) (operation : Operation)
    (service : Service) : Prop :=
  ∀ w : World, ∃ (r : ServiceResult) (w' : World),
    e.executeService w service operation = some (r, w') ∧ r.Success = false

/-- The adapter calls made for a list of services executed one after the
other. -/
def callsForAll (registry : Registry) (operation : Operation) : List Service → List AdapterCall
  | [] => []
  | service :: rest =>
    callsFor registry operation service ++ callsForAll registry operation rest

/-- A world after two more clock readings and nothing else: what a dry-run
execution of one service leaves. -/
def World.afterDryRun (w : World) : World :=
  { w with clock := { readings := w.clock.readings, reads := w.clock.reads + 2 } }

/-- The goroutine holds a slot of the semaphore at this program point. -/
def TaskPC.holds : TaskPC → Bool
  | TaskPC.waiting => false
  | TaskPC.admitted => true
  | TaskPC.running => true
  | TaskPC.executed _ => true
  | TaskPC.stored _ => true
  | TaskPC.flagging => true
  | TaskPC.releasing => true
  | TaskPC.done => false

/-- The number of goroutines that hold a slot of the semaphore. -/
def ParState.slotsHeld (st : ParState) : Nat := st.pcs.countP TaskPC.holds

/-- The operation on a service for a tenant, run through an adapter, returned
no error with `Success = true`. The tenant executor knows Deploy and Rollback
only. -/
def tenantOperationOK (adp : Adapter) (operation : Operation) (tenant : Tenant)
    (service : Service) : Bool :=
  if operation = OperationDeploy then
    match adp.Deploy service (some tenant) with
    | (some r, none) => r.Success
    | _ => false
  else if operation = OperationRollback then
    match adp.Rollback service (some tenant) 1 with
    | (some r, none) => r.Success
    | _ => false
  else false

/-- The operation on a service for a tenant, run through an adapter, failed:
it returned an error, or a result with `Success = false` and no error; an
operation other than Deploy and Rollback fails without a call. A nil result
with a nil error is neither a success nor a failure. -/
def tenantOperationFailed (adp : Adapter) (operation : Operation) (tenant : Tenant)
    (service : Service) : Bool :=
  if operation = OperationDeploy then
    match adp.Deploy service (some tenant) with
    | (_, some _) => true
    | (some r, none) => !r.Success
    | (none, none) => false
  else if operation = OperationRollback then
    match adp.Rollback service (some tenant) 1 with
    | (_, some _) => true
    | (some r, none) => !r.Success
    | (none, none) => false
  else true

/-- A service succeeds for a tenant: its adapter was resolved and its
operation returned no error with `Success = true`. -/
def tenantServiceSucceeds (registry : Registry) (operation : Operation) (tenant : Tenant)
    (service : Service) : Bool :=
  match registry.GetForService service with
  | Except.error _ => false
  | Except.ok adp => tenantOperationOK adp operation tenant service

/-- The adapter operation of a service fails for a tenant: its adapter was
resolved and its operation failed. -/
def tenantServiceFails (registry : Registry) (operation : Operation) (tenant : Tenant)
    (service : Service) : Bool :=
  match registry.GetForService service with
  | Except.error _ => false
  | Except.ok adp => tenantOperationFailed adp operation tenant service

/-- What holds of `results` in every run, whatever the failure policy and the
schedule: it has one slot per service, a slot holds a result without a name
(the zero value) or the name of the service of its index, and a result a
goroutine is about to store carries the name of its service. -/
def ParState.Indexed (services : List Service) (st : ParState) : Prop :=
  st.results.length = services.length ∧
  (∀ (i : Nat) (res : ServiceResult) (svc : Service),
    st.results[i]? = some res → services[i]? = some svc →
    res.ServiceName = "" ∨ res.ServiceName = svc.Name) ∧
  (∀ (i : Nat) (r : ServiceResult) (svc : Service),
    st.pcs[i]? = some (TaskPC.executed r) → services[i]? = some svc →
    r.ServiceName = svc.Name)

/-- The tenant goroutine holds a slot of the semaphore at this program
point. -/
def TenantPC.holds : TenantPC → Bool
  | TenantPC.waiting => false
  | TenantPC.admitted => true
  | TenantPC.running => true
  | TenantPC.executed _ => true
  | TenantPC.stored _ => true
  | TenantPC.flagging => true
  | TenantPC.releasing => true
  | TenantPC.done => false

/-- The number of tenant goroutines that hold a slot of the semaphore: those
admitted through the gate that have not yet returned. -/
def TenantParState.slotsHeld (st : TenantParState) : Nat := st.pcs.countP TenantPC.holds

/-- The record operation a `RecordCall` stands for, on the state model. -/
def State.call (s : State) (c : RecordCall) (clk : Clock) : State × Clock :=
  match c with
  | RecordCall.service n ok d e => s.RecordServiceExecution n ok d e clk
  | RecordCall.tenant t n ok d e => s.RecordTenantExecution t n ok d e clk

/-- A sequence of record operations on a state, one after the other. -/
def State.callAll (s : State) : List RecordCall → Clock → State × Clock
  | [], clk => (s, clk)
  | c :: rest, clk =>
    let (s₁, clk₁) := s.call c clk
    State.callAll s₁ rest clk₁

/-- The sum of `SuccessCount` over the service records nested in a tenant
record. -/
def TenantState.successSum (t : TenantState) : Int :=
  ((t.Services.getD []).map (fun kv => kv.2.SuccessCount)).sum

/-- The sum of `FailureCount` over the service records nested in a tenant
record. -/
def TenantState.failureSum (t : TenantState) : Int :=
  ((t.Services.getD []).map (fun kv => kv.2.FailureCount)).sum

/-- The counters of every tenant record agree with the sums over its nested
service records, which sit under pairwise distinct names. -/
def State.TenantCountsAgree (s : State) : Prop :=
  ∀ (id : String) (t : TenantState), s.tenantRecord id = some t →
    t.SuccessCount = t.successSum ∧ t.FailureCount = t.failureSum ∧
    ((t.Services.getD []).map (fun kv => kv.1)).Nodup

/-- A sequence of `Register` calls on a registry, one after the other. -/
def Registry.registerAll (r : Registry) : List (String × Adapter) → Registry
  | [] => r
  | (name, adapter) :: rest => Registry.registerAll (r.Register name adapter) rest

/-- The goroutine is past its write to `results`, or has skipped it: it is at
the `cancel()` call, at the release of its slot, or has returned. -/
def TaskPC.isPast : TaskPC → Bool
  | TaskPC.flagging => true
  | TaskPC.releasing => true
  | TaskPC.done => true
  | _ => false

/-- What the map of service records holds under a name (`s.Services[name]`):
`none` without the key, `some none` for a nil pointer. -/
def HeapState.servicePointer (s : HeapState) (name : String) : Option (Option ServiceState) :=
  match s.Services with
  | none => none
  | some m => Map.get m name

/-- What the map of tenant records holds under an ID (`s.Tenants[id]`). -/
def HeapState.tenantPointer (s : HeapState) (tenantID : String) :
    Option (Option HeapTenantState) :=
  match s.Tenants with
  | none => none
  | some m => Map.get m tenantID

/-- What the record of a tenant holds under a service name
(`s.Tenants[id].Services[name]`); `none` also when the tenant has no record. -/
def HeapState.tenantServicePointer (s : HeapState) (tenantID name : String) :
    Option (Option ServiceState) :=
  match s.tenantPointer tenantID with
  | some (some t) =>
    match t.Services with
    | none => none
    | some m => Map.get m name
  | _ => none

/-- The record a service record operation starts from. -/
def HeapState.recordOrZero (s : HeapState) (name : String) : ServiceState :=
  (s.servicePointer name).join.getD {}

/-- The tenant record a tenant record operation starts from. -/
def HeapState.tenantOrNew (s : HeapState) (tenantID : String) : HeapTenantState :=
  (s.tenantPointer tenantID).join.getD { Services := some [] }

/-- The service record, under a tenant, a tenant record operation starts from. -/
def HeapState.tenantRecordOrZero (s : HeapState) (tenantID name : String) : ServiceState :=
  (s.tenantServicePointer tenantID name).join.getD {}

/-- A service record after one more execution is recorded in it at time `now`,
its counter raised as a Go `int` is. -/
def ServiceState.recordedInt (r : ServiceState) (now : Time) (duration : Duration)
    (success : Bool) (err : Option String) : ServiceState :=
  if success then
    { r with
      LastRun := now, LastDuration := duration.String, LastResult := "success",
      SuccessCount := wrapInt (r.SuccessCount + 1), LastError := "" }
  else
    { r with
      LastRun := now, LastDuration := duration.String, LastResult := "failure",
      FailureCount := wrapInt (r.FailureCount + 1), LastError := err.getD r.LastError }

/-- The counter of a service record that a record operation with this success
flag raises. -/
def ServiceState.counter (r : ServiceState) (success : Bool) : Int :=
  if success then r.SuccessCount else r.FailureCount

/-- The counter of a tenant record that a record operation with this success
flag raises. -/
def HeapTenantState.counter (t : HeapTenantState) (success : Bool) : Int :=
  if success then t.SuccessCount else t.FailureCount

/-- The integer is a value of the Go type `int`. -/
def fitsInt (x : Int) : Prop := minInt ≤ x ∧ x ≤ maxInt

/-- Every record of `s` (a non-nil pointer in a map) is still a record of
`s'`, and each of its two counters stands in the relation `R` to what it was:
top-level service records, tenant records, and service records under a
tenant. -/
def HeapState.RecordsRelate (R : Int → Int → Prop) (s s' : HeapState) : Prop :=
  (∀ n r, s.servicePointer n = some (some r) →
    ∃ r', s'.servicePointer n = some (some r') ∧
      R r.SuccessCount r'.SuccessCount ∧ R r.FailureCount r'.FailureCount) ∧
  (∀ t r, s.tenantPointer t = some (some r) →
    ∃ r', s'.tenantPointer t = some (some r') ∧
      R r.SuccessCount r'.SuccessCount ∧ R r.FailureCount r'.FailureCount) ∧
  (∀ t n r, s.tenantServicePointer t n = some (some r) →
    ∃ r', s'.tenantServicePointer t n = some (some r') ∧
      R r.SuccessCount r'.SuccessCount ∧ R r.FailureCount r'.FailureCount)

/-- Every record of `s` is still a record of `s'`. -/
def HeapState.RecordsKept (s s' : HeapState) : Prop :=
  HeapState.RecordsRelate (fun _ _ => True) s s'

/-- Every record of `s` is still a record of `s'`, with counters at least as
large. -/
def HeapState.CountsGrow (s s' : HeapState) : Prop :=
  HeapState.RecordsRelate (fun c c' => c ≤ c') s s'

/-- The tenant record with every service record behind a non-nil pointer. -/
def TenantState.toHeap (t : TenantState) : HeapTenantState :=
  { LastRun := t.LastRun
    Services := t.Services.map (fun m => m.map (fun kv => (kv.1, some kv.2)))
    SuccessCount := t.SuccessCount
    FailureCount := t.FailureCount }

/-- The state with every record behind a non-nil pointer. -/
def State.toHeap (s : State) : HeapState :=
  { LastExecution := s.LastExecution
    Services := s.Services.map (fun m => m.map (fun kv => (kv.1, some kv.2)))
    Tenants := s.Tenants.map (fun m => m.map (fun kv => (kv.1, some kv.2.toHeap)))
    Version := s.Version }

/-- The adapter with its context fixed. -/
def CtxAdapter.under (a : CtxAdapter) (ctx : Bool) : Adapter :=
  { Deploy := a.Deploy ctx, Rollback := a.Rollback ctx, Status := a.Status ctx, Name := a.Name }

/-- The registry with the context of every adapter fixed. -/
def CtxRegistry.under (r : CtxRegistry) (ctx : Bool) : Registry :=
  { adapters := r.adapters.map (fun kv => (kv.1, kv.2.under ctx)) }

/-- The engine with the context of every adapter fixed. -/
def CtxParallelEngine.under (e : CtxParallelEngine) (ctx : Bool) : ParallelEngine :=
  { registry := e.registry.under ctx, stopOnFailure := e.stopOnFailure, dryRun := e.dryRun,
    maxParallel := e.maxParallel }

/-- An adapter given without context argument, as one that does not look at
its context. -/
def Adapter.ignoringContext (a : Adapter) : CtxAdapter :=
  { Deploy := fun _ => a.Deploy, Rollback := fun _ => a.Rollback, Status := fun _ => a.Status,
    Name := a.Name }

/-- A registry of adapters that do not look at their context. -/
def Registry.ignoringContext (r : Registry) : CtxRegistry :=
  { adapters := r.adapters.map (fun kv => (kv.1, kv.2.ignoringContext)) }

/-- A parallel engine over adapters that do not look at their context. -/
def ParallelEngine.ignoringContext (e : ParallelEngine) : CtxParallelEngine :=
  { registry := e.registry.ignoringContext, stopOnFailure := e.stopOnFailure,
    dryRun := e.dryRun, maxParallel := e.maxParallel }

/-- The result is one `executeService` returns for the service: it carries
the name of the service, and its `Success` is the adapter outcome of the
service under a context that is not cancelled, or under a cancelled one. -/
def ctxOutcome (registry : CtxRegistry) (op : Operation) (svc : Service)
    (r : ServiceResult) : Prop :=
  r.ServiceName = svc.Name ∧
    (r.Success = serviceSucceeds (registry.under false) op svc ∨
      r.Success = serviceSucceeds (registry.under true) op svc)

/-- What is known of a result `r` that goroutine `i` holds, in a run in which
the service at index `k` is the only one that fails under a context that is
not cancelled: it is an outcome of the service; a failure is that of service
`k`, or comes after the `failed` flag went up; and the result of service `k`
is a failure. -/
def heldSound (registry : CtxRegistry) (op : Operation) (k : Nat) (failed : Bool) (i : Nat)
    (svc : Service) (r : ServiceResult) : Prop :=
  ctxOutcome registry op svc r ∧ (r.Success = false → i = k ∨ failed = true) ∧
    (i = k → r.Success = false)

/-- What holds in every state of a run, dry-run off, in which the service at
index `k` is the only one that fails under a context that is not cancelled, and
the caller does not cancel: a slot of `results` holds a result without a name
or an outcome of the service of its index; a result held by a goroutine is
sound, and once stored it is in its slot; the `failed` flag is up only once
goroutine `k` is past its write, cancellation only comes with the flag, and
goroutine `k`, once past its write, has left the failure of its service in slot
`k`. -/
def ParState.CancelInv (e : CtxParallelEngine) (services : List Service) (op : Operation)
    (k : Nat) (st : ParState) : Prop :=
  st.pcs.length = services.length ∧ st.results.length = services.length ∧
  st.panicked = false ∧
  (∀ (i : Nat) (res : ServiceResult) (svc : Service),
    st.results[i]? = some res → services[i]? = some svc →
    res.ServiceName = "" ∨ ctxOutcome e.registry op svc res) ∧
  (∀ (i : Nat) (r : ServiceResult) (svc : Service),
    st.pcs[i]? = some (TaskPC.executed r) → services[i]? = some svc →
    heldSound e.registry op k st.failed i svc r) ∧
  (∀ (i : Nat) (r : ServiceResult) (svc : Service),
    st.pcs[i]? = some (TaskPC.stored r) → services[i]? = some svc →
    st.results[i]? = some r ∧ heldSound e.registry op k st.failed i svc r) ∧
  (∀ (i : Nat), st.pcs[i]? = some TaskPC.flagging → st.failed = true) ∧
  (st.failed = true → ∃ pc, st.pcs[k]? = some pc ∧ pc.isPast = true) ∧
  (st.cancelled = true → st.failed = true) ∧
  (∀ pc, st.pcs[k]? = some pc → pc.isPast = true →
    ∃ (res : ServiceResult) (svc : Service), st.results[k]? = some res ∧
      services[k]? = some svc ∧ res.ServiceName = svc.Name ∧ res.Success = false)

/-! ## Example inputs -/

/-- A clock that always reads zero. -/
def exampleClock : Clock := { readings := fun _ => 0, reads := 0 }

/-- One successful one-second execution of `svc1`, saved without fault. -/
def exampleCalls : List (RecordCall × Faults) :=
  [(RecordCall.service "svc1" true ⟨1000000000⟩ none, {})]

/-- An adapter whose Deploy fails, by its result, for the service named `b`
and succeeds for the others, whose Rollback returns an error, and whose Status
reports two applied migrations. -/
def exampleAdapter : Adapter :=
  { Deploy := fun s _ =>
      if s.Name = "b" then (some { Success := false, Error := "exit status 1" }, none)
      else (some { Success := true, Output := "done" }, none)
    Rollback := fun _ _ _ => (none, some "rollback is not supported")
    Status := fun _ _ => (some { Applied := ["0001", "0002"] }, none)
    Name := "ok" }

/-- A registry with `exampleAdapter` under the type `ok`. -/
def exampleRegistry : Registry := NewRegistry.Register "ok" exampleAdapter

/-- Three services: `a` and `b` of type `ok`, `c` of a type without adapter. -/
def exampleServices : List Service :=
  [{ Name := "a", Type_ := "ok" }, { Name := "b", Type_ := "ok" },
   { Name := "c", Type_ := "unknown" }]

/-- A world with a new manager, no file, no fault and an empty call log. -/
def exampleWorld : World :=
  { mgr := NewManager "/work", fs := [], clock := exampleClock, faults := fun _ => {},
    saves := 0, calls := [] }

/-- A tenant. -/
def exampleTenant : Tenant := { ID := "t1" }

/-- A tenant source that returns an empty list and no error. -/
def emptySource : Source := { LoadTenants := ([], none) }

/-- A tenant source that returns an error. -/
def failingSource : Source := { LoadTenants := ([], some "tenant file not found") }

/-- A schedule for the three example services with stop-on-failure on: `b`
runs to its end and fails, then `a`, still waiting, takes the cancellation
branch, and `c` is admitted and returns at the check of the `failed` flag. -/
def stopSchedule : List Action :=
  [Action.run 1, Action.run 1, Action.run 1, Action.run 1, Action.run 1, Action.run 1,
   Action.run 1, Action.giveUp 0, Action.run 2, Action.run 2, Action.run 2]

/-- A host on which every command succeeds and prints `ok`. -/
def exampleHost : Host := fun _ => { output := "ok" }

/-- A file system on which every path is absolute and exists. -/
def examplePaths : Paths := { abs := fun p => Except.ok p, notExist := fun _ => false }

/-- A configuration without services and without discovery. -/
def noServicesConfig : Config :=
  { Execution := { Strategy := "sequential" }
    Logging := { Level := "info", Format := "console" } }

/-- A configuration with one django service, the sequential strategy and valid
logging settings. -/
def validConfig : Config :=
  { Services := [{ Name := "svc1", Type_ := "django", Path := "." }]
    Execution := { Strategy := "sequential", StopOnFailure := true }
    Logging := { Level := "info", Format := "console" } }

/-- The services `a`, `b`, `c` of type `ok`: under Deploy only `b` fails. -/
def scenarioServices : List Service :=
  [{ Name := "a", Type_ := "ok" }, { Name := "b", Type_ := "ok" }, { Name := "c", Type_ := "ok" }]

/-- A state file in which the record of the service `svc1`, the record of the
tenant `t1` and the record of `svc1` under `t1` have counters at the largest
`int`. -/
def fullCounterFile : StateJSON :=
  { last_execution := some 0
    services := some [("svc1",
      { last_run := some 0, last_result := some "success",
        success_count := some 9223372036854775807,
        failure_count := some 9223372036854775807, last_duration := some "1s" })]
    tenants := some [("t1",
      { last_run := some 0
        services := some [("svc1",
          { last_run := some 0, last_result := some "failure",
            success_count := some 0,
            failure_count := some 9223372036854775807, last_duration := some "1s" })]
        success_count := some 0
        failure_count := some 9223372036854775807 })]
    version := some "1.0" }

/-- The state `Load` reads out of `fullCounterFile`. -/
def fullCounterState : HeapState := (StateJSON.unmarshal fullCounterFile).toHeap

/-- A state whose maps hold a nil pointer: under the service `svc1`, under the
tenant `t1`, and under the service `svc1` of the tenant `t2`. It is what
`json.Unmarshal` makes of a state file that has `null` in these places. -/
def nilRecordState : HeapState :=
  { Services := some [("svc1", none)]
    Tenants := some [("t1", none), ("t2", some { Services := some [("svc1", none)] })]
    Version := "1.0" }

/-- An adapter that treats its context as the adapters of `internal/adapter`
do: under a cancelled context its command is killed and Deploy returns a
failure result; otherwise Deploy fails, by its result, for the service named
`b` and succeeds for the others. -/
def ctxExampleAdapter : CtxAdapter :=
  { Deploy := fun ctx s _ =>
      if ctx then (some { Success := false, Error := "signal: killed" }, none)
      else if s.Name = "b" then (some { Success := false, Error := "exit status 1" }, none)
      else (some { Success := true, Output := "done" }, none)
    Rollback := fun _ _ _ _ => (none, some "rollback is not supported")
    Status := fun _ _ _ => (some { Applied := ["0001", "0002"] }, none)
    Name := "ok" }

/-- A registry with `ctxExampleAdapter` under the type `ok`. -/
def ctxExampleRegistry : CtxRegistry := NewCtxRegistry.Register "ok" ctxExampleAdapter

/-- A schedule for the three services under a ceiling of two with
stop-on-failure on: `a` and `b` are admitted and `a` is about to call
`executeService`; `b` runs to its end, fails and cancels; the command of `a` is
refused or killed and `a` runs to its end with that failure; `c`, still
waiting, takes the cancellation branch. -/
def killSchedule : List Action :=
  [Action.run 0, Action.run 0] ++ List.replicate 7 (Action.run 1) ++
    List.replicate 5 (Action.run 0) ++ [Action.giveUp 2]

end Migra

namespace Migra

/-! # Theorems -/

/-! ## Maps -/

theorem Map.get_set_self {V : Type} (m : Map V) (k : String) (v : V) :
    Map.get (Map.set m k v) k = some v := by
  induction m with
  | nil => simp [Map.set, Map.get]
  | cons hd tl ih =>
    obtain ⟨k', v'⟩ := hd
    by_cases h : k' = k
    · simp [Map.set, Map.get, h]
    · simp [Map.set, Map.get, h, ih]

theorem Map.get_set_of_ne {V : Type} (m : Map V) (k k' : String) (v : V) (h : k' ≠ k) :
    Map.get (Map.set m k v) k' = Map.get m k' := by
  induction m with
  | nil => simp [Map.set, Map.get, h.symm]
  | cons hd tl ih =>
    obtain ⟨k₀, v₀⟩ := hd
    by_cases h₀ : k₀ = k
    · subst h₀
      simp [Map.set, Map.get, h.symm]
    · by_cases h₁ : k₀ = k'
      · subst h₁
        simp [Map.set, Map.get, h₀]
      · simp [Map.set, Map.get, h₀, h₁, ih]

theorem Map.set_set {V : Type} (m : Map V) (k : String) (v v' : V) :
    Map.set (Map.set m k v) k v' = Map.set m k v' := by
  induction m with
  | nil => simp [Map.set]
  | cons hd tl ih =>
    obtain ⟨k₀, v₀⟩ := hd
    by_cases h : k₀ = k
    · simp [Map.set, h]
    · simp [Map.set, h, ih]

theorem Map.get_map_value {V W : Type} (f : V → W) (m : Map V) (k : String) :
    Map.get (m.map (fun kv => (kv.1, f kv.2))) k = (Map.get m k).map f := by
  induction m with
  | nil => rfl
  | cons hd tl ih =>
    obtain ⟨k₀, v₀⟩ := hd
    by_cases h : k₀ = k
    · simp [Map.get, h]
    · simpa [Map.get, h] using ih

theorem Map.set_map_value {V W : Type} (f : V → W) (m : Map V) (k : String) (v : V) :
    Map.set (m.map (fun kv => (kv.1, f kv.2))) k (f v) =
      (Map.set m k v).map (fun kv => (kv.1, f kv.2)) := by
  induction m with
  | nil => rfl
  | cons hd tl ih =>
    obtain ⟨k₀, v₀⟩ := hd
    by_cases h : k₀ = k
    · simp [Map.set, h]
    · simpa [Map.set, h] using ih

/-! ## The record operations of the state model -/

/-- `RecordServiceExecution` leaves the records of the other names as they were. -/
theorem State.serviceRecord_RecordServiceExecution_of_ne (s : State) (name n : String)
    (success : Bool) (duration : Duration) (err : Option String) (clk : Clock) (h : n ≠ name) :
    (s.RecordServiceExecution name success duration err clk).1.serviceRecord n =
      s.serviceRecord n := by
  unfold State.RecordServiceExecution State.GetServiceState State.serviceRecord
  cases hs : s.Services with
  | none => simp [Map.get, Map.set, Clock.Now, Map.get_set_of_ne, h, Ne.symm h]
  | some m =>
    cases hg : Map.get m name <;> simp [Clock.Now, Map.get_set_of_ne, h, hg]

/-- `RecordServiceExecution` does not touch the tenant records. -/
theorem State.Tenants_RecordServiceExecution (s : State) (name : String)
    (success : Bool) (duration : Duration) (err : Option String) (clk : Clock) :
    (s.RecordServiceExecution name success duration err clk).1.Tenants = s.Tenants := by
  unfold State.RecordServiceExecution State.GetServiceState
  cases hs : s.Services with
  | none => simp [Map.get, Clock.Now]
  | some m => cases hg : Map.get m name <;> simp [Clock.Now, hg]

/-- `RecordTenantExecution` does not touch the top-level service records. -/
theorem State.Services_RecordTenantExecution (s : State) (tenantID name : String)
    (success : Bool) (duration : Duration) (err : Option String) (clk : Clock) :
    (s.RecordTenantExecution tenantID name success duration err clk).1.Services =
      s.Services := by
  unfold State.RecordTenantExecution State.GetTenantState
  cases hs : s.Tenants with
  | none => simp [Map.get, Clock.Now]
  | some m => cases hg : Map.get m tenantID <;> simp [Clock.Now, hg]

/-- The record `RecordTenantExecution` leaves under the tenant it is given. -/
theorem State.tenantRecord_RecordTenantExecution (s : State) (tenantID name : String)
    (success : Bool) (duration : Duration) (err : Option String) (clk : Clock) :
    (s.RecordTenantExecution tenantID name success duration err clk).1.tenantRecord tenantID =
      some
        { LastRun := clk.readings clk.reads
          Services := some (Map.set ((s.tenantOrNew tenantID).Services.getD []) name
            ((s.tenantRecordOrZero tenantID name).recorded (clk.readings (clk.reads + 1))
              duration success err))
          SuccessCount := (s.tenantOrNew tenantID).SuccessCount + (if success then 1 else 0)
          FailureCount := (s.tenantOrNew tenantID).FailureCount + (if success then 0 else 1) } := by
  unfold State.RecordTenantExecution State.GetTenantState State.tenantOrNew
    State.tenantRecordOrZero State.tenantServiceRecord State.tenantRecord ServiceState.recorded
  cases hs : s.Tenants with
  | none =>
    cases success <;> cases err <;> simp [Map.get, Map.set, Clock.Now, Map.get_set_self]
  | some m =>
    cases hg : Map.get m tenantID with
    | none =>
      cases success <;> cases err <;> simp [Map.get, Map.set, Clock.Now, Map.get_set_self, hg]
    | some t =>
      cases ht : t.Services with
      | none =>
        cases success <;> cases err <;>
          simp [Map.get, Map.set, Clock.Now, Map.get_set_self, hg, ht]
      | some sm =>
        cases hr : Map.get sm name <;> cases success <;> cases err <;>
          simp [Map.get, Map.set, Clock.Now, Map.get_set_self, hg, ht, hr]

/-- `RecordTenantExecution` leaves the records of the other tenants as they were. -/
theorem State.tenantRecord_RecordTenantExecution_of_ne (s : State) (tenantID name t : String)
    (success : Bool) (duration : Duration) (err : Option String) (clk : Clock)
    (h : t ≠ tenantID) :
    (s.RecordTenantExecution tenantID name success duration err clk).1.tenantRecord t =
      s.tenantRecord t := by
  unfold State.RecordTenantExecution State.GetTenantState State.tenantRecord
  cases hs : s.Tenants with
  | none => simp [Map.get, Map.set, Clock.Now, Map.get_set_of_ne, h, Ne.symm h]
  | some m =>
    cases hg : Map.get m tenantID <;> simp [Clock.Now, Map.get_set_of_ne, h, hg]

/-! ## The record operations with pointers and machine integers -/

theorem wrapInt_of_room (x : Int) (h1 : minInt ≤ x) (h2 : x < maxInt) :
    wrapInt (x + 1) = x + 1 := by
  unfold wrapInt
  unfold minInt at h1
  unfold maxInt at h2
  omega

theorem le_wrapInt_succ (x : Int) (h2 : x < maxInt) : x ≤ wrapInt (x + 1) := by
  unfold wrapInt
  unfold maxInt at h2
  omega

/-- What `RecordServiceExecution` returns when the pointer under the name is
not nil. -/
theorem HeapState.RecordServiceExecution_eq (s : HeapState) (name : String)
    (success : Bool) (duration : Duration) (err : Option String) (clk : Clock)
    (hptr : s.servicePointer name ≠ some none) :
    s.RecordServiceExecution name success duration err clk =
      some ({ s with
              LastExecution := clk.readings (clk.reads + 1)
              Services := some (Map.set (s.Services.getD []) name
                (some ((s.recordOrZero name).recordedInt (clk.readings clk.reads) duration
                  success err))) },
            { readings := clk.readings, reads := clk.reads + 2 }) := by
  unfold HeapState.RecordServiceExecution HeapState.GetServiceState HeapState.recordOrZero
    ServiceState.recordedInt
  unfold HeapState.servicePointer at hptr ⊢
  cases hs : s.Services with
  | none =>
    cases success <;> cases err <;> simp [Map.get, Map.set, Clock.Now]
  | some m =>
    rw [hs] at hptr
    simp only at hptr
    rcases hg : Map.get m name with _ | _ | r
    · cases success <;> cases err <;> simp [Map.get, Map.set, Clock.Now, hg, Map.set_set]
    · exact absurd hg hptr
    · cases success <;> cases err <;> simp [Map.get, Map.set, Clock.Now, hg]

/-- `RecordServiceExecution` panics when the pointer under the name is nil. -/
theorem HeapState.RecordServiceExecution_of_nil (s : HeapState) (name : String)
    (success : Bool) (duration : Duration) (err : Option String) (clk : Clock)
    (hptr : s.servicePointer name = some none) :
    s.RecordServiceExecution name success duration err clk = none := by
  unfold HeapState.RecordServiceExecution HeapState.GetServiceState
  unfold HeapState.servicePointer at hptr
  cases hs : s.Services with
  | none => simp [hs] at hptr
  | some m =>
    rw [hs] at hptr
    simp only at hptr
    simp [hptr, Clock.Now]

/-- What `RecordTenantExecution` returns when neither the pointer under the
tenant nor the pointer under the service name is nil. -/
theorem HeapState.RecordTenantExecution_eq (s : HeapState) (tenantID name : String)
    (success : Bool) (duration : Duration) (err : Option String) (clk : Clock)
    (htp : s.tenantPointer tenantID ≠ some none)
    (hsp : s.tenantServicePointer tenantID name ≠ some none) :
    s.RecordTenantExecution tenantID name success duration err clk =
      some ({ s with
              LastExecution := clk.readings (clk.reads + 2)
              Tenants := some (Map.set (s.Tenants.getD []) tenantID
                (some
                  { LastRun := clk.readings clk.reads
                    Services := some (Map.set ((s.tenantOrNew tenantID).Services.getD []) name
                      (some ((s.tenantRecordOrZero tenantID name).recordedInt
                        (clk.readings (clk.reads + 1)) duration success err)))
                    SuccessCount :=
                      if success then wrapInt ((s.tenantOrNew tenantID).SuccessCount + 1)
                      else (s.tenantOrNew tenantID).SuccessCount
                    FailureCount :=
                      if success then (s.tenantOrNew tenantID).FailureCount
                      else wrapInt ((s.tenantOrNew tenantID).FailureCount + 1) })) },
            { readings := clk.readings, reads := clk.reads + 3 }) := by
  unfold HeapState.RecordTenantExecution HeapState.GetTenantState HeapState.tenantOrNew
    HeapState.tenantRecordOrZero ServiceState.recordedInt
  unfold HeapState.tenantServicePointer at hsp ⊢
  unfold HeapState.tenantPointer at htp hsp ⊢
  cases hs : s.Tenants with
  | none =>
    cases success <;> cases err <;> simp [Map.get, Map.set, Clock.Now]
  | some m =>
    rw [hs] at htp hsp
    simp only at htp hsp
    rcases hg : Map.get m tenantID with _ | _ | t
    · cases success <;> cases err <;> simp [Map.get, Map.set, Clock.Now, hg, Map.set_set]
    · exact absurd hg htp
    · rw [hg] at hsp
      simp only at hsp
      cases ht : t.Services with
      | none =>
        cases success <;> cases err <;> simp [Map.get, Map.set, Clock.Now, hg, ht]
      | some sm =>
        rw [ht] at hsp
        simp only at hsp
        rcases hr : Map.get sm name with _ | _ | r
        · cases success <;> cases err <;> simp [Map.get, Map.set, Clock.Now, hg, ht, hr]
        · exact absurd hr hsp
        · cases success <;> cases err <;> simp [Map.get, Map.set, Clock.Now, hg, ht, hr]

/-- `RecordTenantExecution` panics when the pointer under the tenant or the
pointer under the service name is nil. -/
theorem HeapState.RecordTenantExecution_of_nil (s : HeapState) (tenantID name : String)
    (success : Bool) (duration : Duration) (err : Option String) (clk : Clock)
    (hptr : s.tenantPointer tenantID = some none ∨
      s.tenantServicePointer tenantID name = some none) :
    s.RecordTenantExecution tenantID name success duration err clk = none := by
  unfold HeapState.RecordTenantExecution HeapState.GetTenantState
  unfold HeapState.tenantServicePointer at hptr
  unfold HeapState.tenantPointer at hptr
  cases hs : s.Tenants with
  | none => simp [hs] at hptr
  | some m =>
    rw [hs] at hptr
    simp only at hptr
    rcases hg : Map.get m tenantID with _ | _ | t
    · simp [hg] at hptr
    · simp [hg, Clock.Now]
    · rw [hg] at hptr
      simp only at hptr
      rcases hptr with h | h
      · simp at h
      · cases ht : t.Services with
        | none => simp [ht] at h
        | some sm =>
          rw [ht] at h
          simp only at h
          simp [hg, ht, h, Clock.Now]

theorem ServiceState.recordedInt_relate (R : Int → Int → Prop) (hrefl : ∀ x, R x x)
    (r : ServiceState) (now : Time) (duration : Duration) (success : Bool)
    (err : Option String) (h : R (r.counter success) (wrapInt (r.counter success + 1))) :
    R r.SuccessCount (r.recordedInt now duration success err).SuccessCount ∧
      R r.FailureCount (r.recordedInt now duration success err).FailureCount := by
  cases success
  · simp only [ServiceState.counter, Bool.false_eq_true, if_false] at h
    simp [ServiceState.recordedInt, h, hrefl]
  · simp only [ServiceState.counter, if_true] at h
    simp [ServiceState.recordedInt, h, hrefl]

theorem HeapState.relate_RecordServiceExecution (R : Int → Int → Prop) (hrefl : ∀ x, R x x)
    (s s' : HeapState) (name : String)
    (success : Bool) (duration : Duration) (err : Option String) (clk clk' : Clock)
    (hret : s.RecordServiceExecution name success duration err clk = some (s', clk'))
    (hmax : R ((s.recordOrZero name).counter success)
      (wrapInt ((s.recordOrZero name).counter success + 1))) :
    HeapState.RecordsRelate R s s' := by
  have hptr : s.servicePointer name ≠ some none := by
    intro h
    rw [HeapState.RecordServiceExecution_of_nil s name success duration err clk h] at hret
    cases hret
  rw [HeapState.RecordServiceExecution_eq s name success duration err clk hptr] at hret
  simp only [Option.some.injEq, Prod.mk.injEq] at hret
  obtain ⟨hs', -⟩ := hret
  subst hs'
  refine ⟨?_, ?_, ?_⟩
  · intro n r hr
    by_cases h : n = name
    · subst h
      have h0 : s.recordOrZero n = r := by simp [HeapState.recordOrZero, hr]
      rw [h0] at hmax ⊢
      exact ⟨r.recordedInt (clk.readings clk.reads) duration success err,
        by simp [HeapState.servicePointer, Map.get_set_self],
        ServiceState.recordedInt_relate R hrefl r _ duration success err hmax⟩
    · refine ⟨r, ?_, hrefl _, hrefl _⟩
      unfold HeapState.servicePointer at hr ⊢
      cases hm : s.Services with
      | none => simp [hm] at hr
      | some m =>
        rw [hm] at hr
        simp only at hr
        simp [Map.get_set_of_ne _ _ _ _ h, hr]
  · intro t r hr
    exact ⟨r, hr, hrefl _, hrefl _⟩
  · intro t n r hr
    exact ⟨r, hr, hrefl _, hrefl _⟩

theorem HeapState.relate_RecordTenantExecution (R : Int → Int → Prop) (hrefl : ∀ x, R x x)
    (s s' : HeapState) (tenantID name : String)
    (success : Bool) (duration : Duration) (err : Option String) (clk clk' : Clock)
    (hret : s.RecordTenantExecution tenantID name success duration err clk = some (s', clk'))
    (hmaxt : R ((s.tenantOrNew tenantID).counter success)
      (wrapInt ((s.tenantOrNew tenantID).counter success + 1)))
    (hmax : R ((s.tenantRecordOrZero tenantID name).counter success)
      (wrapInt ((s.tenantRecordOrZero tenantID name).counter success + 1))) :
    HeapState.RecordsRelate R s s' := by
  have htp : s.tenantPointer tenantID ≠ some none := by
    intro h
    rw [HeapState.RecordTenantExecution_of_nil s tenantID name success duration err clk
      (Or.inl h)] at hret
    cases hret
  have hsp : s.tenantServicePointer tenantID name ≠ some none := by
    intro h
    rw [HeapState.RecordTenantExecution_of_nil s tenantID name success duration err clk
      (Or.inr h)] at hret
    cases hret
  rw [HeapState.RecordTenantExecution_eq s tenantID name success duration err clk htp hsp]
    at hret
  simp only [Option.some.injEq, Prod.mk.injEq] at hret
  obtain ⟨hs', -⟩ := hret
  subst hs'
  have hother : ∀ t, t ≠ tenantID → ∀ p, s.tenantPointer t = some p →
      HeapState.tenantPointer
        { s with
          LastExecution := clk.readings (clk.reads + 2)
          Tenants := some (Map.set (s.Tenants.getD []) tenantID
            (some
              { LastRun := clk.readings clk.reads
                Services := some (Map.set ((s.tenantOrNew tenantID).Services.getD []) name
                  (some ((s.tenantRecordOrZero tenantID name).recordedInt
                    (clk.readings (clk.reads + 1)) duration success err)))
                SuccessCount :=
                  if success then wrapInt ((s.tenantOrNew tenantID).SuccessCount + 1)
                  else (s.tenantOrNew tenantID).SuccessCount
                FailureCount :=
                  if success then (s.tenantOrNew tenantID).FailureCount
                  else wrapInt ((s.tenantOrNew tenantID).FailureCount + 1) })) } t = some p := by
    intro t ht p hp
    unfold HeapState.tenantPointer at hp ⊢
    cases hm : s.Tenants with
    | none => simp [hm] at hp
    | some m =>
      rw [hm] at hp
      simp only at hp
      simp [Map.get_set_of_ne _ _ _ _ ht, hp]
  refine ⟨?_, ?_, ?_⟩
  · intro n r hr
    exact ⟨r, hr, hrefl _, hrefl _⟩
  · intro t r hr
    by_cases h : t = tenantID
    · subst h
      have h0 : s.tenantOrNew t = r := by simp [HeapState.tenantOrNew, hr]
      rw [h0] at hmaxt ⊢
      simp only [HeapState.tenantPointer, Map.get_set_self, Option.some.injEq,
        exists_eq_left']
      refine ⟨?_, ?_⟩
      · cases success
        · simp [hrefl]
        · simp only [HeapTenantState.counter, if_true] at hmaxt
          simp [hmaxt]
      · cases success
        · simp only [HeapTenantState.counter, Bool.false_eq_true, if_false] at hmaxt
          simp [hmaxt]
        · simp [hrefl]
    · exact ⟨r, hother t h _ hr, hrefl _, hrefl _⟩
  · intro t n r hr
    by_cases h : t = tenantID
    · subst h
      unfold HeapState.tenantServicePointer at hr
      rcases ht : s.tenantPointer t with _ | _ | t0
      · simp [ht] at hr
      · simp [ht] at hr
      · rw [ht] at hr
        simp only at hr
        cases hm : t0.Services with
        | none => simp [hm] at hr
        | some sm =>
          rw [hm] at hr
          simp only at hr
          have h0 : s.tenantOrNew t = t0 := by simp [HeapState.tenantOrNew, ht]
          by_cases hn : n = name
          · subst hn
            have h1 : s.tenantRecordOrZero t n = r := by
              simp [HeapState.tenantRecordOrZero, HeapState.tenantServicePointer, ht, hm, hr]
            rw [h1] at hmax ⊢
            refine ⟨r.recordedInt (clk.readings (clk.reads + 1)) duration success err, ?_,
              ServiceState.recordedInt_relate R hrefl r _ duration success err hmax⟩
            simp [HeapState.tenantServicePointer, HeapState.tenantPointer, Map.get_set_self]
          · refine ⟨r, ?_, hrefl _, hrefl _⟩
            simp [HeapState.tenantServicePointer, HeapState.tenantPointer, Map.get_set_self,
              h0, hm, Map.get_set_of_ne _ _ _ _ hn, hr]
    · refine ⟨r, ?_, hrefl _, hrefl _⟩
      unfold HeapState.tenantServicePointer at hr ⊢
      rcases ht : s.tenantPointer t with _ | _ | t0
      · simp [ht] at hr
      · simp [ht] at hr
      · rw [hother t h _ ht]
        rw [ht] at hr
        exact hr

/-- `RecordServiceExecution` returns exactly when the pointer under the name is
not nil. -/
theorem HeapState.RecordServiceExecution_isSome_iff (s : HeapState) (name : String)
    (success : Bool) (duration : Duration) (err : Option String) (clk : Clock) :
    (s.RecordServiceExecution name success duration err clk).isSome = true ↔
      s.servicePointer name ≠ some none := by
  constructor
  · intro h hp
    rw [HeapState.RecordServiceExecution_of_nil s name success duration err clk hp] at h
    cases h
  · intro hp
    rw [HeapState.RecordServiceExecution_eq s name success duration err clk hp]
    rfl

/-- `RecordTenantExecution` returns exactly when neither the pointer under the
tenant nor the pointer under the service name is nil. -/
theorem HeapState.RecordTenantExecution_isSome_iff (s : HeapState) (tenantID name : String)
    (success : Bool) (duration : Duration) (err : Option String) (clk : Clock) :
    (s.RecordTenantExecution tenantID name success duration err clk).isSome = true ↔
      (s.tenantPointer tenantID ≠ some none ∧
        s.tenantServicePointer tenantID name ≠ some none) := by
  constructor
  · intro h
    constructor
    · intro hp
      rw [HeapState.RecordTenantExecution_of_nil s tenantID name success duration err clk
        (Or.inl hp)] at h
      cases h
    · intro hp
      rw [HeapState.RecordTenantExecution_of_nil s tenantID name success duration err clk
        (Or.inr hp)] at h
      cases h
  · intro hp
    rw [HeapState.RecordTenantExecution_eq s tenantID name success duration err clk hp.1 hp.2]
    rfl

theorem State.servicePointer_toHeap (s : State) (name : String) :
    s.toHeap.servicePointer name = (s.serviceRecord name).map some := by
  unfold HeapState.servicePointer State.serviceRecord State.toHeap
  cases hs : s.Services with
  | none => rfl
  | some m => simp [Map.get_map_value]

theorem State.recordOrZero_toHeap (s : State) (name : String) :
    s.toHeap.recordOrZero name = s.recordOrZero name := by
  unfold HeapState.recordOrZero State.recordOrZero
  rw [State.servicePointer_toHeap]
  cases s.serviceRecord name <;> rfl

/-- On a state whose records sit behind non-nil pointers, where the counter to
raise is an `int` below the largest, `RecordServiceExecution` with its pointers
and machine integers does what `State.RecordServiceExecution` does. -/
theorem State.toHeap_RecordServiceExecution (s : State) (name : String) (success : Bool)
    (duration : Duration) (err : Option String) (clk : Clock)
    (hmin : minInt ≤ (s.recordOrZero name).counter success)
    (hmax : (s.recordOrZero name).counter success < maxInt) :
    s.toHeap.RecordServiceExecution name success duration err clk =
      some ((s.RecordServiceExecution name success duration err clk).1.toHeap,
        (s.RecordServiceExecution name success duration err clk).2) := by
  have hptr : s.toHeap.servicePointer name ≠ some none := by
    rw [State.servicePointer_toHeap]
    cases s.serviceRecord name <;> simp
  rw [HeapState.RecordServiceExecution_eq _ _ _ _ _ _ hptr, State.recordOrZero_toHeap]
  have hw : wrapInt ((s.recordOrZero name).counter success + 1) =
      (s.recordOrZero name).counter success + 1 := wrapInt_of_room _ hmin hmax
  unfold State.RecordServiceExecution State.GetServiceState State.toHeap
    ServiceState.recordedInt
  unfold State.recordOrZero State.serviceRecord ServiceState.counter at *
  cases hs : s.Services with
  | none =>
    cases success <;> cases err <;>
      simp_all [Map.get, Map.set, Clock.Now]
  | some m =>
    cases hg : Map.get m name <;> cases success <;> cases err <;>
      simp_all [Map.get, Map.set, Clock.Now, Map.set_map_value, Map.set_set]

theorem State.tenantPointer_toHeap (s : State) (tenantID : String) :
    s.toHeap.tenantPointer tenantID =
      (s.tenantRecord tenantID).map (fun t => some t.toHeap) := by
  unfold HeapState.tenantPointer State.tenantRecord State.toHeap
  cases hs : s.Tenants with
  | none => rfl
  | some m => exact Map.get_map_value (fun t => some (TenantState.toHeap t)) m tenantID

theorem State.tenantServicePointer_toHeap (s : State) (tenantID name : String) :
    s.toHeap.tenantServicePointer tenantID name =
      (s.tenantServiceRecord tenantID name).map some := by
  unfold HeapState.tenantServicePointer State.tenantServiceRecord
  rw [State.tenantPointer_toHeap]
  cases ht : s.tenantRecord tenantID with
  | none => rfl
  | some t =>
    cases hm : t.Services with
    | none => simp [TenantState.toHeap, hm]
    | some sm => simp [TenantState.toHeap, hm, Map.get_map_value]

theorem State.tenantOrNew_toHeap (s : State) (tenantID : String) :
    s.toHeap.tenantOrNew tenantID = (s.tenantOrNew tenantID).toHeap := by
  unfold HeapState.tenantOrNew State.tenantOrNew
  rw [State.tenantPointer_toHeap]
  cases s.tenantRecord tenantID <;> rfl

theorem State.tenantRecordOrZero_toHeap (s : State) (tenantID name : String) :
    s.toHeap.tenantRecordOrZero tenantID name = s.tenantRecordOrZero tenantID name := by
  unfold HeapState.tenantRecordOrZero State.tenantRecordOrZero
  rw [State.tenantServicePointer_toHeap]
  cases s.tenantServiceRecord tenantID name <;> rfl

/-- On a state whose records sit behind non-nil pointers, where the counters
to raise are `int`s below the largest, `RecordTenantExecution` with its
pointers and machine integers does what `State.RecordTenantExecution` does. -/
theorem State.toHeap_RecordTenantExecution (s : State) (tenantID name : String)
    (success : Bool) (duration : Duration) (err : Option String) (clk : Clock)
    (hmint : minInt ≤ (s.tenantOrNew tenantID).toHeap.counter success)
    (hmaxt : (s.tenantOrNew tenantID).toHeap.counter success < maxInt)
    (hmin : minInt ≤ (s.tenantRecordOrZero tenantID name).counter success)
    (hmax : (s.tenantRecordOrZero tenantID name).counter success < maxInt) :
    s.toHeap.RecordTenantExecution tenantID name success duration err clk =
      some ((s.RecordTenantExecution tenantID name success duration err clk).1.toHeap,
        (s.RecordTenantExecution tenantID name success duration err clk).2) := by
  have htp : s.toHeap.tenantPointer tenantID ≠ some none := by
    rw [State.tenantPointer_toHeap]
    cases s.tenantRecord tenantID <;> simp
  have hsp : s.toHeap.tenantServicePointer tenantID name ≠ some none := by
    rw [State.tenantServicePointer_toHeap]
    cases s.tenantServiceRecord tenantID name <;> simp
  rw [HeapState.RecordTenantExecution_eq _ _ _ _ _ _ _ htp hsp, State.tenantOrNew_toHeap,
    State.tenantRecordOrZero_toHeap]
  have hw : wrapInt ((s.tenantRecordOrZero tenantID name).counter success + 1) =
      (s.tenantRecordOrZero tenantID name).counter success + 1 := wrapInt_of_room _ hmin hmax
  have hwt : wrapInt ((s.tenantOrNew tenantID).toHeap.counter success + 1) =
      (s.tenantOrNew tenantID).toHeap.counter success + 1 := wrapInt_of_room _ hmint hmaxt
  have hset := fun (m : Map TenantState) (v : TenantState) =>
    (Map.set_map_value (fun t => some (TenantState.toHeap t)) m tenantID v).symm
  unfold State.RecordTenantExecution State.GetTenantState State.toHeap
    ServiceState.recordedInt
  unfold State.tenantRecordOrZero State.tenantServiceRecord State.tenantOrNew
    State.tenantRecord ServiceState.counter HeapTenantState.counter at *
  cases hs : s.Tenants with
  | none =>
    cases success <;> cases err <;>
      simp_all [Map.get, Map.set, Clock.Now, TenantState.toHeap]
  | some m =>
    cases hg : Map.get m tenantID with
    | none =>
      cases success <;> cases err <;>
        simp_all [Map.get, Map.set, Clock.Now, Map.set_set] <;>
        simp [TenantState.toHeap]
    | some t =>
      cases ht : t.Services with
      | none =>
        cases success <;> cases err <;>
          simp_all [Map.get, Map.set, Clock.Now, Map.set_set] <;>
          simp [TenantState.toHeap, ht, Map.set]
      | some sm =>
        cases hr : Map.get sm name <;> cases success <;> cases err <;>
          simp_all [Map.get, Map.set, Clock.Now, Map.set_set] <;>
          simp [TenantState.toHeap, Map.set_map_value, ht]

/-- C6 (counterexample): a state file holds the record of `svc1` with
`success_count` at the largest `int`; `Load` reads it as it is. One more
successful execution recorded for `svc1` leaves `SuccessCount` at the smallest
`int`, not one higher. And where the map holds a nil pointer under the name, as
`json.Unmarshal` leaves for a `null`, the call does not return: the first
assignment through the pointer panics. -/
theorem HeapState.RecordServiceExecution_wraps_at_maxInt :
    ((NewManager "/work").Load [("/work/.migra/state.json", FileData.doc fullCounterFile)]
        {}).1 = none ∧
    ((NewManager "/work").Load [("/work/.migra/state.json", FileData.doc fullCounterFile)]
        {}).2.state.toHeap = fullCounterState ∧
    (fullCounterState.servicePointer "svc1").join.map
        (fun r => (r.SuccessCount, r.FailureCount)) =
      some (9223372036854775807, 9223372036854775807) ∧
    (fullCounterState.RecordServiceExecution "svc1" true ⟨1000000000⟩ none exampleClock).map
        (fun x => (x.1.servicePointer "svc1").join.map
          (fun r => (r.LastResult, r.SuccessCount, r.FailureCount))) =
      some (some ("success", -9223372036854775808, 9223372036854775807)) ∧
    nilRecordState.servicePointer "svc1" = some none ∧
    (nilRecordState.RecordServiceExecution "svc1" true ⟨1000000000⟩ none exampleClock).isSome =
      false := by
  decide

/-- C6 (amended): in every state in which the pointer stored under the service
name is not nil and the counter to raise is an `int` other than the largest,
`RecordServiceExecution` returns and leaves the named service's record with
`LastResult = "success"`, `SuccessCount` one higher, `FailureCount` unchanged
and `LastError` emptied when the flag is true; with `LastResult = "failure"`,
`FailureCount` one higher, `SuccessCount` unchanged and `LastError` the given
error's text (the old text when no error is given) when it is false. A record
absent before the call counts as all zeros, so a first successful record has
`SuccessCount = 1` and `FailureCount = 0`. -/
theorem HeapState.RecordServiceExecution_updates_record_below_maxInt (s : HeapState)
    (name : String) (success : Bool) (duration : Duration) (err : Option String) (clk : Clock)
    (hptr : s.servicePointer name ≠ some none)
    (hint : fitsInt ((s.recordOrZero name).counter success))
    (hmax : (s.recordOrZero name).counter success ≠ maxInt) :
    ∃ (s' : HeapState) (clk' : Clock) (r : ServiceState),
      s.RecordServiceExecution name success duration err clk = some (s', clk') ∧
      s'.servicePointer name = some (some r) ∧
      r.LastResult = (if success then "success" else "failure") ∧
      r.SuccessCount = (s.recordOrZero name).SuccessCount + (if success then 1 else 0) ∧
      r.FailureCount = (s.recordOrZero name).FailureCount + (if success then 0 else 1) ∧
      r.LastError = (if success then "" else err.getD (s.recordOrZero name).LastError) ∧
      (s.servicePointer name = none → s.recordOrZero name = {}) ∧
      (s.servicePointer name = none → success = true →
        r.SuccessCount = 1 ∧ r.FailureCount = 0) := by
  have hroom : wrapInt ((s.recordOrZero name).counter success + 1) =
      (s.recordOrZero name).counter success + 1 :=
    wrapInt_of_room _ hint.1 (lt_of_le_of_ne hint.2 hmax)
  refine ⟨_, _, (s.recordOrZero name).recordedInt (clk.readings clk.reads) duration success
    err, HeapState.RecordServiceExecution_eq s name success duration err clk hptr,
    by simp [HeapState.servicePointer, Map.get_set_self], ?_, ?_, ?_, ?_, ?_, ?_⟩
  · cases success <;> simp [ServiceState.recordedInt]
  · cases success
    · simp [ServiceState.recordedInt]
    · simp only [ServiceState.counter, if_true] at hroom
      simp [ServiceState.recordedInt, hroom]
  · cases success
    · simp only [ServiceState.counter, Bool.false_eq_true, if_false] at hroom
      simp [ServiceState.recordedInt, hroom]
    · simp [ServiceState.recordedInt]
  · cases success <;> simp [ServiceState.recordedInt]
  · intro h
    simp [HeapState.recordOrZero, h]
  · intro h hs
    subst hs
    have h0 : s.recordOrZero name = {} := by simp [HeapState.recordOrZero, h]
    have h1 : wrapInt 1 = 1 := by decide
    simp [ServiceState.recordedInt, h0, h1]

/-- Witness for C6 (amended): the first successful execution recorded for
`svc1` in a state without records; the record it leaves has `SuccessCount = 1`
and `FailureCount = 0`. -/
theorem HeapState.RecordServiceExecution_updates_record_below_maxInt_witness :
    ∃ (s' : HeapState) (clk' : Clock) (r : ServiceState),
      NewState.toHeap.RecordServiceExecution "svc1" true ⟨1000000000⟩ none exampleClock =
        some (s', clk') ∧
      s'.servicePointer "svc1" = some (some r) ∧ r.LastResult = "success" ∧
      r.SuccessCount = 1 ∧ r.FailureCount = 0 := by
  obtain ⟨s', clk', r, h1, h2, h3, -, -, -, -, h8⟩ :=
    HeapState.RecordServiceExecution_updates_record_below_maxInt NewState.toHeap "svc1" true
      ⟨1000000000⟩ none exampleClock (by decide) ⟨by decide, by decide⟩ (by decide)
  exact ⟨s', clk', r, h1, h2, by simpa using h3, (h8 (by decide) rfl).1, (h8 (by decide) rfl).2⟩

/-- C8 (counterexample): in the state read from a file whose counters are at
the largest `int`, a failed execution recorded by `RecordTenantExecution`
takes the `FailureCount` of the tenant record and of its service record from
the largest `int` to the smallest, and one recorded by `RecordServiceExecution`
does the same to the `FailureCount` of the service record: the counters
decrease. -/
theorem HeapState.record_operations_lower_counter_at_maxInt :
    (fullCounterState.tenantPointer "t1").join.map HeapTenantState.FailureCount =
      some 9223372036854775807 ∧
    (fullCounterState.tenantServicePointer "t1" "svc1").join.map ServiceState.FailureCount =
      some 9223372036854775807 ∧
    (fullCounterState.RecordTenantExecution "t1" "svc1" false ⟨1000000000⟩ none
        exampleClock).map
      (fun x => ((x.1.tenantPointer "t1").join.map HeapTenantState.FailureCount,
        (x.1.tenantServicePointer "t1" "svc1").join.map ServiceState.FailureCount)) =
      some (some (-9223372036854775808), some (-9223372036854775808)) ∧
    (fullCounterState.servicePointer "svc1").join.map ServiceState.FailureCount =
      some 9223372036854775807 ∧
    (fullCounterState.RecordServiceExecution "svc1" false ⟨1000000000⟩ none
        exampleClock).map
      (fun x => (x.1.servicePointer "svc1").join.map ServiceState.FailureCount) =
      some (some (-9223372036854775808)) := by
  decide

/-- C8 (amended): `RecordServiceExecution` returns exactly when the pointer
under the service name is not nil, and `RecordTenantExecution` exactly when
neither the pointer under the tenant nor the pointer under the service name
is. Whenever one of them returns, every service record, tenant record and
per-tenant service record that existed before the call still exists
afterwards; and when the counters the call raises were below the largest
`int`, every record has `SuccessCount` and `FailureCount` at least as large as
before. -/
theorem HeapState.record_operations_keep_records_and_counts_below_maxInt (s : HeapState)
    (tenantID name : String) (success : Bool) (duration : Duration) (err : Option String)
    (clk : Clock) :
    ((s.RecordServiceExecution name success duration err clk).isSome = true ↔
      s.servicePointer name ≠ some none) ∧
    ((s.RecordTenantExecution tenantID name success duration err clk).isSome = true ↔
      (s.tenantPointer tenantID ≠ some none ∧
        s.tenantServicePointer tenantID name ≠ some none)) ∧
    (∀ (s' : HeapState) (clk' : Clock),
      s.RecordServiceExecution name success duration err clk = some (s', clk') →
      s.RecordsKept s' ∧
      ((s.recordOrZero name).counter success < maxInt → s.CountsGrow s')) ∧
    (∀ (s' : HeapState) (clk' : Clock),
      s.RecordTenantExecution tenantID name success duration err clk = some (s', clk') →
      s.RecordsKept s' ∧
      ((s.tenantOrNew tenantID).counter success < maxInt →
        (s.tenantRecordOrZero tenantID name).counter success < maxInt → s.CountsGrow s')) :=
  ⟨HeapState.RecordServiceExecution_isSome_iff s name success duration err clk,
   HeapState.RecordTenantExecution_isSome_iff s tenantID name success duration err clk,
   fun s' clk' h =>
    ⟨HeapState.relate_RecordServiceExecution (fun _ _ => True) (fun _ => trivial) s s' name
        success duration err clk clk' h trivial,
      fun hmax =>
        HeapState.relate_RecordServiceExecution (fun c c' => c ≤ c') (fun _ => le_refl _) s s'
          name success duration err clk clk' h (le_wrapInt_succ _ hmax)⟩,
   fun s' clk' h =>
    ⟨HeapState.relate_RecordTenantExecution (fun _ _ => True) (fun _ => trivial) s s'
        tenantID name success duration err clk clk' h trivial trivial,
      fun hmaxt hmax =>
        HeapState.relate_RecordTenantExecution (fun c c' => c ≤ c') (fun _ => le_refl _) s s'
          tenantID name success duration err clk clk' h (le_wrapInt_succ _ hmaxt)
          (le_wrapInt_succ _ hmax)⟩⟩

/-- Witness for C8 (amended): in the state read from `fullCounterFile`, a
successful execution of `svc1` for the tenant `t1`, whose success counters are
zero, and a successful execution of the service `svc2`, which has no record:
both calls return, keep every record and lower no counter. -/
theorem HeapState.record_operations_keep_records_and_counts_below_maxInt_witness :
    (∃ (s' : HeapState) (clk' : Clock),
      fullCounterState.RecordServiceExecution "svc2" true ⟨1000000000⟩ none exampleClock =
        some (s', clk') ∧
      fullCounterState.RecordsKept s' ∧ fullCounterState.CountsGrow s') ∧
    (∃ (s' : HeapState) (clk' : Clock),
      fullCounterState.RecordTenantExecution "t1" "svc1" true ⟨1000000000⟩ none exampleClock =
        some (s', clk') ∧
      fullCounterState.RecordsKept s' ∧ fullCounterState.CountsGrow s') := by
  have h1 : (fullCounterState.RecordServiceExecution "svc2" true ⟨1000000000⟩ none
      exampleClock).isSome = true := by decide
  have h2 : (fullCounterState.RecordTenantExecution "t1" "svc1" true ⟨1000000000⟩ none
      exampleClock).isSome = true := by decide
  obtain ⟨⟨s₁, clk₁⟩, e₁⟩ := Option.isSome_iff_exists.mp h1
  obtain ⟨⟨s₂, clk₂⟩, e₂⟩ := Option.isSome_iff_exists.mp h2
  have hthm := HeapState.record_operations_keep_records_and_counts_below_maxInt
    fullCounterState "t1" "svc1" true ⟨1000000000⟩ none exampleClock
  have hthm' := HeapState.record_operations_keep_records_and_counts_below_maxInt
    fullCounterState "t1" "svc2" true ⟨1000000000⟩ none exampleClock
  exact ⟨⟨s₁, clk₁, e₁, (hthm'.2.2.1 s₁ clk₁ e₁).1, (hthm'.2.2.1 s₁ clk₁ e₁).2 (by decide)⟩,
    ⟨s₂, clk₂, e₂, (hthm.2.2.2 s₂ clk₂ e₂).1,
      (hthm.2.2.2 s₂ clk₂ e₂).2 (by decide) (by decide)⟩⟩

/-! ## Persistence -/

theorem tempFile_ne (p : String) : p ++ ".tmp" ≠ p := by
  intro h
  have := congrArg String.length h
  simp only [String.length_append] at this
  have h4 : ".tmp".length = 4 := by decide
  omega

theorem FS.get_erase_of_ne (fs : FS) (k k' : String) (h : k' ≠ k) :
    Map.get (FS.erase fs k) k' = Map.get fs k' := by
  induction fs with
  | nil => simp [FS.erase, Map.get]
  | cons hd tl ih =>
    obtain ⟨k₀, v₀⟩ := hd
    by_cases h₀ : k₀ = k
    · subst h₀
      have : (k₀ != k₀) = false := by simp
      simp only [FS.erase, List.filter, this] at ih ⊢
      simp [Map.get, Ne.symm h, ih]
    · have : (k₀ != k) = true := by simp [h₀]
      simp only [FS.erase, List.filter, this] at ih ⊢
      by_cases h₁ : k₀ = k'
      · simp [Map.get, h₁]
      · simp [Map.get, h₁, ih]

theorem Manager.Save_writes (m : Manager) (fs : FS) (flt : Faults)
    (h : (m.Save fs flt).1 = none) :
    Map.get (m.Save fs flt).2 m.stateFile = some (FileData.doc m.state.marshal) := by
  unfold Manager.Save at h ⊢
  by_cases hm : flt.mkdir = true
  · simp [hm] at h
  · cases hw : flt.write with
    | cannotOpen => simp [hm, hw] at h
    | partialWrite => simp [hm, hw] at h
    | noFault =>
      by_cases hr : flt.rename = true
      · simp [hm, hw, hr] at h
      · simp only [hm, hw, hr, Bool.false_eq_true, if_false]
        rw [FS.get_erase_of_ne _ _ _ (Ne.symm (tempFile_ne m.stateFile)), Map.get_set_self]

theorem ServiceState.unmarshal_marshal_record (r : ServiceState) : r.marshal.unmarshal = r := by
  unfold ServiceState.marshal ServiceStateJSON.unmarshal
  by_cases h : r.LastError = ""
  · cases r
    simp_all [fieldOr]
  · simp [fieldOr, h]

theorem serviceMap_unmarshal_marshal (m : Map ServiceState) :
    List.map (fun kv => (kv.1, ServiceStateJSON.unmarshal kv.2))
      (List.map (fun kv => (kv.1, ServiceState.marshal kv.2)) m) = m := by
  induction m with
  | nil => rfl
  | cons hd tl ih =>
    simp only [List.map_cons, ServiceState.unmarshal_marshal_record, ih]

theorem TenantState.unmarshal_marshal_tenant (t : TenantState) : t.marshal.unmarshal = t := by
  unfold TenantState.marshal TenantStateJSON.unmarshal
  cases t with
  | mk lr sv sc fc =>
    cases sv with
    | none => simp [fieldOr]
    | some m => simpa [fieldOr] using serviceMap_unmarshal_marshal m

theorem tenantMap_unmarshal_marshal (m : Map TenantState) :
    List.map (fun kv => (kv.1, TenantStateJSON.unmarshal kv.2))
      (List.map (fun kv => (kv.1, TenantState.marshal kv.2)) m) = m := by
  induction m with
  | nil => rfl
  | cons hd tl ih =>
    simp only [List.map_cons, TenantState.unmarshal_marshal_tenant, ih]

/-- What a state turns into when written by `Save` and read back: itself,
except that an empty tenant map comes back nil. -/
theorem State.unmarshal_marshal_state (s : State) :
    s.marshal.unmarshal =
      { s with Tenants := match s.Tenants with
                          | some [] => none
                          | t => t } := by
  unfold State.marshal StateJSON.unmarshal
  cases s with
  | mk le sv tn ve =>
    cases sv with
    | none =>
      cases tn with
      | none => simp [fieldOr]
      | some m =>
        cases m with
        | nil => simp [fieldOr]
        | cons hd tl => simpa [fieldOr] using tenantMap_unmarshal_marshal (hd :: tl)
    | some sm =>
      cases tn with
      | none => simpa [fieldOr] using serviceMap_unmarshal_marshal sm
      | some m =>
        cases m with
        | nil => simpa [fieldOr] using serviceMap_unmarshal_marshal sm
        | cons hd tl =>
          have h1 := serviceMap_unmarshal_marshal sm
          have h2 := tenantMap_unmarshal_marshal (hd :: tl)
          simp [fieldOr] at h1 h2 ⊢
          exact ⟨h1, h2⟩

theorem Manager.stateFile_call (m : Manager) (c : RecordCall) (fs : FS) (flt : Faults)
    (clk : Clock) : (m.call c fs flt clk).2.1.stateFile = m.stateFile := by
  cases c <;> rfl

theorem Manager.call_writes (m : Manager) (c : RecordCall) (fs : FS) (flt : Faults)
    (clk : Clock) (h : (m.call c fs flt clk).1 = none) :
    Map.get (m.call c fs flt clk).2.2.1 m.stateFile =
      some (FileData.doc (m.call c fs flt clk).2.1.state.marshal) := by
  cases c with
  | service n ok d e =>
    exact Manager.Save_writes
      { m with state := (m.state.RecordServiceExecution n ok d e clk).1 } fs flt h
  | tenant t n ok d e =>
    exact Manager.Save_writes
      { m with state := (m.state.RecordTenantExecution t n ok d e clk).1 } fs flt h

theorem Manager.stateFile_callAll (calls : List (RecordCall × Faults)) :
    ∀ (m : Manager) (fs : FS) (clk : Clock),
      (m.callAll calls fs clk).2.1.stateFile = m.stateFile := by
  induction calls with
  | nil => intro m fs clk; rfl
  | cons hd tl ih =>
    intro m fs clk
    obtain ⟨c, flt⟩ := hd
    simp only [Manager.callAll]
    rw [ih]
    exact Manager.stateFile_call m c fs flt clk

/-- After a non-empty sequence of record calls that all return no error, the
state file holds the manager's state as `Save` writes it. -/
theorem Manager.callAll_writes (calls : List (RecordCall × Faults)) :
    ∀ (m : Manager) (fs : FS) (clk : Clock), calls ≠ [] →
      (∀ e ∈ (m.callAll calls fs clk).1, e = none) →
      Map.get (m.callAll calls fs clk).2.2.1 m.stateFile =
        some (FileData.doc (m.callAll calls fs clk).2.1.state.marshal) := by
  induction calls with
  | nil => intro m fs clk h; exact absurd rfl h
  | cons hd tl ih =>
    intro m fs clk _ hall
    obtain ⟨c, flt⟩ := hd
    simp only [Manager.callAll] at hall ⊢
    have hc : (m.call c fs flt clk).1 = none := hall _ (List.mem_cons_self _ _)
    cases tl with
    | nil => simpa [Manager.callAll] using Manager.call_writes m c fs flt clk hc
    | cons hd2 tl2 =>
      have := ih (m.call c fs flt clk).2.1 (m.call c fs flt clk).2.2.1
        (m.call c fs flt clk).2.2.2 (by simp)
        (fun e he => hall e (List.mem_cons_of_mem _ he))
      rw [Manager.stateFile_call] at this
      exact this

theorem Manager.Load_doc (m : Manager) (fs : FS) (flt : Faults) (d : StateJSON)
    (hfile : Map.get fs m.stateFile = some (FileData.doc d))
    (hmk : flt.mkdir = false) (hrd : flt.read = false) :
    m.Load fs flt = (none, { m with state := d.unmarshal }) := by
  simp [Manager.Load, hfile, hmk, hrd]

/-- C9 (as stated, refuted): the state file that `Save` writes for a new
state loads without error, and the loaded `Tenants` map is nil. -/
theorem Manager.Load_of_saved_new_state_has_nil_Tenants :
    ((NewManager "/work").Save [] {}).1 = none ∧
      ((NewManager "/work").Load ((NewManager "/work").Save [] {}).2 {}).1 = none ∧
      ((NewManager "/work").Load ((NewManager "/work").Save [] {}).2 {}).2.state.Tenants =
        none := by
  decide

/-- C9 (amended): after a `Load` that returns no error, either there was no
state file and `Services` and `Tenants` are both non-nil and empty, or there
was one and `Services` (`Tenants`) is nil exactly when the file has no
non-null `services` (`tenants`) member. The file `Save` writes has no
`services` member value exactly when the saved `Services` map was nil, and no
`tenants` member exactly when the saved `Tenants` map was nil or empty. -/
theorem Manager.Load_maps_follow_file (m : Manager) (fs : FS) (flt : Faults)
    (h : (m.Load fs flt).1 = none) :
    ((Map.get fs m.stateFile = none ∧
        (m.Load fs flt).2.state.Services = some [] ∧
        (m.Load fs flt).2.state.Tenants = some []) ∨
      (∃ d, Map.get fs m.stateFile = some (FileData.doc d) ∧
        ((m.Load fs flt).2.state.Services = none ↔ d.services = none) ∧
        ((m.Load fs flt).2.state.Tenants = none ↔ d.tenants = none))) ∧
    (∀ s : State, (s.marshal.services = none ↔ s.Services = none) ∧
        (s.marshal.tenants = none ↔ (s.Tenants = none ∨ s.Tenants = some []))) := by
  constructor
  · unfold Manager.Load at h ⊢
    by_cases hm : flt.mkdir = true
    · simp [hm] at h
    · cases hf : Map.get fs m.stateFile with
      | none => simp [hm, NewState]
      | some data =>
        by_cases hr : flt.read = true
        · simp [hm, hf, hr] at h
        · cases data with
          | corrupt => simp [hm, hf, hr] at h
          | doc d => simp [hm, hr, StateJSON.unmarshal]
  · intro s
    constructor
    · simp [State.marshal]
    · unfold State.marshal
      cases hT : s.Tenants with
      | none => simp
      | some tm => cases tm <;> simp

/-- Witness for C9 (amended): the file saved from a new state. -/
theorem Manager.Load_maps_follow_file_witness :
    (((NewManager "/work").Load ((NewManager "/work").Save [] {}).2 {}).1 = none) ∧
    (((Map.get ((NewManager "/work").Save [] {}).2 (NewManager "/work").stateFile = none ∧
        ((NewManager "/work").Load ((NewManager "/work").Save [] {}).2 {}).2.state.Services =
          some [] ∧
        ((NewManager "/work").Load ((NewManager "/work").Save [] {}).2 {}).2.state.Tenants =
          some []) ∨
      (∃ d, Map.get ((NewManager "/work").Save [] {}).2 (NewManager "/work").stateFile =
          some (FileData.doc d) ∧
        (((NewManager "/work").Load ((NewManager "/work").Save [] {}).2 {}).2.state.Services =
          none ↔ d.services = none) ∧
        (((NewManager "/work").Load ((NewManager "/work").Save [] {}).2 {}).2.state.Tenants =
          none ↔ d.tenants = none))) ∧
    (∀ s : State, (s.marshal.services = none ↔ s.Services = none) ∧
        (s.marshal.tenants = none ↔ (s.Tenants = none ∨ s.Tenants = some [])))) :=
  ⟨by decide,
    Manager.Load_maps_follow_file (NewManager "/work") ((NewManager "/work").Save [] {}).2 {}
      (by decide)⟩

/-- After a non-empty sequence of record calls on a manager of a working
directory that all return no error, a `Load` by a fresh manager of the same
working directory that meets no fault returns no error and yields the first
manager's service records and tenant records. -/
theorem Manager.Load_after_nonempty_records (workDir : String) (m : Manager)
    (calls : List (RecordCall × Faults)) (fs : FS) (clk : Clock) (flt : Faults)
    (hdir : m.stateFile = (NewManager workDir).stateFile)
    (hne : calls ≠ [])
    (hok : ∀ e ∈ (m.callAll calls fs clk).1, e = none)
    (hmk : flt.mkdir = false) (hrd : flt.read = false) :
    ((NewManager workDir).Load (m.callAll calls fs clk).2.2.1 flt).1 = none ∧
      ((NewManager workDir).Load (m.callAll calls fs clk).2.2.1 flt).2.state.Services =
        (m.callAll calls fs clk).2.1.state.Services ∧
      (∀ t,
        ((NewManager workDir).Load (m.callAll calls fs clk).2.2.1 flt).2.state.tenantRecord t =
          (m.callAll calls fs clk).2.1.state.tenantRecord t) := by
  have hw := Manager.callAll_writes calls m fs clk hne hok
  rw [hdir] at hw
  have hL := Manager.Load_doc (NewManager workDir) _ flt _ hw hmk hrd
  rw [hL]
  have hT : ∀ t, (State.marshal (m.callAll calls fs clk).2.1.state).unmarshal.tenantRecord t =
      (m.callAll calls fs clk).2.1.state.tenantRecord t := by
    intro t
    rw [State.unmarshal_marshal_state]
    cases hTn : (m.callAll calls fs clk).2.1.state.Tenants with
    | none => simp [State.tenantRecord, hTn]
    | some tm => cases tm <;> simp [State.tenantRecord, hTn, Map.get]
  exact ⟨rfl, by simp [State.unmarshal_marshal_state], hT⟩

/-- A second `Load` of the same files that meets no fault returns what a first
successful `Load` returned. -/
theorem Manager.Load_again (m : Manager) (fs : FS) (flt₀ flt : Faults)
    (hload : (m.Load fs flt₀).1 = none) (hmk : flt.mkdir = false) (hrd : flt.read = false) :
    m.Load fs flt = (none, (m.Load fs flt₀).2) := by
  unfold Manager.Load at hload ⊢
  by_cases hm : flt₀.mkdir = true
  · simp [hm] at hload
  · cases hf : Map.get fs m.stateFile with
    | none => simp [hm, hmk]
    | some data =>
      by_cases hr : flt₀.read = true
      · simp [hm, hf, hr] at hload
      · cases data with
        | corrupt => simp [hm, hf, hr] at hload
        | doc d => simp [hm, hr, hmk, hrd]

theorem Manager.stateFile_Load (m : Manager) (fs : FS) (flt : Faults) :
    (m.Load fs flt).2.stateFile = m.stateFile := by
  unfold Manager.Load
  split
  · rfl
  · split
    · rfl
    · split
      · rfl
      · split <;> rfl

/-- C10: round trip of persistence. For a manager opened on a working
directory (`NewManager` then a `Load` that returns no error) and every sequence
of `RecordServiceExecution` / `RecordTenantExecution` calls on it that all
return no error, a `Load` by a fresh manager of the same working directory
(meeting no file-system fault) returns no error and yields the first manager's
service records and tenant records: the same `Services` map, and under every
tenant id the same tenant record, hence the same `LastResult`, `LastError`,
`SuccessCount`, `FailureCount` and `LastDuration` for every name. -/
theorem Manager.Load_after_records_round_trip (workDir : String) (fs : FS) (flt₀ : Faults)
    (calls : List (RecordCall × Faults)) (clk : Clock) (flt : Faults)
    (hopen : (Manager.opened workDir fs flt₀).1 = none)
    (hok : ∀ e ∈ ((Manager.opened workDir fs flt₀).2.callAll calls fs clk).1, e = none)
    (hmk : flt.mkdir = false) (hrd : flt.read = false) :
    ((NewManager workDir).Load
        ((Manager.opened workDir fs flt₀).2.callAll calls fs clk).2.2.1 flt).1 = none ∧
    (∀ name,
      ((NewManager workDir).Load
          ((Manager.opened workDir fs flt₀).2.callAll calls fs clk).2.2.1
            flt).2.state.serviceRecord name =
        ((Manager.opened workDir fs flt₀).2.callAll calls fs clk).2.1.state.serviceRecord
          name) ∧
    (∀ t,
      ((NewManager workDir).Load
          ((Manager.opened workDir fs flt₀).2.callAll calls fs clk).2.2.1
            flt).2.state.tenantRecord t =
        ((Manager.opened workDir fs flt₀).2.callAll calls fs clk).2.1.state.tenantRecord t) ∧
    (∀ t name,
      ((NewManager workDir).Load
          ((Manager.opened workDir fs flt₀).2.callAll calls fs clk).2.2.1
            flt).2.state.tenantServiceRecord t name =
        ((Manager.opened workDir fs flt₀).2.callAll calls fs clk).2.1.state.tenantServiceRecord
          t name) := by
  cases hc : calls with
  | nil =>
    have hL := Manager.Load_again (NewManager workDir) fs flt₀ flt hopen hmk hrd
    simp only [Manager.callAll, Manager.opened]
    rw [hL]
    exact ⟨rfl, fun _ => rfl, fun _ => rfl, fun _ _ => rfl⟩
  | cons c rest =>
    subst hc
    obtain ⟨h1, h2, h3⟩ :=
      Manager.Load_after_nonempty_records workDir (Manager.opened workDir fs flt₀).2
        (c :: rest) fs clk flt (Manager.stateFile_Load _ fs flt₀) (by simp) hok hmk hrd
    refine ⟨h1, ?_, h3, ?_⟩
    · intro name
      simp only [State.serviceRecord, h2]
    · intro t name
      simp only [State.tenantServiceRecord]
      rw [h3 t]

/-- Witness for C10: the scenario of the specification. A manager opened on a
directory with no state file, one successful record of `svc1`, then a reload
by a new manager. -/
theorem Manager.Load_after_records_round_trip_witness :
    ((Manager.opened "/work" [] {}).1 = none ∧
      (∀ e ∈ ((Manager.opened "/work" [] {}).2.callAll exampleCalls [] exampleClock).1,
        e = none)) ∧
    ((NewManager "/work").Load
        ((Manager.opened "/work" [] {}).2.callAll exampleCalls [] exampleClock).2.2.1
          {}).1 = none ∧
    ((NewManager "/work").Load
        ((Manager.opened "/work" [] {}).2.callAll exampleCalls [] exampleClock).2.2.1
          {}).2.state.serviceRecord "svc1" =
      some { LastRun := 0, LastResult := "success", LastError := "", SuccessCount := 1,
             FailureCount := 0, LastDuration := "1s" } := by
  have h := Manager.Load_after_records_round_trip "/work" [] {} exampleCalls exampleClock {}
    (by decide) (by decide) rfl rfl
  refine ⟨⟨by decide, by decide⟩, h.1, ?_⟩
  rw [h.2.1 "svc1"]
  decide

/-! ## Engines: one service -/

theorem World.calls_RecordServiceExecution (w : World) (n : String) (ok : Bool) (d : Duration)
    (err : Option String) : (w.RecordServiceExecution n ok d err).calls = w.calls := rfl

theorem World.faults_RecordServiceExecution (w : World) (n : String) (ok : Bool) (d : Duration)
    (err : Option String) : (w.RecordServiceExecution n ok d err).faults = w.faults := rfl

/-- What `executeService` does for one service with dry-run off: one adapter
call at most, then exactly one `RecordServiceExecution` on the store. -/
theorem SequentialEngine.executeService_spec (e : SequentialEngine) (w : World)
    (svc : Service) (op : Operation) (hdry : e.dryRun = false)
    (hsafe : returnsUsable e.registry op svc = true) :
    ∃ (r : ServiceResult) (w₁ : World) (d : Duration) (err : Option String),
      e.executeService w svc op =
        some (r, w₁.RecordServiceExecution svc.Name r.Success d err) ∧
      w₁.mgr = w.mgr ∧ w₁.fs = w.fs ∧ w₁.saves = w.saves ∧ w₁.faults = w.faults ∧
      w₁.calls = w.calls ++ callsFor e.registry op svc ∧
      r.ServiceName = svc.Name ∧ r.Success = serviceSucceeds e.registry op svc ∧
      r.Duration = d := by
  cases hreg : e.registry.GetForService svc with
  | error msg =>
    simp only [SequentialEngine.executeService, callsFor, serviceSucceeds, hdry, hreg,
      Bool.false_eq_true, if_false]
    exact ⟨_, _, _, _, rfl, rfl, rfl, rfl, rfl, by simp [World.Since, World.Now], rfl, rfl, rfl⟩
  | ok adp =>
    simp only [returnsUsable, hreg] at hsafe
    by_cases h1 : op = OperationDeploy
    · simp only [h1, if_true] at hsafe
      rcases hd : adp.Deploy svc none with ⟨_ | res, _ | err⟩
      · simp [hd] at hsafe
      · simp only [SequentialEngine.executeService, executeOperation, operationOK, callsFor,
          serviceSucceeds, hdry, hreg, h1, hd, Bool.false_eq_true, if_false, if_true]
        exact ⟨_, _, _, _, rfl, rfl, rfl, rfl, rfl,
          by simp [World.Since, World.Now, World.logCall], rfl, rfl, rfl⟩
      · cases hs : res.Success
        · simp only [SequentialEngine.executeService, executeOperation, operationOK, callsFor,
            serviceSucceeds, hdry, hreg, h1, hd, hs, Bool.false_eq_true, if_false, if_true]
          exact ⟨_, _, _, _, rfl, rfl, rfl, rfl, rfl,
            by simp [World.Since, World.Now, World.logCall], rfl, rfl, rfl⟩
        · simp only [SequentialEngine.executeService, executeOperation, operationOK, callsFor,
            serviceSucceeds, hdry, hreg, h1, hd, hs, Bool.false_eq_true, if_false, if_true]
          exact ⟨_, _, _, _, rfl, rfl, rfl, rfl, rfl,
            by simp [World.Since, World.Now, World.logCall], rfl, rfl, rfl⟩
      · simp only [SequentialEngine.executeService, executeOperation, operationOK, callsFor,
          serviceSucceeds, hdry, hreg, h1, hd, Bool.false_eq_true, if_false, if_true]
        exact ⟨_, _, _, _, rfl, rfl, rfl, rfl, rfl,
          by simp [World.Since, World.Now, World.logCall], rfl, rfl, rfl⟩
    · by_cases h2 : op = OperationRollback
      · subst h2
        have h21 : ¬ OperationRollback = OperationDeploy := by decide
        have h2 : OperationRollback = OperationRollback := rfl
        simp only [h21, if_true, if_false] at hsafe
        rcases hd : adp.Rollback svc none 1 with ⟨_ | res, _ | err⟩
        · simp [hd] at hsafe
        · simp only [SequentialEngine.executeService, executeOperation, operationOK, callsFor,
            serviceSucceeds, hdry, hreg, h2, h21, hd, Bool.false_eq_true, if_false, if_true]
          exact ⟨_, _, _, _, rfl, rfl, rfl, rfl, rfl,
            by simp [World.Since, World.Now, World.logCall], rfl, rfl, rfl⟩
        · cases hs : res.Success
          · simp only [SequentialEngine.executeService, executeOperation, operationOK,
              callsFor, serviceSucceeds, hdry, hreg, h2, h21, hd, hs, Bool.false_eq_true,
              if_false, if_true]
            exact ⟨_, _, _, _, rfl, rfl, rfl, rfl, rfl,
              by simp [World.Since, World.Now, World.logCall], rfl, rfl, rfl⟩
          · simp only [SequentialEngine.executeService, executeOperation, operationOK,
              callsFor, serviceSucceeds, hdry, hreg, h2, h21, hd, hs, Bool.false_eq_true,
              if_false, if_true]
            exact ⟨_, _, _, _, rfl, rfl, rfl, rfl, rfl,
              by simp [World.Since, World.Now, World.logCall], rfl, rfl, rfl⟩
        · simp only [SequentialEngine.executeService, executeOperation, operationOK, callsFor,
            serviceSucceeds, hdry, hreg, h2, h21, hd, Bool.false_eq_true, if_false, if_true]
          exact ⟨_, _, _, _, rfl, rfl, rfl, rfl, rfl,
            by simp [World.Since, World.Now, World.logCall], rfl, rfl, rfl⟩
      · by_cases h3 : op = OperationStatus
        · subst h3
          have h31 : ¬ OperationStatus = OperationDeploy := by decide
          have h32 : ¬ OperationStatus = OperationRollback := by decide
          have h3 : OperationStatus = OperationStatus := rfl
          simp only [h31, h32, if_true, if_false] at hsafe
          rcases hd : adp.Status svc none with ⟨_ | sr, _ | err⟩
          · simp [hd, h31, h32] at hsafe
          · simp [hd, h31, h32] at hsafe
          · simp only [SequentialEngine.executeService, executeOperation, operationOK,
              callsFor, serviceSucceeds, hdry, hreg, h3, h31, h32, hd, Bool.false_eq_true,
              if_false, if_true, Option.isNone]
            exact ⟨_, _, _, _, rfl, rfl, rfl, rfl, rfl,
              by simp [World.Since, World.Now, World.logCall], rfl, rfl, rfl⟩
          · simp only [SequentialEngine.executeService, executeOperation, operationOK,
              callsFor, serviceSucceeds, hdry, hreg, h3, h31, h32, hd, Bool.false_eq_true,
              if_false, if_true, Option.isNone]
            exact ⟨_, _, _, _, rfl, rfl, rfl, rfl, rfl,
              by simp [World.Since, World.Now, World.logCall], rfl, rfl, rfl⟩
        · simp only [SequentialEngine.executeService, executeOperation, operationOK,
            callsFor, serviceSucceeds, hdry, hreg, h1, h2, h3, Bool.false_eq_true,
            if_false, if_true]
          exact ⟨_, _, _, _, rfl, rfl, rfl, rfl, rfl,
            by simp [World.Since, World.Now], rfl, rfl, rfl⟩

/-! ## Sequential engine: the loop -/

theorem SequentialEngine.executeService_dryRun (e : SequentialEngine) (w : World)
    (svc : Service) (op : Operation) (hdry : e.dryRun = true) :
    e.executeService w svc op =
      some ({ ServiceName := svc.Name, Success := true,
              Duration := ⟨w.clock.readings (w.clock.reads + 1) - w.clock.readings w.clock.reads⟩,
              Error := "", Output := "Dry run - no actual execution" },
            w.afterDryRun) := by
  simp [SequentialEngine.executeService, hdry, World.Since, World.Now, Clock.Now,
    World.afterDryRun]

/-- The loop over a prefix of services that all succeed: it appends their
results and goes on with the rest, whatever the stop-on-failure setting. -/
theorem SequentialEngine.loop_prefix (e : SequentialEngine) (op : Operation)
    (hdry : e.dryRun = false) (pre : List Service) :
    ∀ (results : List ServiceResult) (w : World),
      (∀ svc ∈ pre, returnsUsable e.registry op svc = true) →
      (∀ svc ∈ pre, serviceSucceeds e.registry op svc = true) →
      ∃ (rs : List ServiceResult) (w' : World),
        (∀ rest, SequentialEngine.loop e op (pre ++ rest) results w =
          SequentialEngine.loop e op rest (results ++ rs) w') ∧
        rs.map (fun r => (r.ServiceName, r.Success)) = pre.map (fun s => (s.Name, true)) ∧
        w'.calls = w.calls ++ callsForAll e.registry op pre := by
  induction pre with
  | nil =>
    intro results w _ _
    exact ⟨[], w, by simp, rfl, by simp [callsForAll]⟩
  | cons svc tl ih =>
    intro results w hsafe hok
    obtain ⟨r, w₁, d, err, hex, -, -, -, -, hcalls, hname, hsucc, -⟩ :=
      SequentialEngine.executeService_spec e w svc op hdry
        (hsafe svc (List.mem_cons_self _ _))
    have hr : r.Success = true := by rw [hsucc]; exact hok svc (List.mem_cons_self _ _)
    obtain ⟨rs, w', hloop, hmap, hcalls'⟩ :=
      ih (results ++ [r]) (w₁.RecordServiceExecution svc.Name r.Success d err)
        (fun s hs => hsafe s (List.mem_cons_of_mem _ hs))
        (fun s hs => hok s (List.mem_cons_of_mem _ hs))
    refine ⟨r :: rs, w', ?_, ?_, ?_⟩
    · intro rest
      simp only [List.cons_append, SequentialEngine.loop, hex]
      simpa [hr] using hloop rest
    · simp [hmap, hname, hr]
    · rw [hcalls', World.calls_RecordServiceExecution, hcalls]
      simp [callsForAll]

theorem callsForAll_append (reg : Registry) (op : Operation) (xs ys : List Service) :
    callsForAll reg op (xs ++ ys) = callsForAll reg op xs ++ callsForAll reg op ys := by
  induction xs with
  | nil => simp [callsForAll]
  | cons x tl ih => simp [callsForAll, ih]

/-- With stop-on-failure on, the loop over services whose first failure is
`f` stops right after `f`: what comes behind has no part in the run. -/
theorem SequentialEngine.loop_stop (e : SequentialEngine) (op : Operation)
    (hdry : e.dryRun = false) (hstop : e.stopOnFailure = true)
    (pre : List Service) (f : Service) (post : List Service) (w : World)
    (hsafe : ∀ svc ∈ pre ++ [f], returnsUsable e.registry op svc = true)
    (hok : ∀ svc ∈ pre, serviceSucceeds e.registry op svc = true)
    (hfail : serviceSucceeds e.registry op f = false) :
    ∃ (rs : List ServiceResult) (w' : World),
      SequentialEngine.loop e op (pre ++ f :: post) [] w = some (rs, w') ∧
      SequentialEngine.loop e op (pre ++ [f]) [] w = some (rs, w') ∧
      rs.map (fun r => (r.ServiceName, r.Success)) =
        pre.map (fun s => (s.Name, true)) ++ [(f.Name, false)] ∧
      w'.calls = w.calls ++ callsForAll e.registry op (pre ++ [f]) := by
  obtain ⟨rs, w₀, hloop, hmap, hcalls⟩ :=
    SequentialEngine.loop_prefix e op hdry pre [] w
      (fun s hs => hsafe s (List.mem_append_left _ hs)) hok
  obtain ⟨r, w₁, d, err, hex, -, -, -, -, hcalls₁, hname, hsucc, -⟩ :=
    SequentialEngine.executeService_spec e w₀ f op hdry
      (hsafe f (List.mem_append_right _ (List.mem_singleton_self f)))
  have hr : r.Success = false := by rw [hsucc]; exact hfail
  refine ⟨rs ++ [r], w₁.RecordServiceExecution f.Name r.Success d err, ?_, ?_, ?_, ?_⟩
  · rw [hloop (f :: post)]
    simp [SequentialEngine.loop, hex, hr, hstop]
  · rw [hloop [f]]
    simp [SequentialEngine.loop, hex, hr, hstop]
  · simp [hmap, hname, hr]
  · rw [World.calls_RecordServiceExecution, hcalls₁, hcalls, callsForAll_append]
    simp [callsForAll]

/-- In dry-run mode the loop appends one placeholder result per service and
leaves the manager, the file system and the call log as they were. -/
theorem SequentialEngine.loop_dryRun (e : SequentialEngine) (op : Operation)
    (hdry : e.dryRun = true) (services : List Service) :
    ∀ (results : List ServiceResult) (w : World),
      ∃ (rs : List ServiceResult) (w' : World),
        SequentialEngine.loop e op services results w = some (results ++ rs, w') ∧
        rs.map (fun r => (r.ServiceName, r.Success, r.Error, r.Output)) =
          services.map (fun s => (s.Name, true, "", "Dry run - no actual execution")) ∧
        w'.mgr = w.mgr ∧ w'.fs = w.fs ∧ w'.saves = w.saves ∧ w'.calls = w.calls := by
  induction services with
  | nil =>
    intro results w
    exact ⟨[], w, by simp [SequentialEngine.loop], rfl, rfl, rfl, rfl, rfl⟩
  | cons svc rest ih =>
    intro results w
    obtain ⟨rs, w', hloop, hmap, h1, h2, h3, h4⟩ := ih (results ++
      [{ ServiceName := svc.Name, Success := true,
         Duration := ⟨w.clock.readings (w.clock.reads + 1) - w.clock.readings w.clock.reads⟩,
         Error := "", Output := "Dry run - no actual execution" }]) w.afterDryRun
    refine ⟨{ ServiceName := svc.Name, Success := true,
              Duration :=
                ⟨w.clock.readings (w.clock.reads + 1) - w.clock.readings w.clock.reads⟩,
              Error := "", Output := "Dry run - no actual execution" } :: rs,
      w', ?_, ?_, h1, h2, h3, h4⟩
    · simp only [SequentialEngine.loop, SequentialEngine.executeService_dryRun e w svc op hdry]
      simpa using hloop
    · simp [hmap]

/-- With dry-run off, `executeService` panics when the adapter hands back no
usable return. -/
theorem SequentialEngine.executeService_none (e : SequentialEngine) (w : World)
    (svc : Service) (op : Operation) (hdry : e.dryRun = false)
    (hbad : returnsUsable e.registry op svc = false) :
    e.executeService w svc op = none := by
  cases hreg : e.registry.GetForService svc with
  | error msg => simp [returnsUsable, hreg] at hbad
  | ok adp =>
    simp only [returnsUsable, hreg] at hbad
    by_cases h1 : op = OperationDeploy
    · subst h1
      simp only [if_true] at hbad
      rcases hd : adp.Deploy svc none with ⟨_ | res, _ | err⟩
      · simp [SequentialEngine.executeService, executeOperation, hdry, hreg, hd]
      · simp [hd] at hbad
      · simp [hd] at hbad
      · simp [hd] at hbad
    · by_cases h2 : op = OperationRollback
      · subst h2
        have h21 : ¬ OperationRollback = OperationDeploy := by decide
        simp only [h21, if_true, if_false] at hbad
        rcases hd : adp.Rollback svc none 1 with ⟨_ | res, _ | err⟩
        · simp [SequentialEngine.executeService, executeOperation, hdry, hreg, hd, h21]
        · simp [hd] at hbad
        · simp [hd] at hbad
        · simp [hd] at hbad
      · by_cases h3 : op = OperationStatus
        · subst h3
          have h31 : ¬ OperationStatus = OperationDeploy := by decide
          have h32 : ¬ OperationStatus = OperationRollback := by decide
          simp only [h31, h32, if_true, if_false] at hbad
          rcases hd : adp.Status svc none with ⟨_ | sr, _ | err⟩
          · simp [SequentialEngine.executeService, executeOperation, hdry, hreg, hd, h31, h32]
          · simp [SequentialEngine.executeService, executeOperation, hdry, hreg, hd, h31, h32]
          · simp [hd] at hbad
          · simp [hd] at hbad
        · simp [h1, h2, h3] at hbad

/-- `executeService` returns exactly when the adapter return is usable. -/
theorem SequentialEngine.executeService_isSome_iff (e : SequentialEngine) (w : World)
    (svc : Service) (op : Operation) (hdry : e.dryRun = false) :
    (e.executeService w svc op).isSome = true ↔ returnsUsable e.registry op svc = true := by
  constructor
  · intro h
    by_contra hbad
    have hb : returnsUsable e.registry op svc = false := by simpa using hbad
    rw [SequentialEngine.executeService_none e w svc op hdry hb] at h
    simp at h
  · intro h
    obtain ⟨r, w₁, d, err, hex, -⟩ := SequentialEngine.executeService_spec e w svc op hdry h
    simp [hex]

theorem SequentialEngine.of_executionFails (e : SequentialEngine) (w : World) (op : Operation)
    (svc : Service) (h : e.executionFails op svc) :
    e.dryRun = false ∧ returnsUsable e.registry op svc = true ∧
      serviceSucceeds e.registry op svc = false := by
  obtain ⟨r, w', hex, hr⟩ := h w
  have hdry : e.dryRun = false := by
    by_contra hd
    have hd' : e.dryRun = true := by simpa using hd
    rw [SequentialEngine.executeService_dryRun e w svc op hd'] at hex
    simp only [Option.some.injEq, Prod.mk.injEq] at hex
    rw [← hex.1] at hr
    simp at hr
  have hus : returnsUsable e.registry op svc = true :=
    (SequentialEngine.executeService_isSome_iff e w svc op hdry).mp (by simp [hex])
  refine ⟨hdry, hus, ?_⟩
  obtain ⟨r₁, w₁, d, err, hex₁, -, -, -, -, -, -, hs, -⟩ :=
    SequentialEngine.executeService_spec e w svc op hdry hus
  rw [hex] at hex₁
  simp only [Option.some.injEq, Prod.mk.injEq] at hex₁
  rw [← hs, ← hex₁.1, hr]

theorem SequentialEngine.of_executionSucceeds (e : SequentialEngine) (w : World)
    (op : Operation) (svc : Service) (hdry : e.dryRun = false)
    (h : e.executionSucceeds op svc) :
    returnsUsable e.registry op svc = true ∧ serviceSucceeds e.registry op svc = true := by
  obtain ⟨r, w', hex, hr⟩ := h w
  have hus : returnsUsable e.registry op svc = true :=
    (SequentialEngine.executeService_isSome_iff e w svc op hdry).mp (by simp [hex])
  refine ⟨hus, ?_⟩
  obtain ⟨r₁, w₁, d, err, hex₁, -, -, -, -, -, -, hs, -⟩ :=
    SequentialEngine.executeService_spec e w svc op hdry hus
  rw [hex] at hex₁
  simp only [Option.some.injEq, Prod.mk.injEq] at hex₁
  rw [← hs, ← hex₁.1, hr]

theorem ParallelEngine.executeService_eq (p : ParallelEngine) (w : World) (svc : Service)
    (op : Operation) :
    p.executeService w svc op =
      SequentialEngine.executeService
        { registry := p.registry, stopOnFailure := p.stopOnFailure, dryRun := p.dryRun }
        w svc op := rfl

theorem map_eq_map_getElem {α β γ : Type} (f : α → γ) (g : β → γ) (xs : List α)
    (ys : List β) (h : xs.map f = ys.map g) (i : Nat) (hx : i < xs.length)
    (hy : i < ys.length) : f xs[i] = g ys[i] := by
  have h1 : (xs.map f)[i]? = (ys.map g)[i]? := by rw [h]
  simpa [List.getElem?_map, List.getElem?_eq_getElem hx, List.getElem?_eq_getElem hy] using h1

theorem map_eq_map_length {α β γ : Type} (f : α → γ) (g : β → γ) (xs : List α)
    (ys : List β) (h : xs.map f = ys.map g) : xs.length = ys.length := by
  simpa using congrArg List.length h

/-! ## Sequential engine: the claims -/

/-- C2: with stop-on-failure enabled, when the service at position `k` is the
first whose execution fails (the executions of the services before it
succeed), `SequentialEngine.Execute` returns a nil error and exactly `k + 1`
results, those of positions `0..k` in input order, the first `k` successful
and the last one the failure; the adapter calls made are those for the
services of positions `0..k` only, and the whole outcome is that of running
the first `k + 1` services alone. -/
theorem SequentialEngine.Execute_stops_at_first_failure (e : SequentialEngine) (w : World)
    (services : List Service) (op : Operation) (k : Nat)
    (hstop : e.stopOnFailure = true)
    (hk : k < services.length)
    (hbefore : ∀ (i : Nat) (hi : i < services.length), i < k →
      e.executionSucceeds op services[i])
    (hfails : e.executionFails op services[k]) :
    ∃ (results : List ServiceResult) (w' : World),
      e.Execute w services op = some ((results, none), w') ∧
      results.length = k + 1 ∧
      (∀ (i : Nat) (hr : i < results.length) (hs : i < services.length),
        results[i].ServiceName = services[i].Name ∧ (results[i].Success = true ↔ i < k)) ∧
      w'.calls = w.calls ++ callsForAll e.registry op (services.take (k + 1)) ∧
      e.Execute w (services.take (k + 1)) op = some ((results, none), w') := by
  obtain ⟨hdry, husk, hfail⟩ := SequentialEngine.of_executionFails e w op services[k] hfails
  have hok : ∀ (i : Nat) (hi : i < services.length), i < k →
      serviceSucceeds e.registry op services[i] = true := fun i hi hik =>
    (SequentialEngine.of_executionSucceeds e w op services[i] hdry (hbefore i hi hik)).2
  have husable : ∀ (i : Nat) (hi : i < services.length), i ≤ k →
      returnsUsable e.registry op services[i] = true := by
    intro i hi hik
    rcases Nat.lt_or_eq_of_le hik with h | h
    · exact (SequentialEngine.of_executionSucceeds e w op services[i] hdry
        (hbefore i hi h)).1
    · subst h
      exact husk
  have hsplit : services = services.take k ++ services[k] :: services.drop (k + 1) := by
    rw [← List.drop_eq_getElem_cons hk, List.take_append_drop]
  have htake : services.take (k + 1) = services.take k ++ [services[k]] := by
    rw [List.take_succ, List.getElem?_eq_getElem hk]; rfl
  have hmem : ∀ svc ∈ services.take k, ∃ (i : Nat) (hi : i < services.length),
      i < k ∧ services[i] = svc := by
    intro svc hsvc
    obtain ⟨i, hi, rfl⟩ := List.mem_iff_getElem.mp hsvc
    have hik : i < k := by
      have := hi; simp only [List.length_take] at this; omega
    have hil : i < services.length := by
      have := hi; simp only [List.length_take] at this; omega
    exact ⟨i, hil, hik, by simp [List.getElem_take]⟩
  have hsafe : ∀ svc ∈ services.take k ++ [services[k]],
      returnsUsable e.registry op svc = true := by
    intro svc hsvc
    rcases List.mem_append.mp hsvc with h | h
    · obtain ⟨i, hi, hik, rfl⟩ := hmem svc h
      exact husable i hi (Nat.le_of_lt hik)
    · rw [List.mem_singleton.mp h]
      exact husable k hk (Nat.le_refl k)
  have hpre : ∀ svc ∈ services.take k, serviceSucceeds e.registry op svc = true := by
    intro svc hsvc
    obtain ⟨i, hi, hik, rfl⟩ := hmem svc hsvc
    exact hok i hi hik
  obtain ⟨rs, w', hfull, hcut, hmap, hcalls⟩ :=
    SequentialEngine.loop_stop e op hdry hstop (services.take k) services[k]
      (services.drop (k + 1)) w hsafe hpre hfail
  rw [← hsplit] at hfull
  rw [← htake] at hcut hcalls
  have hlen : rs.length = k + 1 := by
    have := congrArg List.length hmap
    simp only [List.length_map, List.length_append, List.length_take, List.length_singleton]
      at this
    omega
  refine ⟨rs, w', by simp [SequentialEngine.Execute, hfull], hlen, ?_, hcalls,
    by simp [SequentialEngine.Execute, hcut]⟩
  intro i hr hs
  have hi : i < k + 1 := by omega
  have h1 : (rs.map (fun r => (r.ServiceName, r.Success)))[i]? =
      ((services.take k).map (fun s => (s.Name, true)) ++ [(services[k].Name, false)])[i]? := by
    rw [hmap]
  rw [List.getElem?_map, List.getElem?_eq_getElem hr] at h1
  by_cases hik : i < k
  · have hlt : i < ((services.take k).map (fun s => (s.Name, true))).length := by
      simp only [List.length_map, List.length_take]; omega
    rw [List.getElem?_append_left hlt, List.getElem?_eq_getElem hlt] at h1
    simp only [Option.map_some', Option.some.injEq, List.getElem_map, List.getElem_take,
      Prod.mk.injEq] at h1
    exact ⟨h1.1, by simp [h1.2, hik]⟩
  · have hik' : i = k := by omega
    subst hik'
    have hle : ((services.take i).map (fun s => (s.Name, true))).length ≤ i := by
      simp only [List.length_map, List.length_take]; omega
    rw [List.getElem?_append_right hle] at h1
    have hz : i - ((services.take i).map (fun s => (s.Name, true))).length = 0 := by
      simp only [List.length_map, List.length_take]; omega
    rw [hz] at h1
    simp only [Option.map_some', List.getElem?_cons_zero, Option.some.injEq,
      Prod.mk.injEq] at h1
    exact ⟨h1.1, by simp [h1.2]⟩

/-- Witness for C2: of the three example services the second is the first to
fail, so two results come back and the third service is never touched. -/
theorem SequentialEngine.Execute_stops_at_first_failure_witness :
    ∃ (results : List ServiceResult) (w' : World),
      (NewSequentialEngine exampleRegistry true false).Execute exampleWorld exampleServices
        OperationDeploy = some ((results, none), w') ∧
      results.length = 1 + 1 ∧
      (∀ (i : Nat) (hr : i < results.length) (hs : i < exampleServices.length),
        results[i].ServiceName = exampleServices[i].Name ∧
          (results[i].Success = true ↔ i < 1)) ∧
      w'.calls = exampleWorld.calls ++
        callsForAll (NewSequentialEngine exampleRegistry true false).registry OperationDeploy
          (exampleServices.take (1 + 1)) ∧
      (NewSequentialEngine exampleRegistry true false).Execute exampleWorld
        (exampleServices.take (1 + 1)) OperationDeploy = some ((results, none), w') :=
  SequentialEngine.Execute_stops_at_first_failure
    (NewSequentialEngine exampleRegistry true false) exampleWorld exampleServices
    OperationDeploy 1 rfl (by decide)
    (fun i hi hik => by
      have h0 : i = 0 := by omega
      subst h0
      exact fun w => ⟨_, _, rfl, rfl⟩)
    (fun w => ⟨_, _, rfl, rfl⟩)

/-- C4: in dry-run mode `SequentialEngine.Execute` returns a nil error and one
result per service, in order, each with `Success = true`, an empty `Error` and
the placeholder `Output`; the manager (in-memory state), the state file system
and the log of adapter calls are exactly as before, no save is made, and the
outcome is the same for every registry and stop-on-failure setting. -/
theorem SequentialEngine.Execute_dryRun (e : SequentialEngine) (w : World)
    (services : List Service) (op : Operation) (hdry : e.dryRun = true) :
    ∃ (results : List ServiceResult) (w' : World),
      e.Execute w services op = some ((results, none), w') ∧
      results.length = services.length ∧
      (∀ (i : Nat) (hr : i < results.length) (hs : i < services.length),
        results[i].ServiceName = services[i].Name ∧ results[i].Success = true ∧
        results[i].Error = "" ∧ results[i].Output = "Dry run - no actual execution") ∧
      w'.mgr = w.mgr ∧ w'.fs = w.fs ∧ w'.saves = w.saves ∧ w'.calls = w.calls ∧
      (∀ (registry : Registry) (stopOnFailure : Bool),
        SequentialEngine.Execute
          { registry := registry, stopOnFailure := stopOnFailure, dryRun := true }
          w services op = some ((results, none), w')) := by
  obtain ⟨rs, w', hloop, hmap, h1, h2, h3, h4⟩ :=
    SequentialEngine.loop_dryRun e op hdry services [] w
  refine ⟨rs, w', by simp [SequentialEngine.Execute, hloop], map_eq_map_length _ _ _ _ hmap,
    ?_, h1, h2, h3, h4, ?_⟩
  · intro i hr hs
    have := map_eq_map_getElem _ _ rs services hmap i hr hs
    simp only [Prod.mk.injEq] at this
    exact this
  · intro registry stopOnFailure
    have hsame : ∀ (svcs : List Service) (results : List ServiceResult) (w₀ : World),
        SequentialEngine.loop
          { registry := registry, stopOnFailure := stopOnFailure, dryRun := true } op svcs
          results w₀ = SequentialEngine.loop e op svcs results w₀ := by
      intro svcs
      induction svcs with
      | nil => intro results w₀; rfl
      | cons svc rest ih =>
        intro results w₀
        simp only [SequentialEngine.loop,
          SequentialEngine.executeService_dryRun e w₀ svc op hdry,
          SequentialEngine.executeService_dryRun
            { registry := registry, stopOnFailure := stopOnFailure, dryRun := true }
            w₀ svc op rfl]
        simp [ih]
    simp [SequentialEngine.Execute, hsame, hloop]

/-- Witness for C4: a dry run over the three example services, with
stop-on-failure on. -/
theorem SequentialEngine.Execute_dryRun_witness :
    ∃ (results : List ServiceResult) (w' : World),
      (NewSequentialEngine exampleRegistry true true).Execute exampleWorld exampleServices
        OperationDeploy = some ((results, none), w') ∧
      results.length = exampleServices.length ∧
      (∀ (i : Nat) (hr : i < results.length) (hs : i < exampleServices.length),
        results[i].ServiceName = exampleServices[i].Name ∧ results[i].Success = true ∧
        results[i].Error = "" ∧ results[i].Output = "Dry run - no actual execution") ∧
      w'.mgr = exampleWorld.mgr ∧ w'.fs = exampleWorld.fs ∧ w'.saves = exampleWorld.saves ∧
      w'.calls = exampleWorld.calls ∧
      (∀ (registry : Registry) (stopOnFailure : Bool),
        SequentialEngine.Execute
          { registry := registry, stopOnFailure := stopOnFailure, dryRun := true }
          exampleWorld exampleServices OperationDeploy = some ((results, none), w')) :=
  SequentialEngine.Execute_dryRun (NewSequentialEngine exampleRegistry true true) exampleWorld
    exampleServices OperationDeploy rfl

/-! ## What one execution records -/

/-- What a returned execution did to the store: exactly one
`RecordServiceExecution`, for the service's name and the returned `Success`. -/
theorem SequentialEngine.executeService_records_once (e : SequentialEngine) (w : World)
    (svc : Service) (op : Operation) (hdry : e.dryRun = false)
    (r : ServiceResult) (w' : World) (hret : e.executeService w svc op = some (r, w')) :
    ∃ (w₁ : World) (d : Duration) (err : Option String),
      w' = w₁.RecordServiceExecution svc.Name r.Success d err ∧
      w₁.mgr = w.mgr ∧ w₁.fs = w.fs ∧ w₁.saves = w.saves ∧
      w'.mgr.state =
        (w.mgr.state.RecordServiceExecution svc.Name r.Success d err w₁.clock).1 ∧
      w'.saves = w.saves + 1 ∧
      (∀ msg, e.registry.GetForService svc = Except.error msg → r.Success = false) := by
  have hus : returnsUsable e.registry op svc = true :=
    (SequentialEngine.executeService_isSome_iff e w svc op hdry).mp (by simp [hret])
  obtain ⟨r₁, w₁, d, err, hex, h1, h2, h3, -, -, -, hs, -⟩ :=
    SequentialEngine.executeService_spec e w svc op hdry hus
  rw [hret] at hex
  simp only [Option.some.injEq, Prod.mk.injEq] at hex
  obtain ⟨hr, hw⟩ := hex
  subst hr
  refine ⟨w₁, d, err, hw, h1, h2, h3, ?_, ?_, ?_⟩
  · rw [hw, ← h1]; rfl
  · rw [hw, ← h3]; rfl
  · intro msg hmsg
    rw [hs]
    simp [serviceSucceeds, hmsg]

/-- C5: with dry-run off, whenever `executeService` of either engine returns a
result for a service, it has changed the State Store by exactly one
`RecordServiceExecution`, for that service's name and with the success flag of
the returned result: the world afterwards is the world before (up to clock
readings and the call log) with that one record operation applied, so the
in-memory state is the old one with one record operation applied and one save
was made. This includes the service whose type has no adapter, which gets a
result with `Success = false` and so one recorded failure. `executeService`
returns a result exactly when the adapter hands back a usable return. -/
theorem executeService_records_exactly_once (e : SequentialEngine) (p : ParallelEngine)
    (w : World) (svc : Service) (op : Operation)
    (he : e.dryRun = false) (hp : p.dryRun = false) :
    ((e.executeService w svc op).isSome = true ↔ returnsUsable e.registry op svc = true) ∧
    (∀ (r : ServiceResult) (w' : World), e.executeService w svc op = some (r, w') →
      ∃ (w₁ : World) (d : Duration) (err : Option String),
        w' = w₁.RecordServiceExecution svc.Name r.Success d err ∧
        w₁.mgr = w.mgr ∧ w₁.fs = w.fs ∧ w₁.saves = w.saves ∧
        w'.mgr.state =
          (w.mgr.state.RecordServiceExecution svc.Name r.Success d err w₁.clock).1 ∧
        w'.saves = w.saves + 1 ∧
        (∀ msg, e.registry.GetForService svc = Except.error msg → r.Success = false)) ∧
    ((p.executeService w svc op).isSome = true ↔ returnsUsable p.registry op svc = true) ∧
    (∀ (r : ServiceResult) (w' : World), p.executeService w svc op = some (r, w') →
      ∃ (w₁ : World) (d : Duration) (err : Option String),
        w' = w₁.RecordServiceExecution svc.Name r.Success d err ∧
        w₁.mgr = w.mgr ∧ w₁.fs = w.fs ∧ w₁.saves = w.saves ∧
        w'.mgr.state =
          (w.mgr.state.RecordServiceExecution svc.Name r.Success d err w₁.clock).1 ∧
        w'.saves = w.saves + 1 ∧
        (∀ msg, p.registry.GetForService svc = Except.error msg → r.Success = false)) := by
  refine ⟨SequentialEngine.executeService_isSome_iff e w svc op he,
    fun r w' hret => SequentialEngine.executeService_records_once e w svc op he r w' hret,
    ?_, ?_⟩
  · rw [ParallelEngine.executeService_eq]
    exact SequentialEngine.executeService_isSome_iff
      { registry := p.registry, stopOnFailure := p.stopOnFailure, dryRun := p.dryRun }
      w svc op hp
  · intro r w' hret
    rw [ParallelEngine.executeService_eq] at hret
    exact SequentialEngine.executeService_records_once
      { registry := p.registry, stopOnFailure := p.stopOnFailure, dryRun := p.dryRun }
      w svc op hp r w' hret

/-- Witness for C5: the example service `c`, whose type has no adapter. Both
engines return a failure result for it and record one failure. -/
theorem executeService_records_exactly_once_witness :
    ((NewSequentialEngine exampleRegistry false false).executeService exampleWorld
        { Name := "c", Type_ := "unknown" } OperationDeploy).map
      (fun x => (x.1.Success, x.2.saves,
        (x.2.mgr.state.serviceRecord "c").map
          (fun s => (s.LastResult, s.SuccessCount, s.FailureCount)))) =
      some (false, 1, some ("failure", 0, 1)) ∧
    (∀ (r : ServiceResult) (w' : World),
      (NewParallelEngine exampleRegistry false false 2).executeService exampleWorld
          { Name := "c", Type_ := "unknown" } OperationDeploy = some (r, w') →
      ∃ (w₁ : World) (d : Duration) (err : Option String),
        w' = w₁.RecordServiceExecution "c" r.Success d err ∧
        w₁.mgr = exampleWorld.mgr ∧ w₁.fs = exampleWorld.fs ∧
        w₁.saves = exampleWorld.saves ∧
        w'.mgr.state =
          (exampleWorld.mgr.state.RecordServiceExecution "c" r.Success d err w₁.clock).1 ∧
        w'.saves = exampleWorld.saves + 1 ∧
        (∀ msg, exampleRegistry.GetForService { Name := "c", Type_ := "unknown" } =
          Except.error msg → r.Success = false)) :=
  ⟨by decide,
    (executeService_records_exactly_once (NewSequentialEngine exampleRegistry false false)
      (NewParallelEngine exampleRegistry false false 2) exampleWorld
      { Name := "c", Type_ := "unknown" } OperationDeploy rfl rfl).2.2.2⟩

/-- C7 (failing input): the adapter of service `b` returns a result with
`Success = false` and `Error = "exit status 1"` and a nil error. Both engines
return a failure result with that error text, and the record they leave for
`b` has `LastResult = "failure"` with an empty `LastError`. -/
theorem executeService_failed_result_leaves_LastError_unset :
    ((NewSequentialEngine exampleRegistry false false).executeService exampleWorld
        { Name := "b", Type_ := "ok" } OperationDeploy).map
      (fun x => (x.1.Success, x.1.Error,
        (x.2.mgr.state.serviceRecord "b").map (fun s => (s.LastResult, s.LastError)))) =
      some (false, "exit status 1", some ("failure", "")) ∧
    ((NewParallelEngine exampleRegistry false false 2).executeService exampleWorld
        { Name := "b", Type_ := "ok" } OperationDeploy).map
      (fun x => (x.1.Success, x.1.Error,
        (x.2.mgr.state.serviceRecord "b").map (fun s => (s.LastResult, s.LastError)))) =
      some (false, "exit status 1", some ("failure", "")) := by
  decide

/-! ## Parallel engine: runs without stop-on-failure -/

theorem countP_set_of_getElem? {α : Type} (p : α → Bool) (l : List α) :
    ∀ (i : Nat) (v old : α), l[i]? = some old →
      (l.set i v).countP p + (if p old then 1 else 0) =
        l.countP p + (if p v then 1 else 0) := by
  induction l with
  | nil => intro i v old h; simp at h
  | cons hd tl ih =>
    intro i v old h
    cases i with
    | zero =>
      simp only [List.getElem?_cons_zero, Option.some.injEq] at h
      subst h
      simp only [List.set_cons_zero, List.countP_cons]
      omega
    | succ j =>
      simp only [List.getElem?_cons_succ] at h
      have := ih j v old h
      simp only [List.set_cons_succ, List.countP_cons]
      omega

theorem getElem?_set_some {α : Type} (l : List α) (i j : Nat) (v x : α)
    (h : (l.set i v)[j]? = some x) : (j = i ∧ x = v) ∨ (j ≠ i ∧ l[j]? = some x) := by
  by_cases hji : j = i
  · subst hji
    left
    refine ⟨rfl, ?_⟩
    rw [List.getElem?_set_self'] at h
    cases hl : l[j]? with
    | none => simp [hl] at h
    | some old => simpa [hl] using h.symm
  · right
    refine ⟨hji, ?_⟩
    rwa [List.getElem?_set_ne (Ne.symm hji)] at h

theorem ParallelEngine.runSchedule_append (e : ParallelEngine) (services : List Service)
    (op : Operation) (s t : List Action) :
    ∀ st, e.runSchedule services op (s ++ t) st =
      (e.runSchedule services op s st).bind (e.runSchedule services op t) := by
  induction s with
  | nil => intro st; rfl
  | cons a rest ih =>
    intro st
    simp only [List.cons_append, ParallelEngine.runSchedule]
    cases e.step services op st a with
    | none => rfl
    | some st₁ => exact ih st₁

theorem FS.get_erase_self (fs : FS) (k : String) : Map.get (FS.erase fs k) k = none := by
  induction fs with
  | nil => simp [FS.erase, Map.get]
  | cons hd tl ih =>
    obtain ⟨k₀, v₀⟩ := hd
    by_cases h₀ : k₀ = k
    · subst h₀
      have : (k₀ != k₀) = false := by simp
      simp only [FS.erase, List.filter, this] at ih ⊢
      exact ih
    · have : (k₀ != k) = true := by simp [h₀]
      simp only [FS.erase, List.filter, this] at ih ⊢
      simp [Map.get, h₀, ih]

/-- C11: `Load` on a working directory without a state file returns no error
(once the state directory could be made, the step `Load` starts with, and only
then) and leaves the empty state of `NewState`: no service record, no tenant
record, version "1.0". `Load` on a state file whose content does not parse
returns an error, whatever the file-system calls before do, and leaves the
manager as it was. -/
theorem Manager.Load_without_file_and_with_unparseable_file (m : Manager) (fs : FS)
    (flt : Faults) :
    (Map.get fs m.stateFile = none →
      ((m.Load fs flt).1 = none ↔ flt.mkdir = false) ∧
      (flt.mkdir = false →
        (m.Load fs flt).2.state = NewState ∧
        (∀ n, (m.Load fs flt).2.state.serviceRecord n = none) ∧
        (∀ t, (m.Load fs flt).2.state.tenantRecord t = none) ∧
        (m.Load fs flt).2.state.Version = "1.0")) ∧
    (Map.get fs m.stateFile = some FileData.corrupt →
      (m.Load fs flt).1.isSome = true ∧ (m.Load fs flt).2 = m ∧
      (flt.mkdir = false → flt.read = false →
        (m.Load fs flt).1 = some "failed to parse state file")) := by
  refine ⟨fun hnone => ⟨?_, ?_⟩, fun hc => ?_⟩
  · unfold Manager.Load
    cases hm : flt.mkdir <;> simp [hnone]
  · intro hm
    have hl : m.Load fs flt = (none, { m with state := NewState }) := by
      unfold Manager.Load
      simp [hm, hnone]
    rw [hl]
    refine ⟨rfl, ?_, ?_, rfl⟩
    · intro n; rfl
    · intro t; rfl
  · unfold Manager.Load
    cases hm : flt.mkdir <;> cases hr : flt.read <;> simp [hc]

/-- Witness for C11: a new manager on `/work`, first with an empty file
system, then with a state file that does not parse. -/
theorem Manager.Load_without_file_and_with_unparseable_file_witness :
    (((NewManager "/work").Load [] {}).1 = none ∧
      ((NewManager "/work").Load [] {}).2.state = NewState) ∧
    (((NewManager "/work").Load [("/work/.migra/state.json", FileData.corrupt)] {}).1 =
      some "failed to parse state file") :=
  ⟨⟨((Manager.Load_without_file_and_with_unparseable_file (NewManager "/work") [] {}).1
        (by decide)).1.mpr rfl,
    (((Manager.Load_without_file_and_with_unparseable_file (NewManager "/work") [] {}).1
        (by decide)).2 rfl).1⟩,
   ((Manager.Load_without_file_and_with_unparseable_file (NewManager "/work")
        [("/work/.migra/state.json", FileData.corrupt)] {}).2 (by decide)).2.2 rfl rfl⟩

/-- C12 (counterexample): the rename fails and so does the removal of the
temporary file, whose error `Save` drops. `Save` returns an error, the
canonical file keeps its old content, and the temporary file is still there,
holding the new content. -/
theorem Manager.Save_failed_rename_can_leave_temp_file :
    ((NewManager "/work").Save [("/work/.migra/state.json", FileData.corrupt)]
        { rename := true, remove := true }).1 = some "failed to save state file" ∧
    Map.get ((NewManager "/work").Save [("/work/.migra/state.json", FileData.corrupt)]
        { rename := true, remove := true }).2 "/work/.migra/state.json" =
      some FileData.corrupt ∧
    Map.get ((NewManager "/work").Save [("/work/.migra/state.json", FileData.corrupt)]
        { rename := true, remove := true }).2 "/work/.migra/state.json.tmp" =
      some (FileData.doc NewState.marshal) := by
  decide

/-- C12 (amended): `Save` returns an error exactly when the directory step,
the write of the temporary file or the rename fails; whenever it returns an
error the canonical state file holds exactly what it held before the call, and
when it returns none the canonical file holds the new content. After a failed
rename the temporary file is gone when its removal succeeds, and still holds
the new content when the removal fails too. -/
theorem Manager.Save_changes_state_file_only_by_rename (m : Manager) (fs : FS)
    (flt : Faults) :
    ((m.Save fs flt).1.isSome = true ↔
      (flt.mkdir = true ∨ flt.write ≠ WriteFault.noFault ∨ flt.rename = true)) ∧
    ((m.Save fs flt).1.isSome = true →
      Map.get (m.Save fs flt).2 m.stateFile = Map.get fs m.stateFile) ∧
    ((m.Save fs flt).1 = none →
      Map.get (m.Save fs flt).2 m.stateFile = some (FileData.doc m.state.marshal)) ∧
    (flt.mkdir = false → flt.write = WriteFault.noFault → flt.rename = true →
      Map.get (m.Save fs flt).2 (m.stateFile ++ ".tmp") =
        if flt.remove then some (FileData.doc m.state.marshal) else none) := by
  have hne : m.stateFile ≠ m.stateFile ++ ".tmp" := Ne.symm (tempFile_ne m.stateFile)
  refine ⟨?_, ?_, Manager.Save_writes m fs flt, ?_⟩
  · unfold Manager.Save
    cases hm : flt.mkdir <;> cases hw : flt.write <;> cases hr : flt.rename <;> simp
  · unfold Manager.Save
    cases hm : flt.mkdir <;> cases hw : flt.write <;> cases hr : flt.rename <;>
      cases hx : flt.remove <;>
      simp [FS.get_erase_of_ne _ _ _ hne, Map.get_set_of_ne _ _ _ _ hne]
  · intro hm hw hr
    unfold Manager.Save
    cases hx : flt.remove <;> simp [hm, hw, hr, FS.get_erase_self, Map.get_set_self]

/-- Witness for C12 (amended): a failed rename followed by a successful
removal leaves the canonical file as it was and no temporary file. -/
theorem Manager.Save_changes_state_file_only_by_rename_witness :
    Map.get ((NewManager "/work").Save [("/work/.migra/state.json", FileData.corrupt)]
        { rename := true }).2 "/work/.migra/state.json" = some FileData.corrupt ∧
    Map.get ((NewManager "/work").Save [("/work/.migra/state.json", FileData.corrupt)]
        { rename := true }).2 ((NewManager "/work").stateFile ++ ".tmp") = none :=
  ⟨((Manager.Save_changes_state_file_only_by_rename (NewManager "/work")
      [("/work/.migra/state.json", FileData.corrupt)] { rename := true }).2.1 (by decide)),
   ((Manager.Save_changes_state_file_only_by_rename (NewManager "/work")
      [("/work/.migra/state.json", FileData.corrupt)] { rename := true }).2.2.2 rfl rfl rfl)⟩

/-! ## The concurrency ceiling -/

/-- C18: for every integer `n`, `NewParallelEngine` and the tenant
`NewExecutor` store the ceiling 5 when `n ≤ 0` and `n` otherwise, so the stored
ceiling is at least 1. -/
theorem NewParallelEngine_and_NewExecutor_clamp_ceiling (registry : Registry)
    (source : Source) (stopOnFailure dryRun : Bool) (n : Int) :
    (NewParallelEngine registry stopOnFailure dryRun n).maxParallel =
      (if n ≤ 0 then 5 else n) ∧
    (NewExecutor source registry stopOnFailure n).maxParallel = (if n ≤ 0 then 5 else n) ∧
    1 ≤ (NewParallelEngine registry stopOnFailure dryRun n).maxParallel ∧
    1 ≤ (NewExecutor source registry stopOnFailure n).maxParallel := by
  refine ⟨rfl, rfl, ?_, ?_⟩ <;> simp only [NewParallelEngine, NewExecutor] <;> split <;> omega

/-! ## The Status operation -/

/-- The record `RecordTenantExecution` leaves for the service under the
tenant it is given. -/
theorem State.tenantServiceRecord_RecordTenantExecution (s : State) (tenantID name : String)
    (success : Bool) (duration : Duration) (err : Option String) (clk : Clock) :
    (s.RecordTenantExecution tenantID name success duration err clk).1.tenantServiceRecord
        tenantID name =
      some ((s.tenantRecordOrZero tenantID name).recorded (clk.readings (clk.reads + 1))
        duration success err) := by
  simp only [State.tenantServiceRecord,
    State.tenantRecord_RecordTenantExecution s tenantID name success duration err clk,
    Map.get_set_self]

/-- `RecordTenantExecution` leaves the records of the other services of the
tenant as they were. -/
theorem State.tenantServiceRecord_RecordTenantExecution_of_ne (s : State)
    (tenantID name n : String) (success : Bool) (duration : Duration) (err : Option String)
    (clk : Clock) (h : n ≠ name) :
    (s.RecordTenantExecution tenantID name success duration err clk).1.tenantServiceRecord
        tenantID n = s.tenantServiceRecord tenantID n := by
  simp only [State.tenantServiceRecord,
    State.tenantRecord_RecordTenantExecution s tenantID name success duration err clk,
    Map.get_set_of_ne _ _ _ _ h, State.tenantOrNew]
  cases ht : s.tenantRecord tenantID with
  | none => simp [Map.get]
  | some t => cases hm : t.Services <;> simp [Map.get, hm]

/-- The counters `RecordTenantExecution` leaves in the tenant record. -/
theorem State.tenantOrNew_RecordTenantExecution (s : State) (tenantID name : String)
    (success : Bool) (duration : Duration) (err : Option String) (clk : Clock) :
    ((s.RecordTenantExecution tenantID name success duration err clk).1.tenantOrNew
        tenantID).SuccessCount =
      (s.tenantOrNew tenantID).SuccessCount + (if success then 1 else 0) ∧
    ((s.RecordTenantExecution tenantID name success duration err clk).1.tenantOrNew
        tenantID).FailureCount =
      (s.tenantOrNew tenantID).FailureCount + (if success then 0 else 1) := by
  have h := State.tenantRecord_RecordTenantExecution s tenantID name success duration err clk
  constructor <;>
  · conv_lhs => rw [State.tenantOrNew, h]
    rfl

theorem World.RecordTenantExecution_frame (w : World) (t n : String) (ok : Bool)
    (d : Duration) (err : Option String) :
    (w.RecordTenantExecution t n ok d err).mgr.state =
      (w.mgr.state.RecordTenantExecution t n ok d err w.clock).1 ∧
    (w.RecordTenantExecution t n ok d err).saves = w.saves + 1 ∧
    (w.RecordTenantExecution t n ok d err).calls = w.calls ∧
    (w.RecordTenantExecution t n ok d err).faults = w.faults :=
  ⟨rfl, rfl, rfl, rfl⟩

/-- A world differs from another by clock readings and logged adapter calls
only. -/
theorem tenantOperation_frame (adp : Adapter) (w : World) (svc : Service) (tenant : Tenant)
    (op : Operation) :
    (tenantOperation adp w svc tenant op).2.2.mgr = w.mgr ∧
    (tenantOperation adp w svc tenant op).2.2.fs = w.fs ∧
    (tenantOperation adp w svc tenant op).2.2.saves = w.saves ∧
    (tenantOperation adp w svc tenant op).2.2.faults = w.faults ∧
    (tenantOperation adp w svc tenant op).2.2.clock = w.clock := by
  unfold tenantOperation
  split
  · exact ⟨rfl, rfl, rfl, rfl, rfl⟩
  · split <;> exact ⟨rfl, rfl, rfl, rfl, rfl⟩

/-- The step of the loop of `executeTenant` at a service that succeeds: one
success is recorded and the loop goes on. -/
theorem Executor.tenantLoop_cons_of_succeeds (e : Executor) (tenant : Tenant)
    (op : Operation) (start : Time) (total : Int) (result : TenantResult) (svc : Service)
    (rest : List Service) (c : Int) (w : World)
    (hs : tenantServiceSucceeds e.registry op tenant svc = true) :
    ∃ (w₁ : World) (d : Duration),
      e.tenantLoop tenant op start total result (svc :: rest) c w =
        e.tenantLoop tenant op start total result rest (c + 1)
          (w₁.RecordTenantExecution tenant.ID svc.Name true d none) ∧
      w₁.mgr = w.mgr ∧ w₁.fs = w.fs ∧ w₁.saves = w.saves ∧ w₁.faults = w.faults := by
  unfold tenantServiceSucceeds at hs
  cases hreg : e.registry.GetForService svc with
  | error msg => simp [hreg] at hs
  | ok adp =>
    simp only [hreg, tenantOperationOK] at hs
    obtain ⟨f1, f2, f3, f4, -⟩ := tenantOperation_frame adp w svc tenant op
    rcases hop : tenantOperation adp w svc tenant op with ⟨res, err, w₁⟩
    rw [hop] at f1 f2 f3 f4
    have hout : ∃ r, res = some r ∧ err = none ∧ r.Success = true := by
      unfold tenantOperation at hop
      by_cases h1 : op = OperationDeploy
      · simp only [h1, if_true] at hs hop
        rcases hd : adp.Deploy svc (some tenant) with ⟨_ | r, _ | er⟩ <;>
          simp only [hd, Prod.mk.injEq] at hs hop <;> try (simp at hs)
        exact ⟨r, hop.1.symm, hop.2.1.symm, hs⟩
      · by_cases h2 : op = OperationRollback
        · subst h2
          have h21 : ¬ OperationRollback = OperationDeploy := by decide
          simp only [h21, if_true, if_false] at hs hop
          rcases hd : adp.Rollback svc (some tenant) 1 with ⟨_ | r, _ | er⟩ <;>
            simp only [hd, Prod.mk.injEq] at hs hop <;> try (simp at hs)
          exact ⟨r, hop.1.symm, hop.2.1.symm, hs⟩
        · simp [h1, h2] at hs
    obtain ⟨r, rfl, rfl, hr⟩ := hout
    refine ⟨w₁, r.Duration, ?_, f1, f2, f3, f4⟩
    conv_lhs => unfold Executor.tenantLoop
    simp only [hreg, hop, hr, Bool.not_true, Bool.false_eq_true, if_false]

/-- The step of the loop of `executeTenant` at a service whose operation
fails: one failure is recorded and the failure result is returned. -/
theorem Executor.tenantLoop_cons_of_fails (e : Executor) (tenant : Tenant)
    (op : Operation) (start : Time) (total : Int) (result : TenantResult) (svc : Service)
    (rest : List Service) (c : Int) (w : World)
    (hf : tenantServiceFails e.registry op tenant svc = true) :
    ∃ (w₁ : World) (d : Duration) (err : Option String) (detail : String),
      e.tenantLoop tenant op start total result (svc :: rest) c w =
        some ({ result with
                Success := false
                Error := "service " ++ svc.Name ++ " failed: " ++ detail
                Duration := d },
          w₁.RecordTenantExecution tenant.ID svc.Name false d err) ∧
      w₁.mgr = w.mgr ∧ w₁.fs = w.fs ∧ w₁.saves = w.saves ∧ w₁.faults = w.faults := by
  unfold tenantServiceFails at hf
  cases hreg : e.registry.GetForService svc with
  | error msg => simp [hreg] at hf
  | ok adp =>
    simp only [hreg, tenantOperationFailed] at hf
    obtain ⟨f1, f2, f3, f4, -⟩ := tenantOperation_frame adp w svc tenant op
    rcases hop : tenantOperation adp w svc tenant op with ⟨res, err, w₁⟩
    rw [hop] at f1 f2 f3 f4
    have hout : (∃ text, err = some text) ∨ (∃ r, res = some r ∧ err = none ∧ r.Success = false) := by
      unfold tenantOperation at hop
      by_cases h1 : op = OperationDeploy
      · simp only [h1, if_true] at hf hop
        rcases hd : adp.Deploy svc (some tenant) with ⟨_ | r, _ | er⟩ <;>
          simp only [hd, Prod.mk.injEq] at hf hop
        · simp at hf
        · exact Or.inl ⟨er, hop.2.1.symm⟩
        · exact Or.inr ⟨r, hop.1.symm, hop.2.1.symm, by simpa using hf⟩
        · exact Or.inl ⟨er, hop.2.1.symm⟩
      · by_cases h2 : op = OperationRollback
        · subst h2
          have h21 : ¬ OperationRollback = OperationDeploy := by decide
          simp only [h21, if_true, if_false] at hf hop
          rcases hd : adp.Rollback svc (some tenant) 1 with ⟨_ | r, _ | er⟩ <;>
            simp only [hd, Prod.mk.injEq] at hf hop
          · simp at hf
          · exact Or.inl ⟨er, hop.2.1.symm⟩
          · exact Or.inr ⟨r, hop.1.symm, hop.2.1.symm, by simpa using hf⟩
          · exact Or.inl ⟨er, hop.2.1.symm⟩
        · simp only [h1, h2, if_false, Prod.mk.injEq] at hop
          exact Or.inl ⟨_, hop.2.1.symm⟩
    rcases hout with ⟨text, rfl⟩ | ⟨r, rfl, rfl, hr⟩
    · refine ⟨(w₁.Since start).2, (w₁.Since start).1, some text, text, ?_, f1, f2, f3, f4⟩
      conv_lhs => unfold Executor.tenantLoop
      simp only [hreg, hop]
    · refine ⟨(w₁.Since start).2, (w₁.Since start).1, none, r.Error, ?_, f1, f2, f3, f4⟩
      conv_lhs => unfold Executor.tenantLoop
      simp only [hreg, hop, hr, Bool.not_false, if_true]

/-- The loop of `executeTenant` over services that succeed up to one whose
operation fails: the failure result, and what the store holds afterwards
relative to what it held before. -/
theorem Executor.tenantLoop_upto_failure (e : Executor) (tenant : Tenant) (op : Operation)
    (start : Time) (total : Int) (result : TenantResult) (svc : Service)
    (post : List Service) (hf : tenantServiceFails e.registry op tenant svc = true) :
    ∀ (pre : List Service) (c : Int) (w : World),
      ((pre ++ [svc]).map Service.Name).Nodup →
      (∀ s ∈ pre, tenantServiceSucceeds e.registry op tenant s = true) →
      ∃ (r : TenantResult) (w' : World),
        e.tenantLoop tenant op start total result (pre ++ svc :: post) c w = some (r, w') ∧
        r.TenantID = result.TenantID ∧ r.ServiceCount = result.ServiceCount ∧
        r.Success = false ∧
        (∃ detail, r.Error = "service " ++ svc.Name ++ " failed: " ++ detail) ∧
        (∀ s ∈ pre, ∃ rec, w'.mgr.state.tenantServiceRecord tenant.ID s.Name = some rec ∧
          rec.LastResult = "success" ∧
          rec.SuccessCount = (w.mgr.state.tenantRecordOrZero tenant.ID s.Name).SuccessCount + 1 ∧
          rec.FailureCount = (w.mgr.state.tenantRecordOrZero tenant.ID s.Name).FailureCount) ∧
        (∃ rec, w'.mgr.state.tenantServiceRecord tenant.ID svc.Name = some rec ∧
          rec.LastResult = "failure" ∧
          rec.SuccessCount = (w.mgr.state.tenantRecordOrZero tenant.ID svc.Name).SuccessCount ∧
          rec.FailureCount =
            (w.mgr.state.tenantRecordOrZero tenant.ID svc.Name).FailureCount + 1) ∧
        (∀ n, n ∉ (pre ++ [svc]).map Service.Name →
          w'.mgr.state.tenantServiceRecord tenant.ID n =
            w.mgr.state.tenantServiceRecord tenant.ID n) ∧
        (w'.mgr.state.tenantOrNew tenant.ID).SuccessCount =
          (w.mgr.state.tenantOrNew tenant.ID).SuccessCount + pre.length ∧
        (w'.mgr.state.tenantOrNew tenant.ID).FailureCount =
          (w.mgr.state.tenantOrNew tenant.ID).FailureCount + 1 ∧
        w'.saves = w.saves + pre.length + 1 := by
  intro pre
  induction pre with
  | nil =>
    intro c w _ _
    obtain ⟨w₁, d, err, detail, hrun, f1, -, f3, -⟩ :=
      Executor.tenantLoop_cons_of_fails e tenant op start total result svc post c w hf
    obtain ⟨g1, g2, -, -⟩ := World.RecordTenantExecution_frame w₁ tenant.ID svc.Name false d err
    have hc := State.tenantOrNew_RecordTenantExecution w₁.mgr.state tenant.ID svc.Name false d
      err w₁.clock
    refine ⟨_, _, hrun, rfl, rfl, rfl, ⟨detail, rfl⟩, ?_, ?_, ?_, ?_, ?_, ?_⟩
    · intro s hs; simp at hs
    · have hrec :
          (w₁.RecordTenantExecution tenant.ID svc.Name false d err).mgr.state.tenantServiceRecord
            tenant.ID svc.Name =
          some ((w₁.mgr.state.tenantRecordOrZero tenant.ID svc.Name).recorded
            (w₁.clock.readings (w₁.clock.reads + 1)) d false err) := by
        rw [g1, State.tenantServiceRecord_RecordTenantExecution]
      refine ⟨_, hrec, ?_, ?_, ?_⟩
      · simp [ServiceState.recorded]
      · simp [ServiceState.recorded, f1]
      · simp [ServiceState.recorded, f1]
    · intro n hn
      have hne : n ≠ svc.Name := by simpa using hn
      rw [g1, State.tenantServiceRecord_RecordTenantExecution_of_ne _ _ _ _ _ _ _ _ hne, f1]
    · rw [g1, hc.1, f1]; simp
    · rw [g1, hc.2, f1]; simp
    · rw [g2, f3]; simp
  | cons s₀ pre ih =>
    intro c w hnd hok
    obtain ⟨w₁, d, hrun, f1, -, f3, -⟩ :=
      Executor.tenantLoop_cons_of_succeeds e tenant op start total result s₀
        (pre ++ svc :: post) c w (hok s₀ (List.mem_cons_self _ _))
    obtain ⟨g1, g2, -, -⟩ :=
      World.RecordTenantExecution_frame w₁ tenant.ID s₀.Name true d none
    have hc := State.tenantOrNew_RecordTenantExecution w₁.mgr.state tenant.ID s₀.Name true d
      none w₁.clock
    have hnd' : ((pre ++ [svc]).map Service.Name).Nodup := by
      simp only [List.cons_append, List.map_cons, List.nodup_cons] at hnd
      exact hnd.2
    have hnot : s₀.Name ∉ (pre ++ [svc]).map Service.Name := by
      simp only [List.cons_append, List.map_cons, List.nodup_cons] at hnd
      exact hnd.1
    obtain ⟨r, w', hrun', h1, h2, h3, h4, h5, h6, h7, h8, h9, h10⟩ :=
      ih (c + 1) (w₁.RecordTenantExecution tenant.ID s₀.Name true d none) hnd'
        (fun s hs => hok s (List.mem_cons_of_mem _ hs))
    have hother : ∀ n, n ≠ s₀.Name →
        (w₁.RecordTenantExecution tenant.ID s₀.Name true d none).mgr.state.tenantServiceRecord
          tenant.ID n = w.mgr.state.tenantServiceRecord tenant.ID n := by
      intro n hn
      rw [g1, State.tenantServiceRecord_RecordTenantExecution_of_ne _ _ _ _ _ _ _ _ hn, f1]
    have hotherZ : ∀ n, n ≠ s₀.Name →
        (w₁.RecordTenantExecution tenant.ID s₀.Name true d none).mgr.state.tenantRecordOrZero
          tenant.ID n = w.mgr.state.tenantRecordOrZero tenant.ID n := by
      intro n hn
      simp only [State.tenantRecordOrZero, hother n hn]
    refine ⟨r, w', ?_, h1, h2, h3, h4, ?_, ?_, ?_, ?_, ?_, ?_⟩
    · rw [List.cons_append, hrun]; exact hrun'
    · intro s hs
      rcases List.mem_cons.mp hs with rfl | hs
      · have hrec : w'.mgr.state.tenantServiceRecord tenant.ID s.Name =
            some ((w₁.mgr.state.tenantRecordOrZero tenant.ID s.Name).recorded
              (w₁.clock.readings (w₁.clock.reads + 1)) d true none) := by
          rw [h7 _ hnot, g1, State.tenantServiceRecord_RecordTenantExecution]
        refine ⟨_, hrec, ?_, ?_, ?_⟩
        · simp [ServiceState.recorded]
        · simp [ServiceState.recorded, f1]
        · simp [ServiceState.recorded, f1]
      · have hne : s.Name ≠ s₀.Name := by
          intro heq
          apply hnot
          rw [← heq]
          exact List.mem_map_of_mem _ (List.mem_append_left _ hs)
        obtain ⟨rec, hr1, hr2, hr3, hr4⟩ := h5 s hs
        exact ⟨rec, hr1, hr2, by rw [hr3, hotherZ _ hne], by rw [hr4, hotherZ _ hne]⟩
    · have hne : svc.Name ≠ s₀.Name := by
        intro heq
        apply hnot
        rw [← heq]
        exact List.mem_map_of_mem _ (List.mem_append_right _ (List.mem_singleton_self _))
      obtain ⟨rec, hr1, hr2, hr3, hr4⟩ := h6
      exact ⟨rec, hr1, hr2, by rw [hr3, hotherZ _ hne], by rw [hr4, hotherZ _ hne]⟩
    · intro n hn
      simp only [List.cons_append, List.map_cons, List.mem_cons, not_or] at hn
      rw [h7 n hn.2, hother n hn.1]
    · rw [h8, g1, hc.1, f1]; simp; omega
    · rw [h9, g1, hc.2, f1]; simp
    · rw [h10, g2, f3]; simp; omega

/-- C14: for every tenant and every list of distinctly named services in which
the services of positions `0..k-1` succeed and the adapter operation of the
service at position `k` fails, `executeTenant` returns a result with
`Success = false` and an error text that holds the name of service `k`; from
a state without a record for the tenant, the store afterwards holds, under
the tenant, one success and no failure for each service before `k`, one
failure and no success for service `k`, and no record for any service after
`k`. The tenant record counts `k` successes and one failure, and `k + 1` saves
were made. -/
theorem Executor.executeTenant_stops_at_first_failing_service (e : Executor) (w : World)
    (tenant : Tenant) (services : List Service) (op : Operation) (k : Nat)
    (hk : k < services.length)
    (hdistinct : (services.map Service.Name).Nodup)
    (hbefore : ∀ (i : Nat) (hi : i < services.length), i < k →
      tenantServiceSucceeds e.registry op tenant services[i] = true)
    (hfails : tenantServiceFails e.registry op tenant services[k] = true)
    (hnew : w.mgr.state.tenantRecord tenant.ID = none) :
    ∃ (r : TenantResult) (w' : World),
      e.executeTenant w tenant services op = some (r, w') ∧
      r.TenantID = tenant.ID ∧ r.Success = false ∧
      (∃ detail, r.Error = "service " ++ services[k].Name ++ " failed: " ++ detail) ∧
      (∀ (i : Nat) (hi : i < services.length), i < k →
        ∃ rec, w'.mgr.state.tenantServiceRecord tenant.ID services[i].Name = some rec ∧
          rec.LastResult = "success" ∧ rec.SuccessCount = 1 ∧ rec.FailureCount = 0) ∧
      (∃ rec, w'.mgr.state.tenantServiceRecord tenant.ID services[k].Name = some rec ∧
        rec.LastResult = "failure" ∧ rec.SuccessCount = 0 ∧ rec.FailureCount = 1) ∧
      (∀ (j : Nat) (hj : j < services.length), k < j →
        w'.mgr.state.tenantServiceRecord tenant.ID services[j].Name = none) ∧
      (∃ tr, w'.mgr.state.tenantRecord tenant.ID = some tr ∧
        tr.SuccessCount = k ∧ tr.FailureCount = 1) ∧
      w'.saves = w.saves + k + 1 := by
  have hsplit : services = services.take k ++ services[k] :: services.drop (k + 1) := by
    rw [← List.drop_eq_getElem_cons hk, List.take_append_drop]
  have hlen : (services.take k).length = k := by
    rw [List.length_take]; omega
  have hnd : ((services.take k ++ [services[k]]).map Service.Name).Nodup := by
    have h := hdistinct
    rw [hsplit] at h
    simp only [List.map_append, List.map_cons] at h ⊢
    have h2 : (List.map Service.Name (List.take k services) ++ [services[k].Name]).Sublist
        (List.map Service.Name (List.take k services) ++
          services[k].Name :: List.map Service.Name (List.drop (k + 1) services)) :=
      List.Sublist.append_left (List.Sublist.cons₂ _ (List.nil_sublist _)) _
    simpa using h.sublist h2
  have hpre : ∀ s ∈ services.take k, tenantServiceSucceeds e.registry op tenant s = true := by
    intro s hs
    obtain ⟨i, hi, rfl⟩ := List.mem_iff_getElem.mp hs
    have hik : i < k := by
      have := hi; simp only [List.length_take] at this; omega
    have hil : i < services.length := by omega
    have := hbefore i hil hik
    simpa [List.getElem_take] using this
  have hzero : ∀ n, (w.Now).2.mgr.state.tenantRecordOrZero tenant.ID n = {} := by
    intro n
    have : (w.Now).2.mgr.state.tenantServiceRecord tenant.ID n = none := by
      show w.mgr.state.tenantServiceRecord tenant.ID n = none
      simp [State.tenantServiceRecord, hnew]
    simp [State.tenantRecordOrZero, this]
  have hnone : ∀ n, (w.Now).2.mgr.state.tenantServiceRecord tenant.ID n = none := by
    intro n
    show w.mgr.state.tenantServiceRecord tenant.ID n = none
    simp [State.tenantServiceRecord, hnew]
  have hnewT : (w.Now).2.mgr.state.tenantOrNew tenant.ID = { Services := some [] } := by
    show w.mgr.state.tenantOrNew tenant.ID = _
    simp [State.tenantOrNew, hnew]
  obtain ⟨r, w', hrun, h1, -, h3, h4, h5, h6, h7, h8, h9, h10⟩ :=
    Executor.tenantLoop_upto_failure e tenant op (w.Now).1 services.length
      { TenantID := tenant.ID, ServiceCount := services.length } services[k]
      (services.drop (k + 1)) hfails (services.take k) 0 (w.Now).2 hnd hpre
  rw [← hsplit] at hrun
  refine ⟨r, w', hrun, h1, h3, h4, ?_, ?_, ?_, ?_, ?_⟩
  · intro i hi hik
    have hmem : services[i] ∈ services.take k := by
      rw [List.mem_iff_getElem]
      exact ⟨i, by omega, by simp [List.getElem_take]⟩
    obtain ⟨rec, hr1, hr2, hr3, hr4⟩ := h5 _ hmem
    rw [hzero] at hr3 hr4
    exact ⟨rec, hr1, hr2, by simpa using hr3, by simpa using hr4⟩
  · obtain ⟨rec, hr1, hr2, hr3, hr4⟩ := h6
    rw [hzero] at hr3 hr4
    exact ⟨rec, hr1, hr2, by simpa using hr3, by simpa using hr4⟩
  · intro j hj hkj
    rw [h7, hnone]
    intro hmem
    rw [List.mem_map] at hmem
    obtain ⟨s, hs, hname⟩ := hmem
    have htk : services.take k ++ [services[k]] = services.take (k + 1) := by
      rw [List.take_succ, List.getElem?_eq_getElem hk]; rfl
    rw [htk, List.mem_iff_getElem] at hs
    obtain ⟨i, hi, rfl⟩ := hs
    have hik : i < k + 1 := by
      have := hi; simp only [List.length_take] at this; omega
    have hinj := (List.nodup_iff_injective_get.mp hdistinct)
    have hlm : (services.map Service.Name).length = services.length := List.length_map _ _
    have heq : (⟨i, by omega⟩ : Fin (services.map Service.Name).length) = ⟨j, by omega⟩ := by
      apply hinj
      simp only [List.get_eq_getElem, List.getElem_map]
      simpa [List.getElem_take] using hname
    have : i = j := by simpa using heq
    omega
  · obtain ⟨rec, hr1, -⟩ := h6
    cases htr : w'.mgr.state.tenantRecord tenant.ID with
    | none => simp [State.tenantServiceRecord, htr] at hr1
    | some tr =>
      have htn : w'.mgr.state.tenantOrNew tenant.ID = tr := by simp [State.tenantOrNew, htr]
      rw [htn, hnewT] at h8 h9
      exact ⟨tr, rfl, by simpa [hlen] using h8, by simpa using h9⟩
  · rw [h10, hlen]; rfl

/-- Witness for C14: the tenant `t1` and the three example services under
Deploy; `a` succeeds and the Deploy of `b` fails, so `k = 1`. -/
theorem Executor.executeTenant_stops_at_first_failing_service_witness :
    ∃ (r : TenantResult) (w' : World),
      (NewExecutor emptySource exampleRegistry false 2).executeTenant exampleWorld
        exampleTenant exampleServices OperationDeploy = some (r, w') ∧
      r.TenantID = "t1" ∧ r.Success = false ∧
      (∃ detail, r.Error = "service " ++ "b" ++ " failed: " ++ detail) ∧
      (∃ rec, w'.mgr.state.tenantServiceRecord "t1" "a" = some rec ∧
        rec.LastResult = "success" ∧ rec.SuccessCount = 1 ∧ rec.FailureCount = 0) ∧
      (∃ rec, w'.mgr.state.tenantServiceRecord "t1" "b" = some rec ∧
        rec.LastResult = "failure" ∧ rec.SuccessCount = 0 ∧ rec.FailureCount = 1) ∧
      w'.mgr.state.tenantServiceRecord "t1" "c" = none ∧
      w'.saves = 2 := by
  obtain ⟨r, w', h, h1, h2, h3, h4, h5, h6, -, h8⟩ :=
    Executor.executeTenant_stops_at_first_failing_service
      (NewExecutor emptySource exampleRegistry false 2) exampleWorld exampleTenant
      exampleServices OperationDeploy 1 (by decide) (by decide)
      (by
        intro i hi hik
        have h0 : i = 0 := by omega
        subst h0
        rfl)
      (by decide) (by decide)
  exact ⟨r, w', h, h1, h2, h3, h4 0 (by decide) (by decide), h5, h6 2 (by decide) (by decide),
    h8⟩

theorem Executor.tenantLoop_keeps_id_and_count (e : Executor) (tenant : Tenant)
    (op : Operation) (start : Time) (total : Int) (result : TenantResult) :
    ∀ (rest : List Service) (c : Int) (w : World) (r : TenantResult) (w' : World),
      e.tenantLoop tenant op start total result rest c w = some (r, w') →
      r.TenantID = result.TenantID ∧ r.ServiceCount = result.ServiceCount := by
  intro rest
  induction rest with
  | nil =>
    intro c w r w' h
    simp only [Executor.tenantLoop, Option.some.injEq, Prod.mk.injEq] at h
    rw [← h.1]
    exact ⟨rfl, rfl⟩
  | cons svc rest ih =>
    intro c w r w' h
    unfold Executor.tenantLoop at h
    cases hreg : e.registry.GetForService svc with
    | error msg =>
      simp only [hreg, Option.some.injEq, Prod.mk.injEq] at h
      rw [← h.1]
      exact ⟨rfl, rfl⟩
    | ok adp =>
      rcases hop : tenantOperation adp w svc tenant op with ⟨_ | res, _ | text, w₁⟩
      · simp [hreg, hop] at h
      · simp only [hreg, hop, Option.some.injEq, Prod.mk.injEq] at h
        rw [← h.1]
        exact ⟨rfl, rfl⟩
      · cases hs : res.Success
        · simp only [hreg, hop, hs, Bool.not_false, if_true, Option.some.injEq,
            Prod.mk.injEq] at h
          rw [← h.1]
          exact ⟨rfl, rfl⟩
        · simp only [hreg, hop, hs, Bool.not_true, Bool.false_eq_true, if_false] at h
          exact ih _ _ _ _ h
      · simp only [hreg, hop, Option.some.injEq, Prod.mk.injEq] at h
        rw [← h.1]
        exact ⟨rfl, rfl⟩

/-- C15 (counterexample): for the three example services under Deploy the
first failing service is `b`, at position 1, after one success; the result of
`executeTenant` has `ServiceCount = 3`, the length of the service list. -/
theorem Executor.executeTenant_ServiceCount_is_not_success_count :
    tenantServiceSucceeds exampleRegistry OperationDeploy exampleTenant
      { Name := "a", Type_ := "ok" } = true ∧
    tenantServiceFails exampleRegistry OperationDeploy exampleTenant
      { Name := "b", Type_ := "ok" } = true ∧
    ((NewExecutor emptySource exampleRegistry false 2).executeTenant exampleWorld
        exampleTenant exampleServices OperationDeploy).map
      (fun x => (x.1.Success, x.1.Error, x.1.ServiceCount,
        (x.2.mgr.state.tenantRecord "t1").map (fun t => t.SuccessCount))) =
      some (false, "service b failed: exit status 1", 3, some 1) := by
  decide

/-- C15 (amended): whatever the position of the first failing service, the
result `executeTenant` returns carries the tenant's ID and, in `ServiceCount`,
the length of the service list. -/
theorem Executor.executeTenant_ServiceCount_is_list_length (e : Executor) (w : World)
    (tenant : Tenant) (services : List Service) (op : Operation) (r : TenantResult)
    (w' : World) (h : e.executeTenant w tenant services op = some (r, w')) :
    r.ServiceCount = services.length ∧ r.TenantID = tenant.ID := by
  unfold Executor.executeTenant at h
  have := Executor.tenantLoop_keeps_id_and_count e tenant op _ _ _ _ _ _ _ _ h
  exact ⟨this.2, this.1⟩

/-- Witness for C15 (amended): the run of the counterexample. -/
theorem Executor.executeTenant_ServiceCount_is_list_length_witness :
    ∃ (r : TenantResult) (w' : World),
      (NewExecutor emptySource exampleRegistry false 2).executeTenant exampleWorld
        exampleTenant exampleServices OperationDeploy = some (r, w') ∧
      r.ServiceCount = 3 ∧ r.TenantID = "t1" := by
  have hsome : ((NewExecutor emptySource exampleRegistry false 2).executeTenant exampleWorld
      exampleTenant exampleServices OperationDeploy).isSome = true := by decide
  obtain ⟨⟨r, w'⟩, h⟩ := Option.isSome_iff_exists.mp hsome
  have hc := Executor.executeTenant_ServiceCount_is_list_length _ _ _ _ _ r w' h
  exact ⟨r, w', h, hc.1, hc.2⟩

/-- C16 (failing input): the service `c` has a type without adapter.
`executeTenant` attempts it, returns the failure result and writes no tenant
execution record: no save is made and the store has no record for the
tenant. -/
theorem Executor.executeTenant_unresolved_adapter_writes_no_record :
    ((NewExecutor emptySource exampleRegistry false 2).executeTenant exampleWorld
        exampleTenant [{ Name := "c", Type_ := "unknown" }] OperationDeploy).map
      (fun x => (x.1.Success, x.1.Error, x.2.saves, x.2.mgr.state.tenantRecord "t1",
        x.2.mgr.state.tenantServiceRecord "t1" "c")) =
      some (false, "failed to get adapter for service c: adapter 'unknown' not found", 0,
        none, none) := by
  decide

/-- The success of an operation for a tenant, read off what the `switch` of
`executeTenant` leaves. -/
theorem tenantOperationOK_eq (adp : Adapter) (w : World) (svc : Service) (tenant : Tenant)
    (op : Operation) :
    tenantOperationOK adp op tenant svc =
      match (tenantOperation adp w svc tenant op).1, (tenantOperation adp w svc tenant op).2.1 with
      | some r, none => r.Success
      | _, _ => false := by
  by_cases h1 : op = OperationDeploy
  · rcases hd : adp.Deploy svc (some tenant) with ⟨_ | r, _ | er⟩ <;>
      simp only [tenantOperationOK, tenantOperation, h1, hd, if_true]
  · by_cases h2 : op = OperationRollback
    · subst h2
      have h21 : ¬ OperationRollback = OperationDeploy := by decide
      rcases hd : adp.Rollback svc (some tenant) 1 with ⟨_ | r, _ | er⟩ <;>
        simp only [tenantOperationOK, tenantOperation, h21, hd, if_true, if_false]
    · simp only [tenantOperationOK, tenantOperation, h1, h2, if_false]

/-- When the loop of `executeTenant` returns, the result is a success exactly
when the count of successes so far and the services still to run add up to the
length of the list and every service still to run succeeds. -/
theorem Executor.tenantLoop_success_iff (e : Executor) (tenant : Tenant) (op : Operation)
    (start : Time) (total : Int) (result : TenantResult) :
    ∀ (rest : List Service) (c : Int) (w : World) (r : TenantResult) (w' : World),
      e.tenantLoop tenant op start total result rest c w = some (r, w') →
      (r.Success = true ↔
        (c + rest.length = total ∧
          ∀ s ∈ rest, tenantServiceSucceeds e.registry op tenant s = true)) := by
  intro rest
  induction rest with
  | nil =>
    intro c w r w' h
    simp only [Executor.tenantLoop, Option.some.injEq, Prod.mk.injEq] at h
    rw [← h.1]
    simp
  | cons svc rest ih =>
    intro c w r w' h
    unfold Executor.tenantLoop at h
    cases hreg : e.registry.GetForService svc with
    | error msg =>
      simp only [hreg, Option.some.injEq, Prod.mk.injEq] at h
      rw [← h.1]
      simp [tenantServiceSucceeds, hreg]
    | ok adp =>
      have hok := tenantOperationOK_eq adp w svc tenant op
      rcases hop : tenantOperation adp w svc tenant op with ⟨_ | res, _ | text, w₁⟩
      · simp [hreg, hop] at h
      · simp only [hreg, hop, Option.some.injEq, Prod.mk.injEq] at h
        rw [hop] at hok
        rw [← h.1]
        simp [tenantServiceSucceeds, hreg, hok]
      · rw [hop] at hok
        cases hs : res.Success
        · simp only [hreg, hop, hs, Bool.not_false, if_true, Option.some.injEq,
            Prod.mk.injEq] at h
          rw [← h.1]
          simp [tenantServiceSucceeds, hreg, hok, hs]
        · simp only [hreg, hop, hs, Bool.not_true, Bool.false_eq_true, if_false] at h
          rw [ih _ _ _ _ h]
          have hsvc : tenantServiceSucceeds e.registry op tenant svc = true := by
            simp [tenantServiceSucceeds, hreg, hok, hs]
          simp only [List.length_cons, List.mem_cons, forall_eq_or_imp, hsvc, true_and]
          constructor
          · rintro ⟨ha, hb⟩
            exact ⟨by push_cast; omega, hb⟩
          · rintro ⟨ha, hb⟩
            exact ⟨by push_cast at ha; omega, hb⟩
      · simp only [hreg, hop, Option.some.injEq, Prod.mk.injEq] at h
        rw [hop] at hok
        rw [← h.1]
        simp [tenantServiceSucceeds, hreg, hok]

/-- The loop of `executeTenant` over services that all succeed runs to its
end. -/
theorem Executor.tenantLoop_of_all_succeed (e : Executor) (tenant : Tenant) (op : Operation)
    (start : Time) (total : Int) (result : TenantResult) :
    ∀ (rest : List Service) (c : Int) (w : World),
      (∀ s ∈ rest, tenantServiceSucceeds e.registry op tenant s = true) →
      ∃ (r : TenantResult) (w' : World),
        e.tenantLoop tenant op start total result rest c w = some (r, w') ∧
        w'.saves = w.saves + rest.length := by
  intro rest
  induction rest with
  | nil =>
    intro c w _
    exact ⟨_, _, rfl, rfl⟩
  | cons svc rest ih =>
    intro c w hall
    obtain ⟨w₁, d, hrun, -, -, f3, -⟩ :=
      Executor.tenantLoop_cons_of_succeeds e tenant op start total result svc rest c w
        (hall svc (List.mem_cons_self _ _))
    obtain ⟨r, w', h, hsv⟩ := ih (c + 1) (w₁.RecordTenantExecution tenant.ID svc.Name true d none)
      (fun s hs => hall s (List.mem_cons_of_mem _ hs))
    refine ⟨r, w', by rw [hrun]; exact h, ?_⟩
    rw [hsv, (World.RecordTenantExecution_frame w₁ tenant.ID svc.Name true d none).2.1, f3]
    simp only [List.length_cons]
    omega

/-- C17: the result `executeTenant` returns has `Success = true` only if every
service of the list succeeded for the tenant (adapter resolved, no error,
`Success = true`), and whenever all of them did, the empty list included:
then `executeTenant` does return, with `Success = true`, after one record per
service. -/
theorem Executor.executeTenant_success_iff_all_succeed (e : Executor) (w : World)
    (tenant : Tenant) (services : List Service) (op : Operation) :
    (∀ (r : TenantResult) (w' : World), e.executeTenant w tenant services op = some (r, w') →
      (r.Success = true ↔
        ∀ s ∈ services, tenantServiceSucceeds e.registry op tenant s = true)) ∧
    ((∀ s ∈ services, tenantServiceSucceeds e.registry op tenant s = true) →
      ∃ (r : TenantResult) (w' : World),
        e.executeTenant w tenant services op = some (r, w') ∧ r.Success = true ∧
        w'.saves = w.saves + services.length) ∧
    (∃ (r : TenantResult) (w' : World),
      e.executeTenant w tenant [] op = some (r, w') ∧ r.Success = true) := by
  have hiff : ∀ (sv : List Service) (r : TenantResult) (w' : World),
      e.executeTenant w tenant sv op = some (r, w') →
      (r.Success = true ↔ ∀ s ∈ sv, tenantServiceSucceeds e.registry op tenant s = true) := by
    intro sv r w' h
    unfold Executor.executeTenant at h
    rw [Executor.tenantLoop_success_iff e tenant op _ _ _ _ _ _ _ _ h]
    simp
  have hall : ∀ (sv : List Service),
      (∀ s ∈ sv, tenantServiceSucceeds e.registry op tenant s = true) →
      ∃ (r : TenantResult) (w' : World),
        e.executeTenant w tenant sv op = some (r, w') ∧ r.Success = true ∧
        w'.saves = w.saves + sv.length := by
    intro sv hsv
    obtain ⟨r, w', h, hs⟩ :=
      Executor.tenantLoop_of_all_succeed e tenant op (w.Now).1 sv.length
        { TenantID := tenant.ID, ServiceCount := sv.length } sv 0 (w.Now).2 hsv
    exact ⟨r, w', h, (hiff sv r w' h).mpr hsv, hs⟩
  refine ⟨hiff services, hall services, ?_⟩
  obtain ⟨r, w', h, hs, -⟩ := hall [] (by simp)
  exact ⟨r, w', h, hs⟩

/-- Witness for C17: for the tenant `t1` under Deploy, the list of the service
`a` alone succeeds, and a returned result for the three example services is
not a success since `b` does not succeed. -/
theorem Executor.executeTenant_success_iff_all_succeed_witness :
    (∃ (r : TenantResult) (w' : World),
      (NewExecutor emptySource exampleRegistry false 2).executeTenant exampleWorld
        exampleTenant [{ Name := "a", Type_ := "ok" }] OperationDeploy = some (r, w') ∧
      r.Success = true ∧ w'.saves = 1) ∧
    (∀ (r : TenantResult) (w' : World),
      (NewExecutor emptySource exampleRegistry false 2).executeTenant exampleWorld
        exampleTenant exampleServices OperationDeploy = some (r, w') → r.Success ≠ true) :=
  ⟨(Executor.executeTenant_success_iff_all_succeed
      (NewExecutor emptySource exampleRegistry false 2) exampleWorld exampleTenant
      [{ Name := "a", Type_ := "ok" }] OperationDeploy).2.1 (by decide),
   fun r w' h hs =>
     absurd
       (((Executor.executeTenant_success_iff_all_succeed
         (NewExecutor emptySource exampleRegistry false 2) exampleWorld exampleTenant
         exampleServices OperationDeploy).1 r w' h).mp hs) (by decide)⟩

/-! ## Tenant executor: loading the tenants -/

theorem Executor.runSchedule_without_tenants (e : Executor) (services : List Service)
    (op : Operation) :
    ∀ (schedule : List Action) (st st' : TenantParState), st.pcs = [] →
      e.runSchedule [] services op schedule st = some st' →
      st'.world = st.world ∧ st'.results = st.results ∧ st'.pcs = [] ∧
      st'.panicked = st.panicked := by
  intro schedule
  induction schedule with
  | nil =>
    intro st st' hp h
    simp only [Executor.runSchedule, Option.some.injEq] at h
    subst h
    exact ⟨rfl, rfl, hp, rfl⟩
  | cons a rest ih =>
    intro st st' hp h
    simp only [Executor.runSchedule] at h
    cases a with
    | run i => simp [Executor.step, hp] at h
    | giveUp i => simp [Executor.step, hp] at h
    | cancelCaller =>
      cases hpan : st.panicked with
      | true => simp [Executor.step, hpan] at h
      | false =>
        simp only [Executor.step, hpan, Bool.false_eq_true, if_false] at h
        obtain ⟨h1, h2, h3, h4⟩ :=
          ih ⟨st.world, st.results, st.sem, true, st.failed, st.pcs, false⟩ st' hp h
        exact ⟨h1, h2, h3, h4⟩

/-- C13 (counterexample): a tenant source that returns an empty list and no
error. `Executor.Execute` returns an empty result list and a nil error; no
adapter is called and nothing is saved. -/
theorem Executor.Execute_of_empty_tenant_list_returns_no_error :
    ((NewExecutor emptySource exampleRegistry true 2).Execute exampleWorld exampleServices
        OperationDeploy []).map (fun x => (x.1.1, x.1.2, x.2.calls, x.2.saves)) =
      some ([], none, [], 0) := by
  decide

/-- C13 (amended): when the tenant source returns an error, `Execute` returns
the error "failed to load tenants: ..." and no result, and the world is what
it was: no adapter was invoked and the State Store is unchanged. When the
source returns an empty list and no error, `Execute` returns an empty result
list and a nil error under every schedule it can follow, the world again what
it was. -/
theorem Executor.Execute_without_tenants (e : Executor) (w : World) (services : List Service)
    (op : Operation) (schedule : List Action) :
    (∀ (tenants : List Tenant) (err : String), e.source.LoadTenants = (tenants, some err) →
      e.Execute w services op schedule =
        some (([], some ("failed to load tenants: " ++ err)), w)) ∧
    (e.source.LoadTenants = ([], none) →
      e.Execute w services op [] = some (([], none), w) ∧
      ∀ x, e.Execute w services op schedule = some x → x = (([], none), w)) := by
  refine ⟨?_, ?_⟩
  · intro tenants err h
    simp only [Executor.Execute, h]
  · intro h
    refine ⟨?_, ?_⟩
    · simp [Executor.Execute, h, Executor.runSchedule, TenantParState.init,
        TenantParState.finished, filterTenantResults]
    · intro x hx
      simp only [Executor.Execute, h, List.length_nil] at hx
      cases hrun : e.runSchedule [] services op schedule (TenantParState.init w 0) with
      | none => simp [hrun] at hx
      | some st =>
        obtain ⟨h1, h2, -, h4⟩ :=
          Executor.runSchedule_without_tenants e services op schedule _ st rfl hrun
        simp only [hrun] at hx
        split at hx
        · simp only [Option.some.injEq] at hx
          rw [← hx, h1, h2]
          rfl
        · simp at hx

/-- Witness for C13 (amended): a source that returns an error, and the source
that returns an empty list. -/
theorem Executor.Execute_without_tenants_witness :
    (NewExecutor failingSource exampleRegistry true 2).Execute exampleWorld exampleServices
        OperationDeploy [] =
      some (([], some ("failed to load tenants: " ++ "tenant file not found")),
        exampleWorld) ∧
    (NewExecutor emptySource exampleRegistry true 2).Execute exampleWorld exampleServices
        OperationDeploy [] = some (([], none), exampleWorld) :=
  ⟨(Executor.Execute_without_tenants (NewExecutor failingSource exampleRegistry true 2)
      exampleWorld exampleServices OperationDeploy []).1 [] "tenant file not found" rfl,
   ((Executor.Execute_without_tenants (NewExecutor emptySource exampleRegistry true 2)
      exampleWorld exampleServices OperationDeploy []).2 rfl).1⟩

/-! ## Parallel engine: the order of the results -/

theorem SequentialEngine.executeService_name (e : SequentialEngine) (w : World)
    (svc : Service) (op : Operation) (r : ServiceResult) (w' : World)
    (h : e.executeService w svc op = some (r, w')) : r.ServiceName = svc.Name := by
  unfold SequentialEngine.executeService at h
  cases hdry : e.dryRun with
  | true =>
    simp only [hdry, if_true, Option.some.injEq, Prod.mk.injEq] at h
    rw [← h.1]
  | false =>
    cases hreg : e.registry.GetForService svc with
    | error msg =>
      simp only [hdry, hreg, Bool.false_eq_true, if_false, Option.some.injEq,
        Prod.mk.injEq] at h
      rw [← h.1]
    | ok adp =>
      cases hop : executeOperation adp (w.Now).2 svc op with
      | none => simp [hdry, hreg, hop] at h
      | some x =>
        obtain ⟨res, err, w₁⟩ := x
        cases err with
        | some text =>
          cases res with
          | none =>
            simp only [hdry, hreg, hop, Bool.false_eq_true, if_false, Option.some.injEq,
              Prod.mk.injEq] at h
            rw [← h.1]
          | some r0 =>
            simp only [hdry, hreg, hop, Bool.false_eq_true, if_false, Option.some.injEq,
              Prod.mk.injEq] at h
            rw [← h.1]
        | none =>
          cases res with
          | none => simp [hdry, hreg, hop] at h
          | some r0 =>
            simp only [hdry, hreg, hop, Bool.false_eq_true, if_false, Option.some.injEq,
              Prod.mk.injEq] at h
            rw [← h.1]
            cases r0.Success <;> rfl

theorem ParState.Indexed.after_step {services : List Service} {st : ParState}
    (hI : st.Indexed services) (st' : ParState) (i : Nat) (new : TaskPC)
    (hpcs : st'.pcs = st.pcs.set i new)
    (hres : st'.results = st.results ∨
      ∃ r, st.pcs[i]? = some (TaskPC.executed r) ∧ st'.results = st.results.set i r)
    (hnew : ∀ r svc, new = TaskPC.executed r → services[i]? = some svc →
      r.ServiceName = svc.Name) :
    st'.Indexed services := by
  obtain ⟨h1, h2, h3⟩ := hI
  refine ⟨?_, ?_, ?_⟩
  · rcases hres with h | ⟨r, -, h⟩
    · rw [h, h1]
    · rw [h, List.length_set, h1]
  · intro j res svc hj hsvc
    rcases hres with h | ⟨r, hr, h⟩
    · rw [h] at hj
      exact h2 j res svc hj hsvc
    · rw [h] at hj
      rcases getElem?_set_some st.results i j r res hj with ⟨hji, hv⟩ | ⟨-, hold⟩
      · subst hji; subst hv
        exact Or.inr (h3 j res svc hr hsvc)
      · exact h2 j res svc hold hsvc
  · intro j r svc hj hsvc
    rw [hpcs] at hj
    rcases getElem?_set_some st.pcs i j new _ hj with ⟨hji, hv⟩ | ⟨-, hold⟩
    · subst hji
      exact hnew r svc hv.symm hsvc
    · exact h3 j r svc hold hsvc

/-- Every step of a run keeps `ParState.Indexed`. -/
theorem ParallelEngine.step_indexed (e : ParallelEngine) (services : List Service)
    (op : Operation) (st st' : ParState) (a : Action) (hI : st.Indexed services)
    (hstep : e.step services op st a = some st') : st'.Indexed services := by
  cases hp : st.panicked with
  | true => cases a <;> simp [ParallelEngine.step, hp] at hstep
  | false =>
    cases a with
    | cancelCaller =>
      simp only [ParallelEngine.step, hp, Bool.false_eq_true, if_false,
        Option.some.injEq] at hstep
      subst hstep
      exact hI
    | giveUp i =>
      simp only [ParallelEngine.step, hp, Bool.false_eq_true, if_false] at hstep
      split at hstep
      · split at hstep
        · simp only [Option.some.injEq] at hstep
          subst hstep
          exact hI.after_step _ i TaskPC.done rfl (Or.inl rfl) (fun _ _ h => by cases h)
        · simp at hstep
      · simp at hstep
    | run i =>
      simp only [ParallelEngine.step, hp, Bool.false_eq_true, if_false] at hstep
      cases hpc : st.pcs[i]? with
      | none => simp [hpc] at hstep
      | some pc =>
        cases hsv : services[i]? with
        | none => simp [hpc, hsv] at hstep
        | some svc =>
          cases pc with
          | waiting =>
            simp only [hpc, hsv] at hstep
            split at hstep
            · simp only [Option.some.injEq] at hstep
              subst hstep
              exact hI.after_step _ i TaskPC.admitted rfl (Or.inl rfl) (fun _ _ h => by cases h)
            · simp at hstep
          | admitted =>
            simp only [hpc, hsv] at hstep
            split at hstep <;>
            · simp only [Option.some.injEq] at hstep
              subst hstep
              exact hI.after_step _ i _ rfl (Or.inl rfl) (fun _ _ h => by cases h)
          | running =>
            simp only [hpc, hsv] at hstep
            cases hex : e.executeService st.world svc op with
            | none =>
              simp only [hex, Option.some.injEq] at hstep
              subst hstep
              exact hI
            | some x =>
              obtain ⟨r, w₁⟩ := x
              simp only [hex, Option.some.injEq] at hstep
              subst hstep
              refine hI.after_step _ i (TaskPC.executed r) rfl (Or.inl rfl) ?_
              intro r' svc' hr' hsvc'
              rw [hsv] at hsvc'
              simp only [Option.some.injEq, TaskPC.executed.injEq] at hsvc' hr'
              subst hsvc'; subst hr'
              rw [ParallelEngine.executeService_eq] at hex
              exact SequentialEngine.executeService_name _ _ _ _ _ _ hex
          | executed r =>
            simp only [hpc, hsv, Option.some.injEq] at hstep
            subst hstep
            exact hI.after_step _ i (TaskPC.stored r) rfl (Or.inr ⟨r, hpc, rfl⟩)
              (fun _ _ h => by cases h)
          | stored r =>
            simp only [hpc, hsv] at hstep
            split at hstep
            · split at hstep <;>
              · simp only [Option.some.injEq] at hstep
                subst hstep
                exact hI.after_step _ i _ rfl (Or.inl rfl) (fun _ _ h => by cases h)
            · simp only [Option.some.injEq] at hstep
              subst hstep
              exact hI.after_step _ i _ rfl (Or.inl rfl) (fun _ _ h => by cases h)
          | flagging =>
            simp only [hpc, hsv, Option.some.injEq] at hstep
            subst hstep
            exact hI.after_step _ i TaskPC.releasing rfl (Or.inl rfl) (fun _ _ h => by cases h)
          | releasing =>
            simp only [hpc, hsv, Option.some.injEq] at hstep
            subst hstep
            exact hI.after_step _ i TaskPC.done rfl (Or.inl rfl) (fun _ _ h => by cases h)
          | done => simp [hpc, hsv] at hstep

theorem ParallelEngine.runSchedule_indexed (e : ParallelEngine) (services : List Service)
    (op : Operation) (schedule : List Action) :
    ∀ (st st' : ParState), st.Indexed services →
      e.runSchedule services op schedule st = some st' → st'.Indexed services := by
  induction schedule with
  | nil =>
    intro st st' hI hrun
    simp only [ParallelEngine.runSchedule, Option.some.injEq] at hrun
    subst hrun
    exact hI
  | cons a rest ih =>
    intro st st' hI hrun
    simp only [ParallelEngine.runSchedule] at hrun
    cases hstep : e.step services op st a with
    | none => simp [hstep] at hrun
    | some st₁ =>
      simp only [hstep] at hrun
      exact ih st₁ st' (ParallelEngine.step_indexed e services op st st₁ a hI hstep) hrun

theorem ParState.init_indexed (w : World) (services : List Service) :
    (ParState.init w services.length).Indexed services := by
  refine ⟨by simp [ParState.init], ?_, ?_⟩
  · intro i res svc hres _
    left
    simp only [ParState.init, List.getElem?_replicate] at hres
    split at hres
    · simp only [Option.some.injEq] at hres
      rw [← hres]
    · simp at hres
  · intro i r svc hpc _
    simp only [ParState.init, List.getElem?_replicate] at hpc
    split at hpc <;> simp at hpc

/-- The elements a filter keeps sit at strictly increasing positions of the
list it is applied to. -/
theorem filter_positions {α : Type} (p : α → Bool) (l : List α) :
    ∃ idx : List Nat, idx.length = (l.filter p).length ∧ idx.Pairwise (· < ·) ∧
      (∀ i ∈ idx, i < l.length) ∧
      ∀ (j : Nat) (hj : j < idx.length) (hj' : j < (l.filter p).length),
        l[idx[j]]? = some (l.filter p)[j] := by
  induction l with
  | nil => exact ⟨[], by simp, List.Pairwise.nil, by simp, by simp⟩
  | cons a l ih =>
    obtain ⟨idx, h1, h2, h3, h4⟩ := ih
    have hmap : (idx.map (· + 1)).Pairwise (· < ·) :=
      List.Pairwise.map _ (fun _ _ h => Nat.succ_lt_succ h) h2
    cases hp : p a with
    | false =>
      refine ⟨idx.map (· + 1), ?_, hmap, ?_, ?_⟩
      · simp [List.filter, hp, h1]
      · intro i hi
        simp only [List.mem_map] at hi
        obtain ⟨i', hi', rfl⟩ := hi
        simp only [List.length_cons]
        exact Nat.succ_lt_succ (h3 i' hi')
      · intro j hj hj'
        have hj0 : j < idx.length := by simpa using hj
        have hj1 : j < (l.filter p).length := by omega
        have := h4 j hj0 hj1
        simp only [List.getElem_map, List.getElem?_cons_succ, List.filter, hp] at this ⊢
        exact this
    | true =>
      refine ⟨0 :: idx.map (· + 1), ?_, ?_, ?_, ?_⟩
      · simp [List.filter, hp, h1]
      · refine List.Pairwise.cons ?_ hmap
        intro i hi
        simp only [List.mem_map] at hi
        obtain ⟨i', -, rfl⟩ := hi
        exact Nat.succ_pos _
      · intro i hi
        rcases List.mem_cons.mp hi with rfl | hi
        · simp
        · simp only [List.mem_map] at hi
          obtain ⟨i', hi', rfl⟩ := hi
          simp only [List.length_cons]
          exact Nat.succ_lt_succ (h3 i' hi')
      · intro j hj hj'
        cases j with
        | zero => simp [List.filter, hp]
        | succ j =>
          have hj0 : j < idx.length := by simpa using hj
          have hj1 : j < (l.filter p).length := by omega
          have := h4 j hj0 hj1
          simp only [List.getElem_cons_succ, List.getElem_map, List.getElem?_cons_succ,
            List.filter, hp] at this ⊢
          exact this

/-- C19: for every result list `ParallelEngine.Execute` returns, whatever the
failure policy, the schedule and the subset of services that completed, there
is a strictly increasing mapping from the positions of the results to the
positions of the input such that each result carries the name of the input
service at the mapped position; the list is never longer than the input, and
the returned error is nil. -/
theorem ParallelEngine.Execute_results_in_input_order (e : ParallelEngine) (w : World)
    (services : List Service) (op : Operation) (schedule : List Action)
    (results : List ServiceResult) (err : Option String) (w' : World)
    (h : e.Execute w services op schedule = some ((results, err), w')) :
    results.length ≤ services.length ∧ err = none ∧
    ∃ f : Fin results.length → Fin services.length, StrictMono f ∧
      ∀ j : Fin results.length, (results.get j).ServiceName = (services.get (f j)).Name := by
  unfold ParallelEngine.Execute at h
  cases hrun : e.runSchedule services op schedule (ParState.init w services.length) with
  | none => simp [hrun] at h
  | some st =>
    simp only [hrun] at h
    split at h
    · simp only [Option.some.injEq, Prod.mk.injEq] at h
      obtain ⟨⟨hres, herr⟩, -⟩ := h
      obtain ⟨hlen, hslot, -⟩ :=
        ParallelEngine.runSchedule_indexed e services op schedule _ st
          (ParState.init_indexed w services) hrun
      obtain ⟨idx, h1, h2, h3, h4⟩ :=
        filter_positions (fun r : ServiceResult => r.ServiceName != "") st.results
      subst hres
      refine ⟨?_, herr.symm, ?_⟩
      · rw [← hlen]
        exact List.length_filter_le _ _
      · have hb : ∀ j : Fin (filterResults st.results).length, j.1 < idx.length := by
          intro j
          rw [h1]
          exact j.2
        have hb' : ∀ j : Fin (filterResults st.results).length,
            idx.get ⟨j.1, hb j⟩ < services.length := by
          intro j
          rw [← hlen]
          exact h3 _ (List.get_mem _ _ _)
        refine ⟨fun j => ⟨idx.get ⟨j.1, hb j⟩, hb' j⟩, ?_, ?_⟩
        · intro j k hjk
          exact List.pairwise_iff_getElem.mp h2 j.1 k.1 (hb j) (hb k) hjk
        · intro j
          have hget := h4 j.1 (hb j) j.2
          have hmem : (filterResults st.results).get j ∈ filterResults st.results :=
            List.get_mem _ _ _
          have hname : ((filterResults st.results).get j).ServiceName ≠ "" := by
            have := (List.mem_filter.mp hmem).2
            simpa using this
          have hsv : services[idx.get ⟨j.1, hb j⟩]? =
              some (services.get ⟨idx.get ⟨j.1, hb j⟩, hb' j⟩) :=
            List.getElem?_eq_getElem (hb' j)
          rcases hslot _ _ _ hget hsv with h0 | h0
          · exact absurd h0 hname
          · exact h0
    · simp at h

/-- Witness for C19: the three example services with stop-on-failure on, under
a schedule in which `b` fails first and `a` and `c` are skipped: the one
result returned is that of `b`, the service of position 1. -/
theorem ParallelEngine.Execute_results_in_input_order_witness :
    ∃ (results : List ServiceResult) (err : Option String) (w' : World),
      (NewParallelEngine exampleRegistry true false 2).Execute exampleWorld exampleServices
        OperationDeploy stopSchedule = some ((results, err), w') ∧
      results.map ServiceResult.ServiceName = ["b"] ∧
      results.length ≤ exampleServices.length ∧ err = none ∧
      ∃ f : Fin results.length → Fin exampleServices.length, StrictMono f ∧
        ∀ j : Fin results.length,
          (results.get j).ServiceName = (exampleServices.get (f j)).Name := by
  have hsome : ((NewParallelEngine exampleRegistry true false 2).Execute exampleWorld
      exampleServices OperationDeploy stopSchedule).isSome = true := by decide
  have hmap : ((NewParallelEngine exampleRegistry true false 2).Execute exampleWorld
      exampleServices OperationDeploy stopSchedule).map
        (fun x => x.1.1.map ServiceResult.ServiceName) = some ["b"] := by decide
  obtain ⟨⟨⟨results, err⟩, w'⟩, h⟩ := Option.isSome_iff_exists.mp hsome
  rw [h] at hmap
  exact ⟨results, err, w', h, by simpa using hmap,
    ParallelEngine.Execute_results_in_input_order _ _ _ _ _ results err w' h⟩

/-! ## Nil results -/

/-- Every step of a parallel run keeps the semaphore count equal to the number
of goroutines holding a slot, and at most the ceiling. -/
theorem ParallelEngine.step_gate (e : ParallelEngine) (services : List Service)
    (op : Operation) (st st' : ParState) (a : Action)
    (hsem : st.sem = st.slotsHeld) (hle : (st.sem : Int) ≤ e.maxParallel)
    (hstep : e.step services op st a = some st') :
    st'.sem = st'.slotsHeld ∧ (st'.sem : Int) ≤ e.maxParallel := by
  have key : ∀ (i : Nat) (old new : TaskPC), st.pcs[i]? = some old →
      old.holds = new.holds →
      st.sem = (st.pcs.set i new).countP TaskPC.holds := by
    intro i old new hpc hh
    have := countP_set_of_getElem? TaskPC.holds st.pcs i new old hpc
    rw [hh] at this
    simp only [ParState.slotsHeld] at hsem
    omega
  cases hp : st.panicked with
  | true => cases a <;> simp [ParallelEngine.step, hp] at hstep
  | false =>
    cases a with
    | cancelCaller =>
      simp only [ParallelEngine.step, hp, Bool.false_eq_true, if_false,
        Option.some.injEq] at hstep
      subst hstep
      exact ⟨hsem, hle⟩
    | giveUp i =>
      simp only [ParallelEngine.step, hp, Bool.false_eq_true, if_false] at hstep
      cases hpc : st.pcs[i]? with
      | none => simp [hpc] at hstep
      | some pc =>
        cases pc with
        | waiting =>
          simp only [hpc] at hstep
          split at hstep
          · simp only [Option.some.injEq] at hstep
            subst hstep
            exact ⟨key i TaskPC.waiting TaskPC.done hpc rfl, hle⟩
          · simp at hstep
        | _ => simp [hpc] at hstep
    | run i =>
      simp only [ParallelEngine.step, hp, Bool.false_eq_true, if_false] at hstep
      cases hpc : st.pcs[i]? with
      | none => simp [hpc] at hstep
      | some pc =>
        cases hsv : services[i]? with
        | none => simp [hpc, hsv] at hstep
        | some svc =>
          cases pc with
          | waiting =>
            simp only [hpc, hsv] at hstep
            split at hstep
            · rename_i hlt
              simp only [Option.some.injEq] at hstep
              subst hstep
              have := countP_set_of_getElem? TaskPC.holds st.pcs i TaskPC.admitted
                TaskPC.waiting hpc
              simp only [TaskPC.holds, Bool.false_eq_true, if_false, if_true] at this
              simp only [ParState.slotsHeld] at hsem ⊢
              refine ⟨by omega, ?_⟩
              push_cast
              omega
            · simp at hstep
          | admitted =>
            simp only [hpc, hsv] at hstep
            split at hstep <;>
            · simp only [Option.some.injEq] at hstep
              subst hstep
              exact ⟨key i TaskPC.admitted _ hpc rfl, hle⟩
          | running =>
            simp only [hpc, hsv] at hstep
            cases hex : e.executeService st.world svc op with
            | none =>
              simp only [hex, Option.some.injEq] at hstep
              subst hstep
              exact ⟨hsem, hle⟩
            | some x =>
              obtain ⟨r, w₁⟩ := x
              simp only [hex, Option.some.injEq] at hstep
              subst hstep
              exact ⟨key i TaskPC.running _ hpc rfl, hle⟩
          | executed r =>
            simp only [hpc, hsv, Option.some.injEq] at hstep
            subst hstep
            exact ⟨key i (TaskPC.executed r) _ hpc rfl, hle⟩
          | stored r =>
            simp only [hpc, hsv] at hstep
            split at hstep
            · split at hstep <;>
              · simp only [Option.some.injEq] at hstep
                subst hstep
                exact ⟨key i (TaskPC.stored r) _ hpc rfl, hle⟩
            · simp only [Option.some.injEq] at hstep
              subst hstep
              exact ⟨key i (TaskPC.stored r) _ hpc rfl, hle⟩
          | flagging =>
            simp only [hpc, hsv, Option.some.injEq] at hstep
            subst hstep
            exact ⟨key i TaskPC.flagging _ hpc rfl, hle⟩
          | releasing =>
            simp only [hpc, hsv, Option.some.injEq] at hstep
            subst hstep
            have := countP_set_of_getElem? TaskPC.holds st.pcs i TaskPC.done
              TaskPC.releasing hpc
            simp only [TaskPC.holds, Bool.false_eq_true, if_false, if_true] at this
            simp only [ParState.slotsHeld] at hsem ⊢
            refine ⟨by omega, ?_⟩
            have : ((st.sem - 1 : Nat) : Int) ≤ (st.sem : Int) := by omega
            exact le_trans this hle
          | done => simp [hpc, hsv] at hstep

theorem ParallelEngine.runSchedule_gate (e : ParallelEngine) (services : List Service)
    (op : Operation) (schedule : List Action) :
    ∀ (st st' : ParState), st.sem = st.slotsHeld → (st.sem : Int) ≤ e.maxParallel →
      e.runSchedule services op schedule st = some st' →
      st'.sem = st'.slotsHeld ∧ (st'.sem : Int) ≤ e.maxParallel := by
  induction schedule with
  | nil =>
    intro st st' h1 h2 hrun
    simp only [ParallelEngine.runSchedule, Option.some.injEq] at hrun
    subst hrun
    exact ⟨h1, h2⟩
  | cons a rest ih =>
    intro st st' h1 h2 hrun
    simp only [ParallelEngine.runSchedule] at hrun
    cases hstep : e.step services op st a with
    | none => simp [hstep] at hrun
    | some st₁ =>
      simp only [hstep] at hrun
      obtain ⟨g1, g2⟩ := ParallelEngine.step_gate e services op st st₁ a h1 h2 hstep
      exact ih st₁ st' g1 g2 hrun

/-- Every step of a tenant run keeps the semaphore count equal to the number of
goroutines holding a slot, and at most the ceiling. -/
theorem Executor.step_gate_tenant (e : Executor) (tenants : List Tenant) (services : List Service)
    (op : Operation) (st st' : TenantParState) (a : Action)
    (hsem : st.sem = st.slotsHeld) (hle : (st.sem : Int) ≤ e.maxParallel)
    (hstep : e.step tenants services op st a = some st') :
    st'.sem = st'.slotsHeld ∧ (st'.sem : Int) ≤ e.maxParallel := by
  have key : ∀ (i : Nat) (old new : TenantPC), st.pcs[i]? = some old →
      old.holds = new.holds →
      st.sem = (st.pcs.set i new).countP TenantPC.holds := by
    intro i old new hpc hh
    have := countP_set_of_getElem? TenantPC.holds st.pcs i new old hpc
    rw [hh] at this
    simp only [TenantParState.slotsHeld] at hsem
    omega
  cases hp : st.panicked with
  | true => cases a <;> simp [Executor.step, hp] at hstep
  | false =>
    cases a with
    | cancelCaller =>
      simp only [Executor.step, hp, Bool.false_eq_true, if_false,
        Option.some.injEq] at hstep
      subst hstep
      exact ⟨hsem, hle⟩
    | giveUp i =>
      simp only [Executor.step, hp, Bool.false_eq_true, if_false] at hstep
      cases hpc : st.pcs[i]? with
      | none => simp [hpc] at hstep
      | some pc =>
        cases pc with
        | waiting =>
          simp only [hpc] at hstep
          split at hstep
          · simp only [Option.some.injEq] at hstep
            subst hstep
            exact ⟨key i TenantPC.waiting TenantPC.done hpc rfl, hle⟩
          · simp at hstep
        | _ => simp [hpc] at hstep
    | run i =>
      simp only [Executor.step, hp, Bool.false_eq_true, if_false] at hstep
      cases hpc : st.pcs[i]? with
      | none => simp [hpc] at hstep
      | some pc =>
        cases hsv : tenants[i]? with
        | none => simp [hpc, hsv] at hstep
        | some svc =>
          cases pc with
          | waiting =>
            simp only [hpc, hsv] at hstep
            split at hstep
            · rename_i hlt
              simp only [Option.some.injEq] at hstep
              subst hstep
              have := countP_set_of_getElem? TenantPC.holds st.pcs i TenantPC.admitted
                TenantPC.waiting hpc
              simp only [TenantPC.holds, Bool.false_eq_true, if_false, if_true] at this
              simp only [TenantParState.slotsHeld] at hsem ⊢
              refine ⟨by omega, ?_⟩
              push_cast
              omega
            · simp at hstep
          | admitted =>
            simp only [hpc, hsv] at hstep
            split at hstep <;>
            · simp only [Option.some.injEq] at hstep
              subst hstep
              exact ⟨key i TenantPC.admitted _ hpc rfl, hle⟩
          | running =>
            simp only [hpc, hsv] at hstep
            cases hex : e.executeTenant st.world svc services op with
            | none =>
              simp only [hex, Option.some.injEq] at hstep
              subst hstep
              exact ⟨hsem, hle⟩
            | some x =>
              obtain ⟨r, w₁⟩ := x
              simp only [hex, Option.some.injEq] at hstep
              subst hstep
              exact ⟨key i TenantPC.running _ hpc rfl, hle⟩
          | executed r =>
            simp only [hpc, hsv, Option.some.injEq] at hstep
            subst hstep
            exact ⟨key i (TenantPC.executed r) _ hpc rfl, hle⟩
          | stored r =>
            simp only [hpc, hsv] at hstep
            split at hstep
            · split at hstep <;>
              · simp only [Option.some.injEq] at hstep
                subst hstep
                exact ⟨key i (TenantPC.stored r) _ hpc rfl, hle⟩
            · simp only [Option.some.injEq] at hstep
              subst hstep
              exact ⟨key i (TenantPC.stored r) _ hpc rfl, hle⟩
          | flagging =>
            simp only [hpc, hsv, Option.some.injEq] at hstep
            subst hstep
            exact ⟨key i TenantPC.flagging _ hpc rfl, hle⟩
          | releasing =>
            simp only [hpc, hsv, Option.some.injEq] at hstep
            subst hstep
            have := countP_set_of_getElem? TenantPC.holds st.pcs i TenantPC.done
              TenantPC.releasing hpc
            simp only [TenantPC.holds, Bool.false_eq_true, if_false, if_true] at this
            simp only [TenantParState.slotsHeld] at hsem ⊢
            refine ⟨by omega, ?_⟩
            have : ((st.sem - 1 : Nat) : Int) ≤ (st.sem : Int) := by omega
            exact le_trans this hle
          | done => simp [hpc, hsv] at hstep

theorem Executor.runSchedule_gate_tenant (e : Executor) (tenants : List Tenant) (services : List Service)
    (op : Operation) (schedule : List Action) :
    ∀ (st st' : TenantParState), st.sem = st.slotsHeld → (st.sem : Int) ≤ e.maxParallel →
      e.runSchedule tenants services op schedule st = some st' →
      st'.sem = st'.slotsHeld ∧ (st'.sem : Int) ≤ e.maxParallel := by
  induction schedule with
  | nil =>
    intro st st' h1 h2 hrun
    simp only [Executor.runSchedule, Option.some.injEq] at hrun
    subst hrun
    exact ⟨h1, h2⟩
  | cons a rest ih =>
    intro st st' h1 h2 hrun
    simp only [Executor.runSchedule] at hrun
    cases hstep : e.step tenants services op st a with
    | none => simp [hstep] at hrun
    | some st₁ =>
      simp only [hstep] at hrun
      obtain ⟨g1, g2⟩ := Executor.step_gate_tenant e tenants services op st st₁ a h1 h2 hstep
      exact ih st₁ st' g1 g2 hrun

/-- C25: in every state a `ParallelEngine.Execute` run with ceiling `N` can
reach, under every schedule of its goroutines (every interleaving, cancellation
by the caller included) and every failure policy, the number of goroutines
that have been admitted through the semaphore and have not yet returned is the
count of the semaphore and is at most `N`; likewise for the tenant goroutines
of `Executor.Execute`. The states reached by the prefixes of a schedule are
the states at the instants of the run. -/
theorem Execute_in_flight_at_most_ceiling (e : ParallelEngine) (x : Executor) (w : World)
    (services : List Service) (tenants : List Tenant) (op : Operation)
    (schedule : List Action) (he : 0 ≤ e.maxParallel) (hx : 0 ≤ x.maxParallel) :
    (∀ st, e.runSchedule services op schedule (ParState.init w services.length) = some st →
      st.sem = st.slotsHeld ∧ (st.slotsHeld : Int) ≤ e.maxParallel) ∧
    (∀ st, x.runSchedule tenants services op schedule
        (TenantParState.init w tenants.length) = some st →
      st.sem = st.slotsHeld ∧ (st.slotsHeld : Int) ≤ x.maxParallel) := by
  constructor
  · intro st hrun
    have h0 : (ParState.init w services.length).sem =
        (ParState.init w services.length).slotsHeld := by
      simp [ParState.init, ParState.slotsHeld, List.countP_replicate, TaskPC.holds]
    obtain ⟨h1, h2⟩ := ParallelEngine.runSchedule_gate e services op schedule _ st h0
      (by simpa [ParState.init] using he) hrun
    exact ⟨h1, by rw [← h1]; exact h2⟩
  · intro st hrun
    have h0 : (TenantParState.init w tenants.length).sem =
        (TenantParState.init w tenants.length).slotsHeld := by
      simp [TenantParState.init, TenantParState.slotsHeld, List.countP_replicate,
        TenantPC.holds]
    obtain ⟨h1, h2⟩ := Executor.runSchedule_gate_tenant x tenants services op schedule _ st h0
      (by simpa [TenantParState.init] using hx) hrun
    exact ⟨h1, by rw [← h1]; exact h2⟩

/-- Witness for C25: the three example services under a ceiling of two. Once
`a` and `b` are admitted two slots are held and `c` cannot be admitted. -/
theorem Execute_in_flight_at_most_ceiling_witness :
    (∃ st, (NewParallelEngine exampleRegistry true false 2).runSchedule exampleServices
        OperationDeploy [Action.run 0, Action.run 1]
        (ParState.init exampleWorld exampleServices.length) = some st ∧
      st.slotsHeld = 2 ∧ (st.slotsHeld : Int) ≤ 2) ∧
    ((NewParallelEngine exampleRegistry true false 2).runSchedule exampleServices
        OperationDeploy [Action.run 0, Action.run 1, Action.run 2]
        (ParState.init exampleWorld exampleServices.length)).isSome = false := by
  have hsome : ((NewParallelEngine exampleRegistry true false 2).runSchedule exampleServices
      OperationDeploy [Action.run 0, Action.run 1]
      (ParState.init exampleWorld exampleServices.length)).isSome = true := by decide
  have hheld : ((NewParallelEngine exampleRegistry true false 2).runSchedule exampleServices
      OperationDeploy [Action.run 0, Action.run 1]
      (ParState.init exampleWorld exampleServices.length)).map ParState.slotsHeld =
        some 2 := by decide
  obtain ⟨st, h⟩ := Option.isSome_iff_exists.mp hsome
  rw [h] at hheld
  refine ⟨⟨st, h, by simpa using hheld, ?_⟩, by decide⟩
  exact ((Execute_in_flight_at_most_ceiling (NewParallelEngine exampleRegistry true false 2)
    (NewExecutor emptySource exampleRegistry true 2) exampleWorld exampleServices []
    OperationDeploy [Action.run 0, Action.run 1] (by decide) (by decide)).1 st h).2

/-! ## The counters of a tenant record -/

theorem Map.sum_set {V : Type} (f : V → Int) (zero : V) (hz : f zero = 0) (m : Map V)
    (k : String) (v : V) :
    ((Map.set m k v).map (fun kv => f kv.2)).sum + f ((Map.get m k).getD zero) =
      (m.map (fun kv => f kv.2)).sum + f v := by
  induction m with
  | nil => simp [Map.set, Map.get, hz]
  | cons hd tl ih =>
    obtain ⟨k', v'⟩ := hd
    by_cases h : k' = k
    · simp only [Map.set, Map.get, h, if_true, List.map_cons, List.sum_cons, Option.getD_some]
      omega
    · simp only [Map.set, Map.get, h, if_false, List.map_cons, List.sum_cons]
      omega

theorem Map.keys_set {V : Type} (m : Map V) (k : String) (v : V) :
    (Map.set m k v).map (fun kv => kv.1) =
      if (Map.get m k).isSome then m.map (fun kv => kv.1) else m.map (fun kv => kv.1) ++ [k] := by
  induction m with
  | nil => simp [Map.set, Map.get]
  | cons hd tl ih =>
    obtain ⟨k', v'⟩ := hd
    by_cases h : k' = k
    · simp [Map.set, Map.get, h]
    · simp only [Map.set, Map.get, h, if_false, List.map_cons, ih]
      split <;> simp

theorem Map.get_eq_none_iff {V : Type} (m : Map V) (k : String) :
    Map.get m k = none ↔ k ∉ m.map (fun kv => kv.1) := by
  induction m with
  | nil => simp [Map.get]
  | cons hd tl ih =>
    obtain ⟨k', v'⟩ := hd
    by_cases h : k' = k
    · simp [Map.get, h]
    · simp only [Map.get, h, if_false, ih, List.map_cons, List.mem_cons, not_or]
      constructor
      · intro h2
        exact ⟨fun h3 => h h3.symm, h2⟩
      · intro h2
        exact h2.2

theorem Map.nodup_keys_set {V : Type} (m : Map V) (k : String) (v : V)
    (h : (m.map (fun kv => kv.1)).Nodup) : ((Map.set m k v).map (fun kv => kv.1)).Nodup := by
  rw [Map.keys_set]
  cases hg : Map.get m k with
  | some x => simpa using h
  | none =>
    simp only [Option.isSome_none, Bool.false_eq_true, if_false]
    have hk := (Map.get_eq_none_iff m k).mp hg
    rw [List.nodup_append]
    refine ⟨h, List.nodup_singleton k, ?_⟩
    intro a ha hb
    simp only [List.mem_singleton] at hb
    subst hb
    exact hk ha

theorem State.tenantRecordOrZero_eq (s : State) (tenantID name : String) :
    s.tenantRecordOrZero tenantID name =
      (Map.get ((s.tenantOrNew tenantID).Services.getD []) name).getD {} := by
  unfold State.tenantRecordOrZero State.tenantServiceRecord State.tenantOrNew
  cases ht : s.tenantRecord tenantID with
  | none => simp [Map.get]
  | some t => cases hm : t.Services <;> simp [Map.get, hm]

theorem State.tenantOrNew_agrees (s : State) (tenantID : String) (h : s.TenantCountsAgree) :
    (s.tenantOrNew tenantID).SuccessCount = (s.tenantOrNew tenantID).successSum ∧
    (s.tenantOrNew tenantID).FailureCount = (s.tenantOrNew tenantID).failureSum ∧
    (((s.tenantOrNew tenantID).Services.getD []).map (fun kv => kv.1)).Nodup := by
  unfold State.tenantOrNew
  cases ht : s.tenantRecord tenantID with
  | none => simp [TenantState.successSum, TenantState.failureSum]
  | some t => simpa using h tenantID t ht

/-- `RecordTenantExecution` keeps the counters of every tenant record equal to
the sums over its nested service records. -/
theorem State.tenantCountsAgree_RecordTenantExecution (s : State) (tenantID name : String)
    (success : Bool) (duration : Duration) (err : Option String) (clk : Clock)
    (h : s.TenantCountsAgree) :
    (s.RecordTenantExecution tenantID name success duration err clk).1.TenantCountsAgree := by
  intro id t ht
  by_cases hid : id = tenantID
  · subst hid
    rw [State.tenantRecord_RecordTenantExecution] at ht
    simp only [Option.some.injEq] at ht
    obtain ⟨h1, h2, h3⟩ := State.tenantOrNew_agrees s id h
    have hS := Map.sum_set (fun r : ServiceState => r.SuccessCount) {} rfl
      ((s.tenantOrNew id).Services.getD []) name
      ((s.tenantRecordOrZero id name).recorded (clk.readings (clk.reads + 1)) duration
        success err)
    have hF := Map.sum_set (fun r : ServiceState => r.FailureCount) {} rfl
      ((s.tenantOrNew id).Services.getD []) name
      ((s.tenantRecordOrZero id name).recorded (clk.readings (clk.reads + 1)) duration
        success err)
    rw [← State.tenantRecordOrZero_eq] at hS hF
    simp only [TenantState.successSum, TenantState.failureSum] at h1 h2
    rw [← ht]
    simp only [TenantState.successSum, TenantState.failureSum, Option.getD_some]
    refine ⟨?_, ?_, Map.nodup_keys_set _ _ _ h3⟩
    · cases success <;> simp [ServiceState.recorded] at hS ⊢ <;> omega
    · cases success <;> simp [ServiceState.recorded] at hF ⊢ <;> omega
  · rw [State.tenantRecord_RecordTenantExecution_of_ne s tenantID name id success duration
      err clk hid] at ht
    exact h id t ht

theorem State.tenantRecord_RecordServiceExecution (s : State) (name id : String)
    (success : Bool) (duration : Duration) (err : Option String) (clk : Clock) :
    (s.RecordServiceExecution name success duration err clk).1.tenantRecord id =
      s.tenantRecord id := by
  simp only [State.tenantRecord, State.Tenants_RecordServiceExecution]

theorem State.tenantCountsAgree_callAll (calls : List RecordCall) :
    ∀ (s : State) (clk : Clock), s.TenantCountsAgree →
      (s.callAll calls clk).1.TenantCountsAgree := by
  induction calls with
  | nil => intro s clk h; exact h
  | cons c rest ih =>
    intro s clk h
    simp only [State.callAll]
    apply ih
    cases c with
    | service n ok d e =>
      intro id t ht
      simp only [State.call] at ht
      rw [State.tenantRecord_RecordServiceExecution] at ht
      exact h id t ht
    | tenant tn n ok d e =>
      exact State.tenantCountsAgree_RecordTenantExecution s tn n ok d e clk h

/-- C28: in every state reached from `NewState` by a sequence of
`RecordServiceExecution` and `RecordTenantExecution` calls, each tenant
record's `SuccessCount` is the sum of `SuccessCount` over its nested service
records and its `FailureCount` the sum of their `FailureCount` (the nested
records sit under pairwise distinct names); and `RecordTenantExecution`, on
whatever state, leaves the top-level service records as they were. -/
theorem State.tenant_counters_are_sums_of_nested_records (calls : List RecordCall)
    (clk : Clock) :
    (∀ (id : String) (t : TenantState),
      (NewState.callAll calls clk).1.tenantRecord id = some t →
      t.SuccessCount = t.successSum ∧ t.FailureCount = t.failureSum ∧
      ((t.Services.getD []).map (fun kv => kv.1)).Nodup) ∧
    (∀ (s : State) (tenantID name : String) (success : Bool) (duration : Duration)
      (err : Option String) (c : Clock),
      (s.RecordTenantExecution tenantID name success duration err c).1.Services = s.Services ∧
      ∀ n, (s.RecordTenantExecution tenantID name success duration err c).1.serviceRecord n =
        s.serviceRecord n) := by
  refine ⟨?_, ?_⟩
  · have h0 : NewState.TenantCountsAgree := by
      intro id t ht
      simp [State.tenantRecord, NewState, Map.get] at ht
    exact State.tenantCountsAgree_callAll calls NewState clk h0
  · intro s tenantID name success duration err c
    have hS := State.Services_RecordTenantExecution s tenantID name success duration err c
    exact ⟨hS, fun n => by simp only [State.serviceRecord, hS]⟩

/-! ## The adapter registry -/

theorem Registry.Get_Register_self (r : Registry) (name : String) (a : Adapter) :
    (r.Register name a).Get name = Except.ok a := by
  simp [Registry.Get, Registry.Register, Map.get_set_self]

theorem Registry.Get_Register_of_ne (r : Registry) (name n : String) (a : Adapter)
    (h : n ≠ name) : (r.Register name a).Get n = r.Get n := by
  simp [Registry.Get, Registry.Register, Map.get_set_of_ne _ _ _ _ h]

theorem Registry.Get_registerAll (regs : List (String × Adapter)) :
    ∀ (r : Registry) (name : String),
      (r.registerAll regs).Get name =
        match regs.reverse.find? (fun p => p.1 == name) with
        | some p => Except.ok p.2
        | none => r.Get name := by
  induction regs with
  | nil => intro r name; simp [Registry.registerAll]
  | cons hd tl ih =>
    intro r name
    obtain ⟨n, a⟩ := hd
    simp only [Registry.registerAll, ih, List.reverse_cons, List.find?_append]
    cases hf : tl.reverse.find? (fun p => p.1 == name) with
    | some p => simp
    | none =>
      by_cases hn : n = name
      · subst hn
        simp [Registry.Get_Register_self]
      · have hn' : name ≠ n := fun h => hn h.symm
        simp [hn, Registry.Get_Register_of_ne _ _ _ _ hn']

theorem NewDefaultRegistry_Get (host : Host) (name : String) :
    (NewDefaultRegistry host).Get name =
      if name = "django" then Except.ok (NewDjangoAdapter.toAdapter host)
      else if name = "laravel" then Except.ok (NewLaravelAdapter.toAdapter host)
      else if name = "prisma" then Except.ok (NewPrismaAdapter.toAdapter host)
      else Except.error ("adapter '" ++ name ++ "' not found") := by
  by_cases h1 : name = "django"
  · subst h1; rfl
  · by_cases h2 : name = "laravel"
    · subst h2; rfl
    · by_cases h3 : name = "prisma"
      · subst h3; rfl
      · have g1 : ¬ "django" = name := fun h => h1 h.symm
        have g2 : ¬ "laravel" = name := fun h => h2 h.symm
        have g3 : ¬ "prisma" = name := fun h => h3 h.symm
        simp [NewDefaultRegistry, NewRegistry, Registry.Register, Registry.Get, Map.set,
          Map.get, h1, h2, h3, g1, g2, g3]

/-- C22: `Get(name)` returns, with a nil error, the adapter most recently
registered under `name`: the one just registered, and after any sequence of
`Register` calls on a new registry the last one of the sequence given under
`name`. It returns an error, and no adapter, exactly when the map has nothing
under `name`, as in a new registry for every name. In the default registry the
names that resolve are exactly "django", "laravel" and "prisma", each to an
adapter whose `Name` is the lookup key, and `GetForService(s)` is
`Get(s.Type)`. -/
theorem Registry.Get_returns_latest_registration (host : Host) :
    (∀ (r : Registry) (name : String) (a : Adapter),
      (r.Register name a).Get name = Except.ok a) ∧
    (∀ (regs : List (String × Adapter)) (name : String),
      (NewRegistry.registerAll regs).Get name =
        match regs.reverse.find? (fun p => p.1 == name) with
        | some p => Except.ok p.2
        | none => Except.error ("adapter '" ++ name ++ "' not found")) ∧
    (∀ (r : Registry) (name : String),
      (Map.get r.adapters name = none ∧
        r.Get name = Except.error ("adapter '" ++ name ++ "' not found")) ∨
      (∃ a, Map.get r.adapters name = some a ∧ r.Get name = Except.ok a)) ∧
    (∀ (name : String),
      (∃ a, (NewDefaultRegistry host).Get name = Except.ok a) ↔
        (name = "django" ∨ name = "laravel" ∨ name = "prisma")) ∧
    (∀ (name : String) (a : Adapter),
      (NewDefaultRegistry host).Get name = Except.ok a → a.Name = name) ∧
    (∀ (r : Registry) (s : Service), r.GetForService s = r.Get s.Type_) := by
  refine ⟨Registry.Get_Register_self, ?_, ?_, ?_, ?_, fun _ _ => rfl⟩
  · intro regs name
    rw [Registry.Get_registerAll]
    cases regs.reverse.find? (fun p => p.1 == name) <;> rfl
  · intro r name
    cases h : Map.get r.adapters name with
    | none => left; simp [Registry.Get, h]
    | some a => right; exact ⟨a, rfl, by simp [Registry.Get, h]⟩
  · intro name
    rw [NewDefaultRegistry_Get]
    by_cases h1 : name = "django"
    · simp [h1]
    · by_cases h2 : name = "laravel"
      · simp [h2]
      · by_cases h3 : name = "prisma"
        · simp [h3]
        · simp [h1, h2, h3]
  · intro name a h
    rw [NewDefaultRegistry_Get] at h
    by_cases h1 : name = "django"
    · simp only [h1, if_true, Except.ok.injEq] at h
      rw [← h, h1]; rfl
    · by_cases h2 : name = "laravel"
      · have : ¬ "laravel" = "django" := by decide
        simp only [h2, this, if_true, if_false, Except.ok.injEq] at h
        rw [← h, h2]; rfl
      · by_cases h3 : name = "prisma"
        · have g1 : ¬ "prisma" = "django" := by decide
          have g2 : ¬ "prisma" = "laravel" := by decide
          simp only [h3, g1, g2, if_true, if_false, Except.ok.injEq] at h
          rw [← h, h3]; rfl
        · simp [h1, h2, h3] at h

/-! ## Built-in adapters -/

/-- C30: for every host, service, tenant and positive step count,
`DjangoAdapter.Rollback` runs exactly the command `DjangoAdapter.Deploy` runs,
`python manage.py migrate --no-input` in the same directory with the same
environment entries, whatever the step count, and hands back what `Deploy`
hands back; for a step count `≤ 0` it runs no command and returns a nil result
with an error. -/
theorem DjangoAdapter.Rollback_runs_the_Deploy_command (a : DjangoAdapter) (host : Host)
    (service : Service) (tenant : Option Tenant) (steps : Int) :
    (0 < steps →
      (a.Rollback host service tenant steps).2 = (a.Deploy host service tenant).2 ∧
      (a.Rollback host service tenant steps).1 = (a.Deploy host service tenant).1 ∧
      (a.Deploy host service tenant).2 =
        [{ name := "python", args := ["manage.py", "migrate", "--no-input"],
           dir := service.WorkingDir,
           env := service.Env.map envEntry ++
             (match tenant with
              | some t => t.Connection.map envEntry
              | none => []) }]) ∧
    (steps ≤ 0 →
      a.Rollback host service tenant steps =
        ((none, some "rollback steps must be positive"), [])) := by
  constructor
  · intro hpos
    have hnot : ¬ steps ≤ 0 := by omega
    refine ⟨?_, ?_, ?_⟩
    · simp only [DjangoAdapter.Rollback, DjangoAdapter.Deploy, BaseAdapter.executeCommand, hnot,
        if_false]
    · simp only [DjangoAdapter.Rollback, DjangoAdapter.Deploy, BaseAdapter.executeCommand, hnot,
        if_false]
    · cases tenant <;>
        simp [DjangoAdapter.Deploy, BaseAdapter.executeCommand]
  · intro hle
    simp only [DjangoAdapter.Rollback, hle, if_true]

/-- Witness for C30: a rollback by three steps and one by zero steps, of a
service with one environment entry. -/
theorem DjangoAdapter.Rollback_runs_the_Deploy_command_witness :
    (NewDjangoAdapter.Rollback exampleHost
        { Name := "web", Type_ := "django", WorkingDir := "/srv/web", Env := [("DB", "main")] }
        none 3).2 =
      [{ name := "python", args := ["manage.py", "migrate", "--no-input"], dir := "/srv/web",
         env := ["DB=main"] }] ∧
    NewDjangoAdapter.Rollback exampleHost
        { Name := "web", Type_ := "django", WorkingDir := "/srv/web", Env := [("DB", "main")] }
        none 0 = ((none, some "rollback steps must be positive"), []) := by
  have h := DjangoAdapter.Rollback_runs_the_Deploy_command NewDjangoAdapter exampleHost
    { Name := "web", Type_ := "django", WorkingDir := "/srv/web", Env := [("DB", "main")] }
    none
  refine ⟨?_, (h 0).2 (by decide)⟩
  rw [((h 3).1 (by decide)).1, ((h 3).1 (by decide)).2.2]
  decide

/-- C27 (failing input): two command outputs that are the same up to and
including the key `Password=`, an occurrence in mixed case of the key
`password=`, and differ after it. `sanitizeOutput` returns each of them as it
is, so the two results differ and the text after the key is in the sanitized
output. The same texts with the key in lower case are both cut after the
key. -/
theorem BaseAdapter.sanitizeOutput_keeps_text_after_mixed_case_key :
    (NewBaseAdapter "django").sanitizeOutput "connecting with Password=hunter2" =
      "connecting with Password=hunter2" ∧
    (NewBaseAdapter "django").sanitizeOutput "connecting with Password=swordfish" =
      "connecting with Password=swordfish" ∧
    stringsContains (stringsToLower "connecting with Password=hunter2")
      (stringsToLower "password=") = true ∧
    (NewBaseAdapter "django").sanitizeOutput "connecting with password=hunter2" =
      "connecting with password=[REDACTED]" ∧
    (NewBaseAdapter "django").sanitizeOutput "connecting with password=swordfish" =
      "connecting with password=[REDACTED]" := by
  decide

/-! ## Configuration validation -/

theorem Validator.errors_addError (v : Validator) (msg : String) :
    (v.addError msg).errors ≠ [] := by
  simp [Validator.addError]

theorem Validator.config_addError (v : Validator) (msg : String) :
    (v.addError msg).config = v.config := rfl

theorem Validator.validateName_clean (v : Validator) (seen : Map Bool) (i : Nat) (svc : Service)
    (h : (v.validateName seen i svc).1.errors = []) :
    v.errors = [] ∧ svc.Name ≠ "" ∧ (Map.get seen svc.Name).getD false = false ∧
    v.validateName seen i svc = (v, Map.set seen svc.Name true) := by
  unfold Validator.validateName at h ⊢
  by_cases h1 : svc.Name = ""
  · simp only [h1, if_true] at h
    exact absurd h (Validator.errors_addError _ _)
  · by_cases h2 : (Map.get seen svc.Name).getD false = true
    · simp only [h1, h2, if_true, if_false] at h
      exact absurd h (Validator.errors_addError _ _)
    · simp only [h1, h2, if_false, Bool.false_eq_true] at h ⊢
      exact ⟨h, h1, trivial, trivial⟩

theorem Validator.validateType_clean (v : Validator) (i : Nat) (svc : Service)
    (h : (v.validateType i svc).errors = []) :
    v.errors = [] ∧ supportedTypes svc.Type_ = true ∧ v.validateType i svc = v := by
  unfold Validator.validateType at h ⊢
  by_cases h1 : svc.Type_ = ""
  · simp only [h1, if_true] at h
    exact absurd h (Validator.errors_addError _ _)
  · by_cases h2 : supportedTypes svc.Type_ = true
    · simp only [h1, h2, if_false, Bool.not_true, Bool.false_eq_true] at h ⊢
      exact ⟨h, trivial, trivial⟩
    · have h2' : supportedTypes svc.Type_ = false := by simpa using h2
      simp only [h1, h2', if_false, Bool.not_false, if_true] at h
      exact absurd h (Validator.errors_addError _ _)

theorem Validator.validatePath_clean (v : Validator) (paths : Paths) (i : Nat) (svc : Service)
    (h : (v.validatePath paths i svc).errors = []) : v.errors = [] := by
  unfold Validator.validatePath at h
  by_cases h1 : svc.Path = ""
  · simp only [h1, if_true] at h
    exact absurd h (Validator.errors_addError _ _)
  · simp only [h1, if_false] at h
    cases ha : paths.abs svc.Path with
    | error err =>
      simp only [ha] at h
      exact absurd h (Validator.errors_addError _ _)
    | ok p =>
      simp only [ha] at h
      by_cases h2 : paths.notExist p = true
      · simp only [h2, if_true] at h
        exact absurd h (Validator.errors_addError _ _)
      · simpa [h2] using h

theorem supportedTypes_iff (t : String) :
    supportedTypes t = true ↔ t = "django" ∨ t = "laravel" ∨ t = "prisma" := by
  unfold supportedTypes FrameworkDjango FrameworkLaravel FrameworkPrisma
  by_cases h1 : t = "django"
  · subst h1; decide
  · by_cases h2 : t = "laravel"
    · subst h2; decide
    · by_cases h3 : t = "prisma"
      · subst h3; decide
      · have g1 : ¬ "django" = t := fun h => h1 h.symm
        have g2 : ¬ "laravel" = t := fun h => h2 h.symm
        have g3 : ¬ "prisma" = t := fun h => h3 h.symm
        simp [Map.get, h1, h2, h3, g1, g2, g3]

theorem Validator.validateServiceList_clean (paths : Paths) :
    ∀ (services : List Service) (i : Nat) (v : Validator) (seen : Map Bool),
      (Validator.validateServiceList paths services i v seen).errors = [] →
      v.errors = [] ∧
      (∀ s ∈ services, s.Name ≠ "" ∧ (Map.get seen s.Name).getD false = false ∧
        supportedTypes s.Type_ = true) ∧
      (services.map Service.Name).Nodup := by
  intro services
  induction services with
  | nil =>
    intro i v seen h
    exact ⟨h, by simp, by simp⟩
  | cons svc rest ih =>
    intro i v seen h
    simp only [Validator.validateServiceList, Validator.validateService] at h
    obtain ⟨h1, h2, h3⟩ := ih _ _ _ h
    have h4 := Validator.validatePath_clean _ paths i svc h1
    obtain ⟨h5, h6, -⟩ := Validator.validateType_clean _ i svc h4
    obtain ⟨h7, h8, h9, h10⟩ := Validator.validateName_clean v seen i svc h5
    rw [h10] at h2
    refine ⟨h7, ?_, ?_⟩
    · intro s hs
      rcases List.mem_cons.mp hs with rfl | hs
      · exact ⟨h8, h9, h6⟩
      · obtain ⟨g1, g2, g3⟩ := h2 s hs
        refine ⟨g1, ?_, g3⟩
        by_cases hne : s.Name = svc.Name
        · rw [hne, Map.get_set_self] at g2
          simp at g2
        · rwa [Map.get_set_of_ne _ _ _ _ hne] at g2
    · simp only [List.map_cons, List.nodup_cons]
      refine ⟨?_, h3⟩
      intro hmem
      obtain ⟨s, hs, hname⟩ := List.mem_map.mp hmem
      obtain ⟨-, g2, -⟩ := h2 s hs
      rw [hname, Map.get_set_self] at g2
      simp at g2

theorem Validator.validateExecution_clean (v : Validator)
    (h : v.validateExecution.errors = []) :
    v.errors = [] ∧
    (v.config.Execution.Strategy = StrategySequential ∨
      v.config.Execution.Strategy = StrategyParallel) := by
  unfold Validator.validateExecution at h
  simp only [] at h
  split_ifs at h <;> simp_all [Validator.addError]

theorem Validator.validateTenancy_clean (v : Validator) (h : v.validateTenancy.errors = []) :
    v.errors = [] := by
  unfold Validator.validateTenancy at h
  split at h
  · exact h
  · simp only [] at h
    split_ifs at h <;> simp_all [Validator.addError]

theorem Validator.validateLogging_clean (v : Validator) (h : v.validateLogging.errors = []) :
    v.errors = [] := by
  unfold Validator.validateLogging at h
  simp only [] at h
  split_ifs at h <;> simp_all [Validator.addError]

theorem Validator.config_validateName (v : Validator) (seen : Map Bool) (i : Nat)
    (svc : Service) : (v.validateName seen i svc).1.config = v.config := by
  unfold Validator.validateName
  split_ifs <;> rfl

theorem Validator.config_validateType (v : Validator) (i : Nat) (svc : Service) :
    (v.validateType i svc).config = v.config := by
  unfold Validator.validateType
  split_ifs <;> rfl

theorem Validator.config_validatePath (v : Validator) (paths : Paths) (i : Nat)
    (svc : Service) : (v.validatePath paths i svc).config = v.config := by
  unfold Validator.validatePath
  split_ifs
  · rfl
  · split
    · rfl
    · split_ifs <;> rfl

theorem Validator.config_validateService (paths : Paths) (v : Validator) (seen : Map Bool)
    (i : Nat) (svc : Service) : (v.validateService paths seen i svc).1.config = v.config := by
  show (((v.validateName seen i svc).1.validateType i svc).validatePath paths i svc).config =
    v.config
  rw [Validator.config_validatePath, Validator.config_validateType,
    Validator.config_validateName]

theorem Validator.config_validateServiceList (paths : Paths) :
    ∀ (services : List Service) (i : Nat) (v : Validator) (seen : Map Bool),
      (Validator.validateServiceList paths services i v seen).config = v.config := by
  intro services
  induction services with
  | nil => intro i v seen; rfl
  | cons svc rest ih =>
    intro i v seen
    simp only [Validator.validateServiceList]
    rw [ih]
    exact Validator.config_validateService paths v seen i svc

theorem Validator.config_validateServices (v : Validator) (paths : Paths) :
    (v.validateServices paths).config = v.config := by
  unfold Validator.validateServices
  simp only []
  split
  · rfl
  · exact Validator.config_validateServiceList paths _ _ _ _

/-- What `Validate` has checked when it returns no error. -/
theorem Validate_none (config : Config) (paths : Paths) (h : Validate config paths = none) :
    ((NewValidator config).validateServices paths).errors = [] ∧
    (config.Execution.Strategy = StrategySequential ∨
      config.Execution.Strategy = StrategyParallel) := by
  unfold Validate Validator.Validate at h
  simp only [] at h
  split at h
  · simp at h
  · rename_i hlen
    have h0 :
        ((NewValidator config).validateServices
          paths).validateExecution.validateTenancy.validateLogging.errors = [] := by
      cases hl : ((NewValidator config).validateServices
          paths).validateExecution.validateTenancy.validateLogging.errors with
      | nil => rfl
      | cons a b => simp [hl] at hlen
    have h1 := Validator.validateLogging_clean _ h0
    have h2 := Validator.validateTenancy_clean _ h1
    obtain ⟨h3, h4⟩ := Validator.validateExecution_clean _ h2
    rw [Validator.config_validateServices] at h4
    exact ⟨h3, h4⟩

/-- C24: `Validate` returns an error for every configuration without services
whose discovery is absent or not enabled, and for every configuration whose
execution strategy is neither "sequential" nor "parallel"; and whenever it
returns no error, all service names are non-empty and pairwise distinct and
every service type is one of django, laravel, prisma. This holds whatever the
file system says about the service paths. -/
theorem Validate_is_sound (config : Config) (paths : Paths) :
    (config.Services = [] →
      (config.Discovery = none ∨ ∃ d, config.Discovery = some d ∧ d.Enabled = false) →
      (Validate config paths).isSome = true) ∧
    (config.Execution.Strategy ≠ "sequential" → config.Execution.Strategy ≠ "parallel" →
      (Validate config paths).isSome = true) ∧
    (Validate config paths = none →
      (∀ s ∈ config.Services, s.Name ≠ "") ∧
      (config.Services.map Service.Name).Nodup ∧
      (∀ s ∈ config.Services,
        s.Type_ = "django" ∨ s.Type_ = "laravel" ∨ s.Type_ = "prisma")) := by
  refine ⟨?_, ?_, ?_⟩
  · intro hs hd
    cases hv : Validate config paths with
    | some msg => rfl
    | none =>
      exfalso
      obtain ⟨h1, -⟩ := Validate_none config paths hv
      unfold Validator.validateServices at h1
      have hoff : (match (NewValidator config).config.Discovery with
          | none => true
          | some d => !d.Enabled) = true := by
        rcases hd with hd | ⟨d, hd, hen⟩
        · simp [NewValidator, hd]
        · simp [NewValidator, hd, hen]
      simp only [NewValidator, hs, List.length_nil] at h1 hoff
      simp only [hoff, Bool.and_self, if_true] at h1
      exact Validator.errors_addError _ _ h1
  · intro h1 h2
    cases hv : Validate config paths with
    | some msg => rfl
    | none =>
      exfalso
      obtain ⟨-, h3⟩ := Validate_none config paths hv
      rcases h3 with h3 | h3
      · exact h1 h3
      · exact h2 h3
  · intro hv
    obtain ⟨h1, -⟩ := Validate_none config paths hv
    unfold Validator.validateServices at h1
    simp only [] at h1
    split at h1
    · exact absurd h1 (Validator.errors_addError _ _)
    · obtain ⟨-, h2, h3⟩ := Validator.validateServiceList_clean paths _ _ _ _ h1
      have h2' : ∀ s ∈ config.Services, s.Name ≠ "" ∧
          (Map.get ([] : Map Bool) s.Name).getD false = false ∧
          supportedTypes s.Type_ = true := h2
      exact ⟨fun s hs => (h2' s hs).1, h3,
        fun s hs => (supportedTypes_iff s.Type_).mp (h2' s hs).2.2⟩

/-- Witness for C24: a configuration without services and without discovery
is rejected, and a configuration with one django service is accepted. -/
theorem Validate_is_sound_witness :
    (Validate noServicesConfig examplePaths).isSome = true ∧
    Validate validConfig examplePaths = none ∧
    (∀ s ∈ validConfig.Services, s.Name ≠ "") ∧
    (validConfig.Services.map Service.Name).Nodup :=
  ⟨(Validate_is_sound noServicesConfig examplePaths).1 rfl (Or.inl rfl),
   by decide,
   ((Validate_is_sound validConfig examplePaths).2.2 (by decide)).1,
   ((Validate_is_sound validConfig examplePaths).2.2 (by decide)).2.1⟩

/-! ## Parallel engine: stop-on-failure with one failing service -/

theorem CtxRegistry.GetForService_under (r : CtxRegistry) (ctx : Bool) (svc : Service) :
    (r.under ctx).GetForService svc =
      match r.GetForService svc with
      | Except.error msg => Except.error msg
      | Except.ok adp => Except.ok (adp.under ctx) := by
  unfold Registry.GetForService Registry.Get CtxRegistry.GetForService CtxRegistry.Get
    CtxRegistry.under
  simp only
  rw [Map.get_map_value (fun a => CtxAdapter.under a ctx)]
  cases Map.get r.adapters svc.Type_ <;> rfl

/-- With the context fixed, `executeService` is the `executeService` of the
engine over the adapters with that context. -/
theorem CtxParallelEngine.executeService_under (e : CtxParallelEngine) (ctx : Bool) (w : World)
    (svc : Service) (op : Operation) :
    e.executeService ctx w svc op = (e.under ctx).executeService w svc op := by
  unfold CtxParallelEngine.executeService ParallelEngine.executeService
  simp only [CtxParallelEngine.under, CtxRegistry.GetForService_under]
  cases hreg : e.registry.GetForService svc with
  | error msg => rfl
  | ok adp => rfl

theorem Registry.under_ignoringContext (r : Registry) (ctx : Bool) :
    r.ignoringContext.under ctx = r := by
  obtain ⟨m⟩ := r
  simp only [Registry.ignoringContext, CtxRegistry.under, List.map_map]
  congr 1
  induction m with
  | nil => rfl
  | cons hd tl ih =>
    simp only [List.map_cons, List.cons.injEq]
    exact ⟨rfl, ih⟩

theorem ParallelEngine.engine_under_ignoringContext (e : ParallelEngine) (ctx : Bool) :
    e.ignoringContext.under ctx = e := by
  obtain ⟨r, s, d, m⟩ := e
  simp [ParallelEngine.ignoringContext, CtxParallelEngine.under,
    Registry.under_ignoringContext]

/-- For adapters that do not look at their context, a step of a run with
contexts is the step of `ParallelEngine.step`. -/
theorem CtxParallelEngine.step_ignoringContext (e : ParallelEngine) (services : List Service)
    (op : Operation) (st : ParState) (a : Action) :
    e.ignoringContext.step services op st a = e.step services op st a := by
  have hex : ∀ ctx w svc, e.ignoringContext.executeService ctx w svc op =
      e.executeService w svc op := by
    intro ctx w svc
    rw [CtxParallelEngine.executeService_under, ParallelEngine.engine_under_ignoringContext]
  cases a with
  | cancelCaller => rfl
  | giveUp i => rfl
  | run i =>
    simp only [CtxParallelEngine.step, ParallelEngine.step, hex]
    rfl

theorem heldSound.mono {registry : CtxRegistry} {op : Operation} {k : Nat} {f f' : Bool}
    {i : Nat} {svc : Service} {r : ServiceResult} (h : heldSound registry op k f i svc r)
    (hmono : f = true → f' = true) : heldSound registry op k f' i svc r :=
  ⟨h.1, fun hr => (h.2.1 hr).imp id hmono, h.2.2⟩

theorem ParState.CancelInv.set_pc {e : CtxParallelEngine} {services : List Service}
    {op : Operation} {k : Nat} {st : ParState} (hI : st.CancelInv e services op k)
    (st' : ParState) (i : Nat) (old new : TaskPC)
    (hpc : st.pcs[i]? = some old)
    (hpcs : st'.pcs = st.pcs.set i new)
    (hpan : st'.panicked = false)
    (hres : ((∀ r, new ≠ TaskPC.stored r) ∧ st'.results = st.results) ∨
      ∃ r, old = TaskPC.executed r ∧ new = TaskPC.stored r ∧
        st'.results = st.results.set i r)
    (hexec : ∀ r svc, new = TaskPC.executed r → services[i]? = some svc →
      heldSound e.registry op k st'.failed i svc r)
    (hpast : old.isPast = true → new.isPast = true)
    (hnewpast : i = k → old.isPast = false → new.isPast = true →
      ∃ r, old = TaskPC.stored r ∧ r.Success = false)
    (hflag : new = TaskPC.flagging → st'.failed = true)
    (hmono : st.failed = true → st'.failed = true)
    (hfailed : st'.failed = true → st.failed = true ∨ (i = k ∧ new.isPast = true))
    (hcancel : st'.cancelled = true → st'.failed = true) :
    st'.CancelInv e services op k := by
  obtain ⟨h1, h2, -, h4, h5, h6, h7, h8, -, h10⟩ := hI
  have hi : i < st.pcs.length := (List.getElem?_eq_some.mp hpc).1
  have hir : i < st.results.length := by rw [h2, ← h1]; exact hi
  have hget : ∀ j pc, st'.pcs[j]? = some pc →
      (j = i ∧ pc = new) ∨ (j ≠ i ∧ st.pcs[j]? = some pc) := by
    intro j pc hj
    rw [hpcs] at hj
    exact getElem?_set_some st.pcs i j new pc hj
  have hresne : ∀ j, j ≠ i → st'.results[j]? = st.results[j]? := by
    intro j hj
    rcases hres with ⟨-, h⟩ | ⟨r, -, -, h⟩
    · rw [h]
    · rw [h, List.getElem?_set_ne (Ne.symm hj)]
  refine ⟨by rw [hpcs, List.length_set, h1], ?_, hpan, ?_, ?_, ?_, ?_, ?_, hcancel, ?_⟩
  · rcases hres with ⟨-, h⟩ | ⟨r, -, -, h⟩
    · rw [h, h2]
    · rw [h, List.length_set, h2]
  · intro j res svc hj hsvc
    by_cases hji : j = i
    · subst hji
      rcases hres with ⟨-, h⟩ | ⟨r, ho, -, h⟩
      · rw [h] at hj
        exact h4 j res svc hj hsvc
      · rw [h, List.getElem?_set_self hir] at hj
        simp only [Option.some.injEq] at hj
        subst hj
        subst ho
        exact Or.inr (h5 j r svc hpc hsvc).1
    · rw [hresne j hji] at hj
      exact h4 j res svc hj hsvc
  · intro j r svc hj hsvc
    rcases hget j _ hj with ⟨hji, hnew⟩ | ⟨-, hold⟩
    · subst hji
      exact hexec r svc hnew.symm hsvc
    · exact (h5 j r svc hold hsvc).mono hmono
  · intro j r svc hj hsvc
    rcases hget j _ hj with ⟨hji, hnew⟩ | ⟨hji, hold⟩
    · subst hji
      rcases hres with ⟨hno, -⟩ | ⟨r', ho, hn, h⟩
      · exact absurd hnew.symm (hno r)
      · rw [hn] at hnew
        simp only [TaskPC.stored.injEq] at hnew
        subst hnew
        subst ho
        refine ⟨?_, (h5 j r svc hpc hsvc).mono hmono⟩
        rw [h, List.getElem?_set_self hir]
    · obtain ⟨g1, g2⟩ := h6 j r svc hold hsvc
      exact ⟨by rw [hresne j hji]; exact g1, g2.mono hmono⟩
  · intro j hj
    rcases hget j _ hj with ⟨-, hnew⟩ | ⟨-, hold⟩
    · exact hflag hnew.symm
    · exact hmono (h7 j hold)
  · intro hf
    rcases hfailed hf with hf0 | ⟨hik, hn⟩
    · obtain ⟨pc, hk, hp⟩ := h8 hf0
      by_cases hki : k = i
      · subst hki
        rw [hpc] at hk
        simp only [Option.some.injEq] at hk
        subst hk
        exact ⟨new, by rw [hpcs, List.getElem?_set_self hi], hpast hp⟩
      · exact ⟨pc, by rw [hpcs, List.getElem?_set_ne (Ne.symm hki)]; exact hk, hp⟩
    · subst hik
      exact ⟨new, by rw [hpcs, List.getElem?_set_self hi], hn⟩
  · intro pc hk hp
    rcases hget k pc hk with ⟨hki, hnew⟩ | ⟨hki, hold⟩
    · subst hki
      subst hnew
      cases hop : old.isPast with
      | true =>
        obtain ⟨res, svc, g1, g2, g3, g4⟩ := h10 old hpc hop
        refine ⟨res, svc, ?_, g2, g3, g4⟩
        rcases hres with ⟨-, h⟩ | ⟨r, ho, -, h⟩
        · rw [h]; exact g1
        · subst ho
          simp [TaskPC.isPast] at hop
      | false =>
        obtain ⟨r, ho, hr⟩ := hnewpast rfl hop hp
        subst ho
        have hsv : ∃ svc, services[k]? = some svc := by
          have : k < services.length := by rw [← h1]; exact hi
          exact ⟨services[k], List.getElem?_eq_getElem this⟩
        obtain ⟨svc, hsvc⟩ := hsv
        obtain ⟨g1, g2, -⟩ := h6 k r svc hpc hsvc
        refine ⟨r, svc, ?_, hsvc, g2.1, hr⟩
        rcases hres with ⟨-, h⟩ | ⟨r', ho, -, h⟩
        · rw [h]; exact g1
        · cases ho
    · obtain ⟨res, svc, g1, g2, g3, g4⟩ := h10 pc hold hp
      exact ⟨res, svc, by rw [hresne k hki]; exact g1, g2, g3, g4⟩

/-- What `executeService` returns, when it returns with dry-run off: a result
with the name of the service and the adapter outcome under its context. -/
theorem CtxParallelEngine.executeService_of_some (e : CtxParallelEngine) (ctx : Bool)
    (w w' : World) (svc : Service) (op : Operation) (r : ServiceResult)
    (hdry : e.dryRun = false) (h : e.executeService ctx w svc op = some (r, w')) :
    r.ServiceName = svc.Name ∧ r.Success = serviceSucceeds (e.registry.under ctx) op svc := by
  rw [CtxParallelEngine.executeService_under, ParallelEngine.executeService_eq] at h
  have hus := (SequentialEngine.executeService_isSome_iff
    { registry := (e.under ctx).registry, stopOnFailure := (e.under ctx).stopOnFailure,
      dryRun := (e.under ctx).dryRun } w svc op hdry).mp (by rw [h]; rfl)
  obtain ⟨r₁, w₁, d, err, hex, -, -, -, -, -, hname, hsucc, -⟩ :=
    SequentialEngine.executeService_spec
      { registry := (e.under ctx).registry, stopOnFailure := (e.under ctx).stopOnFailure,
        dryRun := (e.under ctx).dryRun } w svc op hdry hus
  rw [h] at hex
  simp only [Option.some.injEq, Prod.mk.injEq] at hex
  rw [hex.1]
  exact ⟨hname, hsucc⟩

theorem CtxParallelEngine.step_of_panicked (e : CtxParallelEngine) (services : List Service)
    (op : Operation) (st : ParState) (a : Action) (h : st.panicked = true) :
    e.step services op st a = none := by
  cases a <;> simp [CtxParallelEngine.step, h]

/-- Every step of a goroutine keeps `ParState.CancelInv`, unless the process
crashes. -/
theorem CtxParallelEngine.step_cancelInv (e : CtxParallelEngine) (services : List Service)
    (op : Operation) (k : Nat) (st st' : ParState) (a : Action)
    (hdry : e.dryRun = false)
    (huniq : ∀ (i : Nat) (svc : Service), services[i]? = some svc →
      serviceSucceeds (e.registry.under false) op svc = false → i = k)
    (hfail : ∀ (svc : Service), services[k]? = some svc →
      serviceSucceeds (e.registry.under false) op svc = false)
    (hno : a ≠ Action.cancelCaller)
    (hI : st.CancelInv e services op k)
    (hstep : e.step services op st a = some st') :
    st'.panicked = true ∨ st'.CancelInv e services op k := by
  have hI' := hI
  obtain ⟨h1, h2, hp, h4, h5, h6, h7, h8, h9, h10⟩ := hI'
  have notpast : ∀ (i : Nat) (old : TaskPC), st.pcs[i]? = some old → old.isPast = false →
      i = k → st.failed = false := by
    intro i old hpc hold hik
    subst hik
    cases hf : st.failed with
    | false => rfl
    | true =>
      obtain ⟨pc, g1, g2⟩ := h8 hf
      rw [hpc] at g1
      simp only [Option.some.injEq] at g1
      subst g1
      rw [hold] at g2
      exact absurd g2 (by decide)
  cases a with
  | cancelCaller => exact absurd rfl hno
  | giveUp i =>
    right
    simp only [CtxParallelEngine.step, hp, Bool.false_eq_true, if_false] at hstep
    cases hpc : st.pcs[i]? with
    | none => simp [hpc] at hstep
    | some pc =>
      cases pc with
      | waiting =>
        simp only [hpc] at hstep
        split at hstep
        · rename_i hc
          simp only [Option.some.injEq] at hstep
          subst hstep
          refine hI.set_pc _ i TaskPC.waiting TaskPC.done hpc rfl rfl
            (Or.inl ⟨fun r h => (by cases h), rfl⟩) (fun _ _ h => by cases h)
            (fun h => by simp [TaskPC.isPast] at h) ?_ (fun h => by cases h) id Or.inl h9
          intro hik _ _
          have := notpast i TaskPC.waiting hpc rfl hik
          rw [h9 hc] at this
          exact absurd this (by decide)
        · simp at hstep
      | _ => simp [hpc] at hstep
  | run i =>
    simp only [CtxParallelEngine.step, hp, Bool.false_eq_true, if_false] at hstep
    cases hpc : st.pcs[i]? with
    | none => simp [hpc] at hstep
    | some pc =>
      cases hsv : services[i]? with
      | none => simp [hpc, hsv] at hstep
      | some svc =>
        cases pc with
        | waiting =>
          right
          simp only [hpc, hsv] at hstep
          split at hstep
          · simp only [Option.some.injEq] at hstep
            subst hstep
            exact hI.set_pc _ i TaskPC.waiting TaskPC.admitted hpc rfl rfl
              (Or.inl ⟨fun r h => (by cases h), rfl⟩) (fun _ _ h => by cases h)
              (fun h => by simp [TaskPC.isPast] at h)
              (fun _ _ h => by simp [TaskPC.isPast] at h) (fun h => by cases h) id Or.inl h9
          · simp at hstep
        | admitted =>
          right
          simp only [hpc, hsv] at hstep
          split at hstep
          · rename_i hc
            simp only [Option.some.injEq] at hstep
            subst hstep
            refine hI.set_pc _ i TaskPC.admitted TaskPC.releasing hpc rfl rfl
              (Or.inl ⟨fun r h => (by cases h), rfl⟩) (fun _ _ h => by cases h)
              (fun h => by simp [TaskPC.isPast] at h) ?_ (fun h => by cases h) id Or.inl h9
            intro hik _ _
            have := notpast i TaskPC.admitted hpc rfl hik
            simp only [Bool.and_eq_true] at hc
            rw [hc.1] at this
            exact absurd this (by decide)
          · simp only [Option.some.injEq] at hstep
            subst hstep
            exact hI.set_pc _ i TaskPC.admitted TaskPC.running hpc rfl rfl
              (Or.inl ⟨fun r h => (by cases h), rfl⟩) (fun _ _ h => by cases h)
              (fun h => by simp [TaskPC.isPast] at h)
              (fun _ _ h => by simp [TaskPC.isPast] at h) (fun h => by cases h) id Or.inl h9
        | running =>
          simp only [hpc, hsv] at hstep
          cases hex : e.executeService st.cancelled st.world svc op with
          | none =>
            simp only [hex, Option.some.injEq] at hstep
            subst hstep
            exact Or.inl rfl
          | some x =>
            obtain ⟨r, w₁⟩ := x
            obtain ⟨hname, hsucc⟩ :=
              CtxParallelEngine.executeService_of_some e st.cancelled st.world w₁ svc op r hdry
                hex
            simp only [hex, Option.some.injEq] at hstep
            subst hstep
            right
            refine hI.set_pc _ i TaskPC.running (TaskPC.executed r) hpc rfl rfl
              (Or.inl ⟨fun r h => (by cases h), rfl⟩) ?_
              (fun h => by simp [TaskPC.isPast] at h)
              (fun _ _ h => by simp [TaskPC.isPast] at h) (fun h => by cases h) id Or.inl h9
            intro r' svc' hr' hsvc'
            rw [hsv] at hsvc'
            simp only [Option.some.injEq, TaskPC.executed.injEq] at hsvc' hr'
            subst hsvc'; subst hr'
            cases hc : st.cancelled with
            | false =>
              rw [hc] at hsucc
              refine ⟨⟨hname, Or.inl hsucc⟩, ?_, ?_⟩
              · intro hr
                exact Or.inl (huniq i svc hsv (by rw [← hsucc, hr]))
              · intro hik
                subst hik
                rw [hsucc]
                exact hfail svc hsv
            | true =>
              rw [hc] at hsucc
              have hf : st.failed = true := h9 hc
              refine ⟨⟨hname, Or.inr hsucc⟩, fun _ => Or.inr hf, ?_⟩
              intro hik
              have := notpast i TaskPC.running hpc rfl hik
              rw [hf] at this
              exact absurd this (by decide)
        | executed r =>
          right
          simp only [hpc, hsv, Option.some.injEq] at hstep
          subst hstep
          exact hI.set_pc _ i (TaskPC.executed r) (TaskPC.stored r) hpc rfl rfl
            (Or.inr ⟨r, rfl, rfl, rfl⟩) (fun _ _ h => by cases h)
            (fun h => by simp [TaskPC.isPast] at h)
            (fun _ _ h => by simp [TaskPC.isPast] at h) (fun h => by cases h) id Or.inl h9
        | stored r =>
          right
          simp only [hpc, hsv] at hstep
          obtain ⟨g1, -, g3, g4⟩ := h6 i r svc hpc hsv
          cases hr : r.Success with
          | true =>
            simp only [hr, Bool.not_true, Bool.false_eq_true, if_false,
              Option.some.injEq] at hstep
            subst hstep
            refine hI.set_pc _ i (TaskPC.stored r) TaskPC.releasing hpc rfl rfl
              (Or.inl ⟨fun r h => (by cases h), rfl⟩) (fun _ _ h => by cases h)
              (fun h => by simp [TaskPC.isPast] at h) ?_ (fun h => by cases h) id Or.inl h9
            intro hik _ _
            exfalso
            have hs := g4 hik
            rw [hr] at hs
            exact absurd hs (by decide)
          | false =>
            simp only [hr, Bool.not_false, if_true] at hstep
            split at hstep
            · simp only [Option.some.injEq] at hstep
              subst hstep
              refine hI.set_pc _ i (TaskPC.stored r) TaskPC.flagging hpc rfl rfl
                (Or.inl ⟨fun r h => (by cases h), rfl⟩) (fun _ _ h => by cases h)
                (fun h => by simp [TaskPC.isPast] at h)
                (fun _ _ _ => ⟨r, rfl, hr⟩) (fun _ => rfl) (fun _ => rfl)
                ?_ (fun _ => rfl)
              intro _
              rcases g3 hr with hik | hf
              · exact Or.inr ⟨hik, rfl⟩
              · exact Or.inl hf
            · simp only [Option.some.injEq] at hstep
              subst hstep
              exact hI.set_pc _ i (TaskPC.stored r) TaskPC.releasing hpc rfl rfl
                (Or.inl ⟨fun r h => (by cases h), rfl⟩) (fun _ _ h => by cases h)
                (fun h => by simp [TaskPC.isPast] at h)
                (fun _ _ _ => ⟨r, rfl, hr⟩) (fun h => by cases h) id Or.inl h9
        | flagging =>
          right
          simp only [hpc, hsv, Option.some.injEq] at hstep
          subst hstep
          exact hI.set_pc _ i TaskPC.flagging TaskPC.releasing hpc rfl rfl
            (Or.inl ⟨fun r h => (by cases h), rfl⟩) (fun _ _ h => by cases h)
            (fun _ => rfl) (fun _ h => by simp [TaskPC.isPast] at h) (fun h => by cases h) id
            Or.inl (fun _ => h7 i hpc)
        | releasing =>
          right
          simp only [hpc, hsv, Option.some.injEq] at hstep
          subst hstep
          exact hI.set_pc _ i TaskPC.releasing TaskPC.done hpc rfl rfl
            (Or.inl ⟨fun r h => (by cases h), rfl⟩) (fun _ _ h => by cases h)
            (fun _ => rfl) (fun _ h => by simp [TaskPC.isPast] at h) (fun h => by cases h) id
            Or.inl h9
        | done => simp [hpc, hsv] at hstep

theorem ParState.init_cancelInv (e : CtxParallelEngine) (w : World) (services : List Service)
    (op : Operation) (k : Nat) :
    (ParState.init w services.length).CancelInv e services op k := by
  have hw : ∀ (i : Nat) (pc : TaskPC),
      (ParState.init w services.length).pcs[i]? = some pc → pc = TaskPC.waiting := by
    intro i pc h
    simp only [ParState.init, List.getElem?_replicate] at h
    split at h
    · simp only [Option.some.injEq] at h
      exact h.symm
    · simp at h
  refine ⟨by simp [ParState.init], by simp [ParState.init], rfl, ?_, ?_, ?_, ?_, ?_, ?_, ?_⟩
  · intro i res svc hres _
    left
    simp only [ParState.init, List.getElem?_replicate] at hres
    split at hres
    · simp only [Option.some.injEq] at hres
      rw [← hres]
    · simp at hres
  · intro i r svc h _
    exact absurd (hw i _ h) (by simp)
  · intro i r svc h _
    exact absurd (hw i _ h) (by simp)
  · intro i h
    exact absurd (hw i _ h) (by simp)
  · intro h
    simp [ParState.init] at h
  · intro h
    simp [ParState.init] at h
  · intro pc h hp
    rw [hw k pc h] at hp
    simp [TaskPC.isPast] at hp

theorem CtxParallelEngine.runSchedule_cancelInv (e : CtxParallelEngine)
    (services : List Service) (op : Operation) (k : Nat) (hdry : e.dryRun = false)
    (huniq : ∀ (i : Nat) (svc : Service), services[i]? = some svc →
      serviceSucceeds (e.registry.under false) op svc = false → i = k)
    (hfail : ∀ (svc : Service), services[k]? = some svc →
      serviceSucceeds (e.registry.under false) op svc = false)
    (schedule : List Action) :
    ∀ (st st' : ParState), st.CancelInv e services op k →
      Action.cancelCaller ∉ schedule →
      e.runSchedule services op schedule st = some st' →
      st'.panicked = true ∨ st'.CancelInv e services op k := by
  induction schedule with
  | nil =>
    intro st st' hI _ hrun
    simp only [CtxParallelEngine.runSchedule, Option.some.injEq] at hrun
    subst hrun
    exact Or.inr hI
  | cons a rest ih =>
    intro st st' hI hno hrun
    simp only [CtxParallelEngine.runSchedule] at hrun
    cases hstep : e.step services op st a with
    | none => simp [hstep] at hrun
    | some st₁ =>
      simp only [hstep] at hrun
      have ha : a ≠ Action.cancelCaller := fun h => hno (h ▸ List.mem_cons_self _ _)
      rcases CtxParallelEngine.step_cancelInv e services op k st st₁ a hdry huniq hfail ha hI
        hstep with hpan | hI₁
      · cases rest with
        | nil =>
          simp only [CtxParallelEngine.runSchedule, Option.some.injEq] at hrun
          subst hrun
          exact Or.inl hpan
        | cons b rest' =>
          simp [CtxParallelEngine.runSchedule,
            CtxParallelEngine.step_of_panicked e services op st₁ b hpan] at hrun
      · exact ih st₁ st' hI₁ (fun h => hno (List.mem_cons_of_mem _ h)) hrun

/-- With dry-run off, a caller that does not cancel and the service at index
`k` the only one that fails under a context that is not cancelled: whatever
the schedule and the failure policy, the slots of `results` at the end of a
run hold, each, a result without a name or an outcome of the service of its
index, and slot `k` holds the failure of service `k`. -/
theorem CtxParallelEngine.Execute_with_one_failing_service (e : CtxParallelEngine) (w : World)
    (services : List Service) (op : Operation) (k : Nat) (schedule : List Action)
    (hdry : e.dryRun = false)
    (hk : k < services.length)
    (huniq : ∀ (i : Nat) (svc : Service), services[i]? = some svc →
      serviceSucceeds (e.registry.under false) op svc = false → i = k)
    (hfail : ∀ (svc : Service), services[k]? = some svc →
      serviceSucceeds (e.registry.under false) op svc = false)
    (hno : Action.cancelCaller ∉ schedule)
    (out : List ServiceResult) (err : Option String) (w' : World)
    (h : e.Execute w services op schedule = some ((out, err), w')) :
    err = none ∧
    ∃ rs : List ServiceResult, out = filterResults rs ∧ rs.length = services.length ∧
      (∀ (i : Nat) (res : ServiceResult) (svc : Service),
        rs[i]? = some res → services[i]? = some svc →
        res.ServiceName = "" ∨ ctxOutcome e.registry op svc res) ∧
      ∃ (res : ServiceResult) (svc : Service), rs[k]? = some res ∧ services[k]? = some svc ∧
        res.ServiceName = svc.Name ∧ res.Success = false := by
  unfold CtxParallelEngine.Execute at h
  cases hrun : e.runSchedule services op schedule (ParState.init w services.length) with
  | none => simp [hrun] at h
  | some st =>
    simp only [hrun] at h
    split at h
    · rename_i hfin
      simp only [Option.some.injEq, Prod.mk.injEq] at h
      obtain ⟨⟨hres, herr⟩, -⟩ := h
      simp only [Bool.and_eq_true, Bool.not_eq_true'] at hfin
      rcases CtxParallelEngine.runSchedule_cancelInv e services op k hdry huniq hfail schedule _
        st (ParState.init_cancelInv e w services op k) hno hrun with hpan | hI
      · rw [hfin.2] at hpan
        exact absurd hpan (by decide)
      · obtain ⟨h1, h2, -, h4, -, -, -, -, -, h10⟩ := hI
        refine ⟨herr.symm, st.results, hres.symm, h2, h4, ?_⟩
        have hkp : k < st.pcs.length := by rw [h1]; exact hk
        have hdone : st.pcs[k] = TaskPC.done := by
          simp only [ParState.finished, List.all_eq_true] at hfin
          have := hfin.1 st.pcs[k] (List.getElem_mem _)
          simpa using this
        exact h10 TaskPC.done (by rw [List.getElem?_eq_getElem hkp, hdone]) rfl
    · simp at h

/-- C26 (counterexample): the services `a`, `b`, `c`, ceiling 2, stop-on-failure
on, only the Deploy of `b` fails. Under the schedule in which `b` runs to its
end before `a` has passed the gate, `a` takes the cancellation branch and `c`
returns at the check of the `failed` flag: the returned list holds the failure
of `b` and no result for `a`. -/
theorem CtxParallelEngine.Execute_can_skip_the_first_service :
    serviceSucceeds (ctxExampleRegistry.under false) OperationDeploy
      { Name := "a", Type_ := "ok" } = true ∧
    serviceSucceeds (ctxExampleRegistry.under false) OperationDeploy
      { Name := "b", Type_ := "ok" } = false ∧
    serviceSucceeds (ctxExampleRegistry.under false) OperationDeploy
      { Name := "c", Type_ := "ok" } = true ∧
    ((NewCtxParallelEngine ctxExampleRegistry true false 2).Execute exampleWorld
        scenarioServices OperationDeploy stopSchedule).map
      (fun x => (x.1.1.map (fun r => (r.ServiceName, r.Success)), x.1.2)) =
      some ([("b", false)], none) := by
  decide

/-- C26 (amended): for the service list `[a, b, c]` run by the parallel engine
with ceiling 2, stop-on-failure on and dry-run off, where under a context that
is not cancelled the Deploy of `a` and of `c` succeeds and only that of `b`
fails: under every schedule of the goroutines in which the caller does not
cancel, the returned list holds the failure result of `b`; before it, a result
of `a` or nothing; after it, a result of `c` or nothing. A result of `a` or of
`c` in the list is that of a completed execution: a success, or what its
adapter makes of a context cancelled under it. -/
theorem CtxParallelEngine.Execute_stop_on_failure_keeps_the_failure (registry : CtxRegistry)
    (a b c : Service) (w : World) (schedule : List Action)
    (ha : serviceSucceeds (registry.under false) OperationDeploy a = true)
    (hb : serviceSucceeds (registry.under false) OperationDeploy b = false)
    (hc : serviceSucceeds (registry.under false) OperationDeploy c = true)
    (hname : b.Name ≠ "")
    (hno : Action.cancelCaller ∉ schedule)
    (out : List ServiceResult) (err : Option String) (w' : World)
    (h : (NewCtxParallelEngine registry true false 2).Execute w [a, b, c] OperationDeploy
      schedule = some ((out, err), w')) :
    err = none ∧
    ∃ (ra : Option ServiceResult) (rb : ServiceResult) (rc : Option ServiceResult),
      out = ra.toList ++ [rb] ++ rc.toList ∧
      (∀ r, ra = some r → r.ServiceName = a.Name ∧
        (r.Success = true ∨
          r.Success = serviceSucceeds (registry.under true) OperationDeploy a)) ∧
      (rb.ServiceName = b.Name ∧ rb.Success = false) ∧
      (∀ r, rc = some r → r.ServiceName = c.Name ∧
        (r.Success = true ∨
          r.Success = serviceSucceeds (registry.under true) OperationDeploy c)) := by
  have hreg : (NewCtxParallelEngine registry true false 2).registry = registry := rfl
  have huniq : ∀ (i : Nat) (svc : Service), [a, b, c][i]? = some svc →
      serviceSucceeds ((NewCtxParallelEngine registry true false 2).registry.under false)
        OperationDeploy svc = false → i = 1 := by
    intro i svc hs hf
    match i, hs with
    | 0, hs =>
      simp only [List.getElem?_cons_zero, Option.some.injEq] at hs
      subst hs
      rw [hreg, ha] at hf
      exact absurd hf (by decide)
    | 1, _ => rfl
    | 2, hs =>
      simp only [List.getElem?_cons_succ, List.getElem?_cons_zero, Option.some.injEq] at hs
      subst hs
      rw [hreg, hc] at hf
      exact absurd hf (by decide)
    | n + 3, hs => simp at hs
  have hfail : ∀ (svc : Service), [a, b, c][1]? = some svc →
      serviceSucceeds ((NewCtxParallelEngine registry true false 2).registry.under false)
        OperationDeploy svc = false := by
    intro svc hs
    simp only [List.getElem?_cons_succ, List.getElem?_cons_zero, Option.some.injEq] at hs
    subst hs
    exact hb
  obtain ⟨herr, rs, hout, hlen, hslot, res, svc, hk1, hk2, hk3, hk4⟩ :=
    CtxParallelEngine.Execute_with_one_failing_service
      (NewCtxParallelEngine registry true false 2) w [a, b, c] OperationDeploy 1 schedule rfl
      (by simp) huniq hfail hno out err w' h
  refine ⟨herr, ?_⟩
  match rs, hlen with
  | [r0, r1, r2], _ =>
    simp only [List.getElem?_cons_succ, List.getElem?_cons_zero, Option.some.injEq] at hk1 hk2
    subst hk1; subst hk2
    have h0 := hslot 0 r0 a rfl rfl
    have h2 := hslot 2 r2 c rfl rfl
    simp only [ctxOutcome, hreg, ha, hc] at h0 h2
    have hkeep : (r1.ServiceName != "") = true := by
      rw [hk3]; simpa using hname
    refine ⟨if (r0.ServiceName != "") = true then some r0 else none, r1,
      if (r2.ServiceName != "") = true then some r2 else none, ?_, ?_, ⟨hk3, hk4⟩, ?_⟩
    · rw [hout]
      cases k0 : (r0.ServiceName != "") <;> cases k2 : (r2.ServiceName != "") <;>
        simp [filterResults, List.filter, k0, k2, hkeep]
    · intro r hr
      cases k0 : (r0.ServiceName != "") with
      | false => simp [k0] at hr
      | true =>
        simp only [k0, if_true, Option.some.injEq] at hr
        subst hr
        rcases h0 with h0 | h0
        · rw [h0] at k0
          exact absurd k0 (by decide)
        · exact h0
    · intro r hr
      cases k2 : (r2.ServiceName != "") with
      | false => simp [k2] at hr
      | true =>
        simp only [k2, if_true, Option.some.injEq] at hr
        subst hr
        rcases h2 with h2 | h2
        · rw [h2] at k2
          exact absurd k2 (by decide)
        · exact h2

/-- Witness for C26 (amended): the schedule in which `a` has passed the check
of the `failed` flag when `b` fails and cancels. The adapter call of `a` meets
the cancelled context: the returned list holds the failure `a` was left with
when its command was killed, and the failure of `b`; `c` is absent. -/
theorem CtxParallelEngine.Execute_stop_on_failure_keeps_the_failure_witness :
    ∃ (out : List ServiceResult) (err : Option String) (w' : World),
      (NewCtxParallelEngine ctxExampleRegistry true false 2).Execute exampleWorld
        scenarioServices OperationDeploy killSchedule = some ((out, err), w') ∧
      out.map (fun r => (r.ServiceName, r.Success, r.Error)) =
        [("a", false, "signal: killed"), ("b", false, "exit status 1")] ∧
      err = none ∧
      ∃ (ra : Option ServiceResult) (rb : ServiceResult) (rc : Option ServiceResult),
        out = ra.toList ++ [rb] ++ rc.toList ∧
        (∀ r, ra = some r → r.ServiceName = "a" ∧
          (r.Success = true ∨ r.Success =
            serviceSucceeds (ctxExampleRegistry.under true) OperationDeploy
              { Name := "a", Type_ := "ok" })) ∧
        (rb.ServiceName = "b" ∧ rb.Success = false) ∧
        (∀ r, rc = some r → r.ServiceName = "c" ∧
          (r.Success = true ∨ r.Success =
            serviceSucceeds (ctxExampleRegistry.under true) OperationDeploy
              { Name := "c", Type_ := "ok" })) := by
  have hsome : ((NewCtxParallelEngine ctxExampleRegistry true false 2).Execute exampleWorld
      scenarioServices OperationDeploy killSchedule).isSome = true := by decide
  have hmap : ((NewCtxParallelEngine ctxExampleRegistry true false 2).Execute exampleWorld
      scenarioServices OperationDeploy killSchedule).map
        (fun x => x.1.1.map (fun r => (r.ServiceName, r.Success, r.Error))) =
      some [("a", false, "signal: killed"), ("b", false, "exit status 1")] := by decide
  obtain ⟨⟨⟨out, err⟩, w'⟩, h⟩ := Option.isSome_iff_exists.mp hsome
  rw [h] at hmap
  have hthm := CtxParallelEngine.Execute_stop_on_failure_keeps_the_failure ctxExampleRegistry
    { Name := "a", Type_ := "ok" } { Name := "b", Type_ := "ok" } { Name := "c", Type_ := "ok" }
    exampleWorld killSchedule (by decide) (by decide) (by decide) (by decide) (by decide)
    out err w' h
  exact ⟨out, err, w', h, by simpa using hmap, hthm.1, hthm.2⟩

end Migra
